import Mathlib

/-!
# Zeta audio stream (src/audio_stream.c)

Shallow embedding of the speaker event queue, the time mapper and the
square-wave generator of `audio_stream.c`.

Modelling conventions.  The file has two layers.
* Exact layer (`freq_samples_fixed`, `emit_note`, `span_loop`,
  `audio_stream_generate_u8`, the append functions): `double` values
  (timestamps, frequencies, note delay) are exact rationals; a `(long)` or
  `(int)` cast of a double is truncation toward zero.
  Stores into the `u8` sample buffer are taken `% 256`, a negative operand of
  `& 0xFFFFFF00` is converted to 32-bit unsigned, and the cycle-count
  difference of `audio_local_delay_time` wraps to a signed 32-bit value.
  Other signed arithmetic (sample rate, sample indices, the phase counter,
  the fixed-point half period) is exact.
* Machine layer (`fl64`, `cast_long`, `freq_samples_fixed_c`, `note_loop_c`,
  `emit_note_c`, `span_loop_f64`, `audio_stream_generate_u8_f64`): the same
  code in the types of the source.  Every `double` operation is rounded to
  binary64 on its own (round to nearest, ties to even; no fused or extended
  precision evaluation), `int` has 32 bits and `long` 64 bits (LP64), and a
  shift, sum or cast whose result leaves the range of its type is undefined.
  Properties that depend on rounding or on the width of `int` are stated on
  this layer.
* Operations whose behaviour C leaves undefined make the model return `none`:
  a division or remainder by zero, a cast of a non-finite double, an array
  access outside `speaker_entries[0..63]`, a `memset` with a negative length.
* The file-scope variables form the record `AudioState`; `stderr_lines`
  counts the diagnostics printed by `audio_stream_flag_speaker_overrun`.
-/

namespace Zeta

/-- The C struct `speaker_entry`. -/
structure speaker_entry where
  enabled : Bool
  cycles : Int
  freq : ℚ
  ms : ℚ

def AUDIO_VOLUME_MAX : Nat := 127

def SPEAKER_ENTRY_LEN : Nat := 64

/-- The file-scope variables of `audio_stream.c`. -/
structure AudioState where
  speaker_entry_pos : Nat
  speaker_entries : Nat → speaker_entry
  speaker_overrun_flagged : Bool
  speaker_freq_ctr : Int
  audio_volume : Nat
  audio_prev_time : ℚ
  audio_delay_time : ℚ
  audio_freq : Int
  stderr_lines : Nat

/-- The state given by the static initialisers (zero-initialised storage,
`audio_volume = AUDIO_VOLUME_MAX`). -/
def initial_state : AudioState where
  speaker_entry_pos := 0
  speaker_entries := fun _ => { enabled := false, cycles := 0, freq := 0, ms := 0 }
  speaker_overrun_flagged := false
  speaker_freq_ctr := 0
  audio_volume := AUDIO_VOLUME_MAX
  audio_prev_time := 0
  audio_delay_time := 0
  audio_freq := 0
  stderr_lines := 0

/-- Cast of a double to `long` or `int`: truncation toward zero. -/
def trunc (q : ℚ) : Int := Int.tdiv q.num q.den

/-- Two's-complement wrap of an integer to the range of a 32-bit `int`. -/
def wrapInt32 (x : Int) : Int := (x + 2147483648) % 4294967296 - 2147483648

/-- The expression `x & 0xFFFFFF00` for an `int` operand `x`: the operand is converted to
32-bit unsigned (a negative `x` becomes `x + 2^32`) and the low eight bits are cleared. -/
def mask_hi (x : Int) : Int := (if x < 0 then x + 4294967296 else x) / 256 * 256

/-- Read of `speaker_entries[i]`; `none` outside the array. -/
def entry_read (a : Nat → speaker_entry) (i : Int) : Option speaker_entry :=
  if 0 ≤ i ∧ i < (SPEAKER_ENTRY_LEN : Int) then some (a i.toNat) else none

/-- Write of `speaker_entries[i] = e`; `none` outside the array. -/
def entry_write (a : Nat → speaker_entry) (i : Int) (e : speaker_entry) :
    Option (Nat → speaker_entry) :=
  if 0 ≤ i ∧ i < (SPEAKER_ENTRY_LEN : Int) then some (Function.update a i.toNat e) else none

/-- The call `memset(stream + off, c, n)` for `n >= 0`. -/
def memset (stream : Nat → Nat) (off : Int) (c : Nat) (n : Int) : Nat → Nat :=
  fun j => if off ≤ (j : Int) ∧ (j : Int) < off + n then c else stream j

def audio_stream_flag_speaker_overrun (s : AudioState) : AudioState :=
  if ¬ s.speaker_overrun_flagged then
    { s with stderr_lines := s.stderr_lines + 1, speaker_overrun_flagged := true }
  else s

def audio_local_delay_time (s : AudioState) (cycles_prev cycles_curr : Int) : ℚ :=
  if cycles_prev ≥ cycles_curr then 0
  else if wrapInt32 (cycles_curr - cycles_prev) > 3600 then s.audio_delay_time
  else (wrapInt32 (cycles_curr - cycles_prev) : ℚ) * s.audio_delay_time / 3600

def audio_stream_init (s : AudioState) (_time : Int) (freq : Int) : AudioState :=
  { s with audio_prev_time := -1, audio_delay_time := 1, audio_freq := freq,
           speaker_overrun_flagged := false }

def audio_stream_get_volume (s : AudioState) : Nat := s.audio_volume

def audio_stream_get_note_delay (s : AudioState) : ℚ := s.audio_delay_time

def audio_stream_set_note_delay (s : AudioState) (delay : ℚ) : AudioState :=
  { s with audio_delay_time := delay }

def audio_stream_get_max_volume : Nat := AUDIO_VOLUME_MAX

def audio_stream_set_volume (s : AudioState) (volume : Nat) : AudioState :=
  { s with audio_volume := if volume > AUDIO_VOLUME_MAX then AUDIO_VOLUME_MAX else volume }

/-- The value `freq_samples_fixed` of line 182: `(int) ((audio_freq << 8) / (freq * 2))`. -/
def freq_samples_fixed (audio_freq : Int) (freq : ℚ) : Int :=
  trunc (((audio_freq * 256 : Int) : ℚ) / (freq * 2))

/-- The sample loop of lines 184-190: `n` iterations starting at index `j`
with phase `pos_samples_fixed`. -/
def note_loop (volume : Nat) (fsf : Int) : Nat → Int → Int → (Nat → Nat) → (Nat → Nat)
  | 0, _, _, stream => stream
  | n + 1, j, pos_samples_fixed, stream =>
    note_loop volume fsf n (j + 1) (Int.tmod (pos_samples_fixed + 256) (fsf * 2))
      (Function.update stream j.toNat
        (if mask_hi pos_samples_fixed < mask_hi fsf then (128 + volume) % 256
         else (((128 : Int) - (volume : Int)) % 256).toNat))

/-- Lines 182-190: render an enabled entry into `stream[audio_from .. audio_to)`. -/
def emit_note (audio_freq : Int) (volume : Nat) (freq : ℚ) (ctr : Int)
    (audio_from audio_to : Int) (stream : Nat → Nat) : Option (Nat → Nat) :=
  if freq * 2 = 0 then none
  else if freq_samples_fixed audio_freq freq * 2 = 0 then none
  else some (note_loop volume (freq_samples_fixed audio_freq freq) (audio_to - audio_from).toNat
    audio_from (Int.tmod (ctr * 256) (freq_samples_fixed audio_freq freq * 2)) stream)

/-- The value `audio_dto` of lines 158-159 for entry `i`. -/
def audio_dto (s : AudioState) (audio_res : ℚ) (i : Nat) : Option ℚ :=
  if i + 1 = s.speaker_entry_pos then some audio_res
  else (entry_read s.speaker_entries ((i : Int) + 1)).map (fun e => e.ms - s.audio_prev_time)

/-- Line 171 when the loop does not break: `if (audio_from < 0) audio_from = 0;`. -/
def clip_from (audio_from : Int) : Int := if audio_from < 0 then 0 else audio_from

/-- Lines 173-174: `if (audio_to < 0) audio_to = 0; else if (audio_to > len) audio_to = len;`. -/
def clip_to (audio_to len : Int) : Int :=
  if audio_to < 0 then 0 else if audio_to > len then len else audio_to

/-- The entry loop of lines 155-197, with `n` iterations left, at index `i`.
The result is the index at which the loop stopped, the phase counter
`speaker_freq_ctr` and the sample buffer. -/
def span_loop (s : AudioState) (len : Int) (audio_res res_to_samples : ℚ) :
    Nat → Nat → Int → (Nat → Nat) → Option (Nat × Int × (Nat → Nat))
  | 0, i, ctr, stream => some (i, ctr, stream)
  | n + 1, i, ctr, stream =>
    (entry_read s.speaker_entries i).bind fun e =>
    (audio_dto s audio_res i).bind fun dto =>
      let audio_from := trunc ((e.ms - s.audio_prev_time) * res_to_samples)
      let audio_to := trunc (dto * res_to_samples)
      if ¬ audio_from < 0 ∧ audio_from ≥ len then some (i, ctr, stream)
      else if clip_to audio_to len > clip_from audio_from then
        if e.enabled then
          (emit_note s.audio_freq s.audio_volume e.freq ctr (clip_from audio_from)
              (clip_to audio_to len) stream).bind
            fun stream1 =>
              span_loop s len audio_res res_to_samples n (i + 1)
                (ctr + (clip_to audio_to len - clip_from audio_from)) stream1
        else
          span_loop s len audio_res res_to_samples n (i + 1) 0
            (memset stream (clip_from audio_from) 128
              (clip_to audio_to len - clip_from audio_from))
      else span_loop s len audio_res res_to_samples n (i + 1) ctr stream

/-- The compaction loop of lines 202-204, `speaker_entries[i - k] = speaker_entries[i]`,
with `n` iterations left, at index `i`. -/
def compact_loop (k : Int) : Nat → Int → (Nat → speaker_entry) → Option (Nat → speaker_entry)
  | 0, _, a => some a
  | n + 1, i, a =>
    (entry_read a i).bind fun e =>
    (entry_write a (i - k) e).bind fun a1 =>
      compact_loop k n (i + 1) a1

def audio_stream_generate_u8 (s : AudioState) (time : Int) (stream : Nat → Nat) (len : Int) :
    Option (AudioState × (Nat → Nat)) :=
  let audio_curr_time : ℚ := s.audio_prev_time + ((len : ℚ) / (s.audio_freq : ℚ) * 1000)
  let audio_res : ℚ := audio_curr_time - s.audio_prev_time
  let res_to_samples : ℚ := (len : ℚ) / audio_res
  if s.audio_prev_time < 0 then
    if len < 0 then none
    else some ({ s with audio_prev_time := time, speaker_entry_pos := 0 },
               memset stream 0 128 len)
  else
    let audio_curr_time : ℚ := if audio_curr_time < time then time else audio_curr_time
    if s.speaker_entry_pos = 0 then
      if len < 0 then none
      else some ({ s with audio_prev_time := time }, memset stream 0 128 len)
    else if s.audio_freq = 0 ∨ len = 0 then none
    else
      (span_loop s len audio_res res_to_samples s.speaker_entry_pos 0
          s.speaker_freq_ctr stream).bind fun r =>
        let k : Int := (r.1 : Int) - 1
        let k : Int := if k ≥ s.speaker_entry_pos then (s.speaker_entry_pos : Int) - 1 else k
        (compact_loop k ((s.speaker_entry_pos : Int) - k).toNat k s.speaker_entries).bind
          fun a =>
            let pos1 : Nat := ((s.speaker_entry_pos : Int) - k).toNat
            let audio_curr_time : ℚ := if pos1 = 1 then time else audio_curr_time
            some ({ s with
                    speaker_entries := Function.update a 0 { a 0 with ms := audio_curr_time }
                    speaker_entry_pos := pos1
                    speaker_overrun_flagged := false
                    speaker_freq_ctr := r.2.1
                    audio_prev_time := audio_curr_time }, r.2.2)

def audio_stream_append_on (s : AudioState) (time : Int) (cycles : Int) (freq : ℚ) :
    AudioState :=
  if s.speaker_entry_pos ≥ SPEAKER_ENTRY_LEN - 1 then audio_stream_flag_speaker_overrun s
  else
    let last := s.speaker_entries (s.speaker_entry_pos - 1)
    let last_ms : ℚ := last.ms + audio_local_delay_time s last.cycles cycles
    let ms : ℚ :=
      if s.speaker_entry_pos > 0 ∧ last.enabled = true ∧ last_ms ≥ time then last_ms else time
    { s with
      speaker_entries := Function.update s.speaker_entries s.speaker_entry_pos
        { enabled := true, cycles := cycles, freq := freq, ms := ms }
      speaker_entry_pos := s.speaker_entry_pos + 1 }

def audio_stream_append_off (s : AudioState) (time : Int) (cycles : Int) : AudioState :=
  if s.speaker_entry_pos ≥ SPEAKER_ENTRY_LEN then audio_stream_flag_speaker_overrun s
  else
    let time : Int := if (time : ℚ) < s.audio_prev_time then trunc s.audio_prev_time else time
    let last := s.speaker_entries (s.speaker_entry_pos - 1)
    let last_ms : ℚ := last.ms + audio_local_delay_time s last.cycles cycles
    let ms : ℚ :=
      if s.speaker_entry_pos > 0 ∧ last.enabled = true ∧ last_ms ≥ time then last_ms else time
    { s with
      speaker_entries := Function.update s.speaker_entries s.speaker_entry_pos
        { enabled := false, cycles := cycles, freq := (s.speaker_entries s.speaker_entry_pos).freq,
          ms := ms }
      speaker_entry_pos := s.speaker_entry_pos + 1 }


/-- States reachable from the static initial state through the public functions. -/
inductive Reachable : AudioState → Prop
  | initial : Reachable initial_state
  | init (s : AudioState) (time freq : Int) : Reachable s → Reachable (audio_stream_init s time freq)
  | set_volume (s : AudioState) (v : Nat) : v < 256 → Reachable s →
      Reachable (audio_stream_set_volume s v)
  | set_note_delay (s : AudioState) (d : ℚ) : Reachable s →
      Reachable (audio_stream_set_note_delay s d)
  | append_on (s : AudioState) (time cycles : Int) (freq : ℚ) : Reachable s →
      Reachable (audio_stream_append_on s time cycles freq)
  | append_off (s : AudioState) (time cycles : Int) : Reachable s →
      Reachable (audio_stream_append_off s time cycles)
  | generate (s s1 : AudioState) (time len : Int) (stream out : Nat → Nat) : Reachable s →
      audio_stream_generate_u8 s time stream len = some (s1, out) → Reachable s1


/-- The state after `audio_stream_init(0, 1000)` on the initial state and a priming call of
`audio_stream_generate_u8` at callback time 0. -/
def primed_state : AudioState :=
  { audio_stream_init initial_state 0 1000 with audio_prev_time := 0, speaker_entry_pos := 0 }

/-- The primed stream at 1000 Hz after `audio_stream_append_on(0, 0, 100)`: one enabled entry
of 100 Hz with timestamp 0. -/
def tone_state : AudioState := audio_stream_append_on primed_state 0 0 100

/-- The primed stream at 1000 Hz after `audio_stream_append_on(5, 0, 100)`: one enabled entry
of 100 Hz with timestamp 5, later than `audio_prev_time = 0`. -/
def gap_state : AudioState := audio_stream_append_on primed_state 5 0 100

/-- A producer call: `audio_stream_append_on(time, cycles, freq)` or
`audio_stream_append_off(time, cycles)`. -/
inductive Call where
  | note_on (time cycles : Int) (freq : ℚ)
  | note_off (time cycles : Int)

def apply_call (s : AudioState) : Call → AudioState
  | Call.note_on time cycles freq => audio_stream_append_on s time cycles freq
  | Call.note_off time cycles => audio_stream_append_off s time cycles

/-- A sequence of producer calls, executed in order with nothing in between. -/
def run_calls (s : AudioState) : List Call → AudioState
  | [] => s
  | c :: rest => run_calls (apply_call s c) rest

/-- The guards of lines 227 and 252: the call returns without storing an entry. -/
def call_dropped (s : AudioState) : Call → Bool
  | Call.note_on _ _ _ => decide (s.speaker_entry_pos ≥ SPEAKER_ENTRY_LEN - 1)
  | Call.note_off _ _ => decide (s.speaker_entry_pos ≥ SPEAKER_ENTRY_LEN)

/-- The calls on, off, on, off, ... built from a list of argument pairs. -/
def alternate_calls : List ((Int × Int × ℚ) × (Int × Int)) → List Call
  | [] => []
  | p :: rest =>
    Call.note_on p.1.1 p.1.2.1 p.1.2.2 :: Call.note_off p.2.1 p.2.2 :: alternate_calls rest

/-- The primed stream after 32 pairs `audio_stream_append_on(0, 0, 440)`,
`audio_stream_append_off(0, 0)`. -/
def full_state : AudioState :=
  run_calls primed_state (alternate_calls (List.replicate 32 ((0, 0, 440), (0, 0))))

/-- The primed stream after 31 such pairs and one more `audio_stream_append_on(0, 0, 440)`:
63 queued events. -/
def almost_full_state : AudioState :=
  audio_stream_append_on
    (run_calls primed_state (alternate_calls (List.replicate 31 ((0, 0, 440), (0, 0))))) 0 0 440

/-- The primed stream at 1000 Hz after `audio_stream_append_on(50, 0, 100)`: one enabled entry
whose timestamp lies 50 ms after `audio_prev_time = 0`. -/
def late_state : AudioState := audio_stream_append_on primed_state 50 0 100

/-- The value `audio_from` of line 162 for entry `i` of a non-priming call of length `len`,
before the clipping of lines 171-172. -/
def audio_from (s : AudioState) (len : Int) (i : Nat) : Int :=
  trunc (((s.speaker_entries i).ms - s.audio_prev_time) *
    ((len : ℚ) / (s.audio_prev_time + ((len : ℚ) / (s.audio_freq : ℚ) * 1000)
      - s.audio_prev_time)))

/-- The stream after `audio_stream_init(0, 1000)`, 32 pairs of accepted on/off calls and one
dropped `audio_stream_append_on` (overrun flag set), all before the priming call. -/
def unprimed_full_state : AudioState :=
  audio_stream_append_on
    (run_calls (audio_stream_init initial_state 0 1000)
      (alternate_calls (List.replicate 32 ((0, 0, 440), (0, 0))))) 0 0 440

/-- The state after the priming call of `audio_stream_generate_u8` at callback time 0 on
`unprimed_full_state`: primed, empty queue, overrun flag still set. -/
def flagged_empty_state : AudioState :=
  { unprimed_full_state with audio_prev_time := 0, speaker_entry_pos := 0 }

/-- The timestamps stored in the queue are nondecreasing in queue order. -/
def queue_sorted (s : AudioState) : Prop :=
  ∀ j : Nat, j + 1 < s.speaker_entry_pos →
    (s.speaker_entries j).ms ≤ (s.speaker_entries (j + 1)).ms

/-- The value of the parameter `time` of `audio_stream_append_off` after lines 257-258. -/
def clamped_off_time (s : AudioState) (time : Int) : Int :=
  if (time : ℚ) < s.audio_prev_time then trunc s.audio_prev_time else time

/-- The primed stream at 1000 Hz after `audio_stream_append_on(0, 0, 100)`,
`audio_stream_append_off(0, 1800)` and `audio_stream_append_on(0, 1800, 100)`. -/
def unsorted_state : AudioState :=
  audio_stream_append_on (audio_stream_append_off tone_state 0 1800) 0 1800 100

/-- The value of `audio_curr_time` at lines 211 and 220 of a non-priming call on a non-empty
queue when `pos1` entries remain after compaction: the callback time for one entry (line
209), otherwise the nominal end of the buffer clamped to the callback time (lines 138-140). -/
def final_curr_time (s : AudioState) (time len : Int) (pos1 : Nat) : ℚ :=
  if pos1 = 1 then (time : ℚ)
  else max (s.audio_prev_time + ((len : ℚ) / (s.audio_freq : ℚ) * 1000)) (time : ℚ)

/-- The state after `audio_stream_init(0, 2000)` and a priming call at callback time 0. -/
def primed_state_2000 : AudioState :=
  { audio_stream_init initial_state 0 2000 with audio_prev_time := 0, speaker_entry_pos := 0 }

/-- The primed stream at 2000 Hz after `audio_stream_append_on(0, 0, 100)` and
`audio_stream_append_off(100, 0)`. -/
def two_entry_state : AudioState :=
  audio_stream_append_off (audio_stream_append_on primed_state_2000 0 0 100) 100 0

/-- Rounding of a real number to the nearest integer, ties to the even one. -/
def round_half_even (x : ℚ) : Int :=
  if 2 * (x - ⌊x⌋) < 1 then ⌊x⌋
  else if 1 < 2 * (x - ⌊x⌋) then ⌊x⌋ + 1
  else if ⌊x⌋ % 2 = 0 then ⌊x⌋ else ⌊x⌋ + 1

/-- The binary64 result of an arithmetic operation whose exact value is `q`: the nearest
number with a 53-bit significand, ties to even.  The exponent range is not bounded:
overflow to infinity and subnormal results are outside this model. -/
def fl64 (q : ℚ) : ℚ :=
  if q = 0 then 0
  else (round_half_even (q * (2 : ℚ) ^ (52 - Int.log 2 |q|)) : ℚ) / (2 : ℚ) ^ (52 - Int.log 2 |q|)

/-- Cast of a binary64 value to `long` (64 bits): truncation toward zero, undefined when
the truncated value is outside the range of `long`. -/
def cast_long (q : ℚ) : Option Int :=
  if q ≤ -9223372036854775809 ∨ 9223372036854775808 ≤ q then none else some (trunc q)

/-- Line 182 in the types of the code, `(int) ((audio_freq << 8) / (freq * 2))`: the shift
is a 32-bit `int` operation, the product and the quotient are binary64 operations and the
cast is defined only when the truncated quotient is in the range of `int`.  A zero divisor
gives an infinite or NaN quotient, whose cast is undefined. -/
def freq_samples_fixed_c (audio_freq : Int) (freq : ℚ) : Option Int :=
  if audio_freq < 0 ∨ 2147483648 ≤ audio_freq * 256 then none
  else if fl64 (freq * 2) = 0 then none
  else if fl64 (((audio_freq * 256 : Int) : ℚ) / fl64 (freq * 2)) ≤ -2147483649 ∨
      2147483648 ≤ fl64 (((audio_freq * 256 : Int) : ℚ) / fl64 (freq * 2)) then none
  else some (trunc (fl64 (((audio_freq * 256 : Int) : ℚ) / fl64 (freq * 2))))

/-- The sample loop of lines 184-190 with the `int` variable `pos_samples_fixed`: the sum
`pos_samples_fixed + 256` is undefined when it exceeds the range of `int`. -/
def note_loop_c (volume : Nat) (fsf : Int) :
    Nat → Int → Int → (Nat → Nat) → Option (Nat → Nat)
  | 0, _, _, stream => some stream
  | n + 1, j, pos_samples_fixed, stream =>
    if 2147483648 ≤ pos_samples_fixed + 256 then none
    else
      note_loop_c volume fsf n (j + 1) (Int.tmod (pos_samples_fixed + 256) (fsf * 2))
        (Function.update stream j.toNat
          (if mask_hi pos_samples_fixed < mask_hi fsf then (128 + volume) % 256
           else (((128 : Int) - (volume : Int)) % 256).toNat))

/-- Lines 182-190 in the types of the code: `speaker_freq_ctr << 8` is a `long` shift,
`freq_samples_fixed << 1` an `int` shift (both undefined for a negative operand or a
result out of range) and the remainder is undefined for a zero divisor. -/
def emit_note_c (audio_freq : Int) (volume : Nat) (freq : ℚ) (ctr : Int)
    (audio_from audio_to : Int) (stream : Nat → Nat) : Option (Nat → Nat) :=
  (freq_samples_fixed_c audio_freq freq).bind fun fsf =>
    if ctr < 0 ∨ 9223372036854775808 ≤ ctr * 256 then none
    else if fsf < 0 ∨ 2147483648 ≤ fsf * 2 then none
    else if fsf * 2 = 0 then none
    else note_loop_c volume fsf (audio_to - audio_from).toNat audio_from
      (Int.tmod (ctr * 256) (fsf * 2)) stream

/-- The value `audio_dto` of lines 158-159 for entry `i`, the subtraction in binary64. -/
def audio_dto_f64 (s : AudioState) (audio_res : ℚ) (i : Nat) : Option ℚ :=
  if i + 1 = s.speaker_entry_pos then some audio_res
  else (entry_read s.speaker_entries ((i : Int) + 1)).map
    (fun e => fl64 (e.ms - s.audio_prev_time))

/-- The entry loop of lines 155-197 with binary64 arithmetic for the `double` operations
and the casts to `long` of lines 162-163. -/
def span_loop_f64 (s : AudioState) (len : Int) (audio_res res_to_samples : ℚ) :
    Nat → Nat → Int → (Nat → Nat) → Option (Nat × Int × (Nat → Nat))
  | 0, i, ctr, stream => some (i, ctr, stream)
  | n + 1, i, ctr, stream =>
    (entry_read s.speaker_entries i).bind fun e =>
    (audio_dto_f64 s audio_res i).bind fun dto =>
    (cast_long (fl64 (fl64 (e.ms - s.audio_prev_time) * res_to_samples))).bind fun audio_from =>
    (cast_long (fl64 (dto * res_to_samples))).bind fun audio_to =>
      if ¬ audio_from < 0 ∧ audio_from ≥ len then some (i, ctr, stream)
      else if clip_to audio_to len > clip_from audio_from then
        if e.enabled then
          (emit_note_c s.audio_freq s.audio_volume e.freq ctr (clip_from audio_from)
              (clip_to audio_to len) stream).bind
            fun stream1 =>
              span_loop_f64 s len audio_res res_to_samples n (i + 1)
                (ctr + (clip_to audio_to len - clip_from audio_from)) stream1
        else
          span_loop_f64 s len audio_res res_to_samples n (i + 1) 0
            (memset stream (clip_from audio_from) 128
              (clip_to audio_to len - clip_from audio_from))
      else span_loop_f64 s len audio_res res_to_samples n (i + 1) ctr stream

/-- The value `audio_res` of lines 123-125 in binary64: the nominal length of the buffer in
milliseconds, computed before the drift clamp of lines 138-140. -/
def audio_res_f64 (s : AudioState) (len : Int) : ℚ :=
  fl64 (fl64 (s.audio_prev_time + fl64 (fl64 ((len : ℚ) / (s.audio_freq : ℚ)) * 1000))
    - s.audio_prev_time)

/-- The value `res_to_samples` of line 126 in binary64. -/
def res_to_samples_f64 (s : AudioState) (len : Int) : ℚ :=
  fl64 ((len : ℚ) / audio_res_f64 s len)

/-- The function `audio_stream_generate_u8` with binary64 arithmetic for every `double`
operation (conversions of `time` included), 64-bit `long` and 32-bit `int`.  A zero
`audio_res` makes `res_to_samples` infinite or NaN and the casts of line 162 undefined. -/
def audio_stream_generate_u8_f64 (s : AudioState) (time : Int) (stream : Nat → Nat)
    (len : Int) : Option (AudioState × (Nat → Nat)) :=
  let audio_curr_time : ℚ :=
    fl64 (s.audio_prev_time + fl64 (fl64 ((len : ℚ) / (s.audio_freq : ℚ)) * 1000))
  if s.audio_prev_time < 0 then
    if len < 0 then none
    else some ({ s with audio_prev_time := fl64 time, speaker_entry_pos := 0 },
               memset stream 0 128 len)
  else
    let audio_curr_time : ℚ :=
      if audio_curr_time < fl64 time then fl64 time else audio_curr_time
    if s.speaker_entry_pos = 0 then
      if len < 0 then none
      else some ({ s with audio_prev_time := fl64 time }, memset stream 0 128 len)
    else if s.audio_freq = 0 ∨ len = 0 ∨ audio_res_f64 s len = 0 then none
    else
      (span_loop_f64 s len (audio_res_f64 s len) (res_to_samples_f64 s len)
          s.speaker_entry_pos 0 s.speaker_freq_ctr stream).bind fun r =>
        let k : Int := (r.1 : Int) - 1
        let k : Int := if k ≥ s.speaker_entry_pos then (s.speaker_entry_pos : Int) - 1 else k
        (compact_loop k ((s.speaker_entry_pos : Int) - k).toNat k s.speaker_entries).bind
          fun a =>
            let pos1 : Nat := ((s.speaker_entry_pos : Int) - k).toNat
            let audio_curr_time : ℚ := if pos1 = 1 then fl64 time else audio_curr_time
            some ({ s with
                    speaker_entries := Function.update a 0 { a 0 with ms := audio_curr_time }
                    speaker_entry_pos := pos1
                    speaker_overrun_flagged := false
                    speaker_freq_ctr := r.2.1
                    audio_prev_time := audio_curr_time }, r.2.2)

/-- The state after `audio_stream_init(0, 44100)` and a priming call at callback time
10000. -/
def primed_state_44100 : AudioState :=
  { audio_stream_init initial_state 0 44100 with
    audio_prev_time := 10000, speaker_entry_pos := 0 }

/-- The primed stream at 44100 Hz after `audio_stream_append_on(10000, 0, 440)`: one enabled
entry of 440 Hz whose timestamp equals `audio_prev_time = 10000`. -/
def tone_state_44100 : AudioState := audio_stream_append_on primed_state_44100 10000 0 440

/-- The value of `audio_curr_time` at lines 211 and 220 of a non-priming binary64 call on a
non-empty queue when `pos1` entries remain after compaction: the callback time for one
entry (line 209), otherwise the nominal end of the buffer clamped to the callback time
(lines 138-140). -/
def final_curr_time_f64 (s : AudioState) (time len : Int) (pos1 : Nat) : ℚ :=
  if pos1 = 1 then fl64 (time : ℚ)
  else max (fl64 (s.audio_prev_time + fl64 (fl64 ((len : ℚ) / (s.audio_freq : ℚ)) * 1000)))
    (fl64 (time : ℚ))

/-- The start sample of entry `i` in a non-priming binary64 call of length `len`: the cast
of line 162, before the clipping of lines 171-172. -/
def audio_from_f64 (s : AudioState) (len : Int) (i : Nat) : Option Int :=
  cast_long (fl64 (fl64 ((s.speaker_entries i).ms - s.audio_prev_time) *
    res_to_samples_f64 s len))

/-- The end sample of the last queued entry in a non-priming binary64 call of length `len`:
the cast of line 163 for `audio_dto = audio_res`, before the clipping of lines 173-174. -/
def audio_to_last_f64 (s : AudioState) (len : Int) : Option Int :=
  cast_long (fl64 (audio_res_f64 s len * res_to_samples_f64 s len))

/-- The primed stream at 1000 Hz after `audio_stream_append_on(0, 0, 0.0)`: one enabled
entry with frequency zero. -/
def zero_freq_state : AudioState := audio_stream_append_on primed_state 0 0 0

/-- The primed stream at 44100 Hz after `audio_stream_append_on(10000, 0, 0.0009765625)`:
one enabled entry with the frequency `2^-10` Hz. -/
def tiny_freq_state : AudioState :=
  audio_stream_append_on primed_state_44100 10000 0 (1 / 1024)

/-- The end sample of entry `i` in a non-priming binary64 call of length `len`: the cast of
line 163, mapped from the next entry's timestamp or, for the last entry, from the nominal
length `audio_res` of the buffer; before the clipping of lines 173-174. -/
def audio_to_f64 (s : AudioState) (len : Int) (i : Nat) : Option Int :=
  (audio_dto_f64 s (audio_res_f64 s len) i).bind fun dto =>
    cast_long (fl64 (dto * res_to_samples_f64 s len))

/-! ## Theorems -/

theorem memset_inside (stream : Nat → Nat) (c : Nat) (len : Int) (j : Nat) (h : (j : Int) < len) :
    memset stream 0 c len j = c := by
  have h0 : (0 : Int) ≤ (j : Int) := Int.ofNat_nonneg j
  simp [memset, h, h0]

theorem memset_outside (stream : Nat → Nat) (c : Nat) (len : Int) (j : Nat) (h : len ≤ (j : Int)) :
    memset stream 0 c len j = stream j := by
  have h1 : ¬ (j : Int) < len := not_lt.mpr h
  simp [memset, h1]

theorem generate_priming (s : AudioState) (time : Int) (stream : Nat → Nat) (len : Int)
    (hp : s.audio_prev_time < 0) (hl : 0 ≤ len) :
    audio_stream_generate_u8 s time stream len =
      some ({ s with audio_prev_time := time, speaker_entry_pos := 0 }, memset stream 0 128 len) := by
  have hl1 : ¬ len < 0 := not_lt.mpr hl
  simp [audio_stream_generate_u8, hp, hl1]

theorem generate_empty (s : AudioState) (time : Int) (stream : Nat → Nat) (len : Int)
    (hp : 0 ≤ s.audio_prev_time) (hq : s.speaker_entry_pos = 0) (hl : 0 ≤ len) :
    audio_stream_generate_u8 s time stream len =
      some ({ s with audio_prev_time := time }, memset stream 0 128 len) := by
  have hl1 : ¬ len < 0 := not_lt.mpr hl
  have hp1 : ¬ s.audio_prev_time < 0 := not_lt.mpr hp
  simp [audio_stream_generate_u8, hp1, hl1, hq]

theorem append_on_prev_time (s : AudioState) (time cycles : Int) (freq : ℚ) :
    (audio_stream_append_on s time cycles freq).audio_prev_time = s.audio_prev_time := by
  unfold audio_stream_append_on audio_stream_flag_speaker_overrun
  split_ifs <;> rfl

/-- C1. After `audio_stream_init`, the first `audio_stream_generate_u8` call with `len >= 0`
returns, writes 128 into bytes `0 .. len-1` (and nothing else), sets the queue length to 0
and sets `audio_prev_time` to the callback time, whatever the prior state was. -/
theorem priming_generate_after_init (s : AudioState) (t0 freq time : Int) (stream : Nat → Nat)
    (len : Int) (hlen : 0 ≤ len) :
    ∃ s1 out, audio_stream_generate_u8 (audio_stream_init s t0 freq) time stream len
        = some (s1, out) ∧
      (∀ j : Nat, (j : Int) < len → out j = 128) ∧
      (∀ j : Nat, len ≤ (j : Int) → out j = stream j) ∧
      s1.speaker_entry_pos = 0 ∧ s1.audio_prev_time = time := by
  have hp : (audio_stream_init s t0 freq).audio_prev_time < 0 := by
    simp [audio_stream_init]
  refine ⟨_, _, generate_priming _ time stream len hp hlen, ?_, ?_, rfl, rfl⟩
  · intro j hj
    exact memset_inside stream 128 len j hj
  · intro j hj
    exact memset_outside stream 128 len j hj

theorem priming_generate_after_init_witness :
    (0 : Int) ≤ 4 ∧
    ∃ s1 out, audio_stream_generate_u8
        (audio_stream_init (audio_stream_append_on initial_state 0 0 440) 0 44100) 7
        (fun _ => 0) 4 = some (s1, out) ∧
      (∀ j : Nat, (j : Int) < 4 → out j = 128) ∧
      (∀ j : Nat, (4 : Int) ≤ (j : Int) → out j = (fun _ => 0) j) ∧
      s1.speaker_entry_pos = 0 ∧ s1.audio_prev_time = ((7 : Int) : ℚ) :=
  ⟨by decide, priming_generate_after_init _ 0 44100 7 (fun _ => 0) 4 (by decide)⟩

/-- C4. On a primed stream with an empty queue, `audio_stream_generate_u8` with `len > 0`
returns, writes 128 into all `len` bytes, leaves the queue empty and leaves the phase
counter `speaker_freq_ctr` unchanged. -/
theorem generate_empty_queue_silence (s : AudioState) (time : Int) (stream : Nat → Nat)
    (len : Int) (hprimed : 0 ≤ s.audio_prev_time) (hq : s.speaker_entry_pos = 0)
    (hlen : 0 < len) :
    ∃ s1 out, audio_stream_generate_u8 s time stream len = some (s1, out) ∧
      (∀ j : Nat, (j : Int) < len → out j = 128) ∧
      s1.speaker_entry_pos = 0 ∧ s1.speaker_freq_ctr = s.speaker_freq_ctr := by
  refine ⟨_, _, generate_empty s time stream len hprimed hq (le_of_lt hlen), ?_, hq, rfl⟩
  intro j hj
  exact memset_inside stream 128 len j hj

theorem generate_empty_queue_silence_witness :
    (0 : ℚ) ≤ primed_state.audio_prev_time ∧ primed_state.speaker_entry_pos = 0 ∧
    (0 : Int) < 8 ∧
    ∃ s1 out, audio_stream_generate_u8 primed_state 3 (fun _ => 0) 8 = some (s1, out) ∧
      (∀ j : Nat, (j : Int) < 8 → out j = 128) ∧
      s1.speaker_entry_pos = 0 ∧ s1.speaker_freq_ctr = primed_state.speaker_freq_ctr :=
  ⟨le_refl _, rfl, by decide,
    generate_empty_queue_silence primed_state 3 (fun _ => 0) 8 (le_refl _) rfl (by decide)⟩

theorem append_on_prev_time_neg (s : AudioState) (t0 rate time cycles : Int) (freq : ℚ) :
    (audio_stream_append_on (audio_stream_init s t0 rate) time cycles freq).audio_prev_time
      < 0 := by
  rw [append_on_prev_time]
  simp [audio_stream_init]

/-- C3 (counterexample). In the end-to-end scenario the priming call discards the queued on
event, so the second call returns 512 samples of 128 although the volume is 127: no sample
equals 128+127 or 128-127. -/
theorem end_to_end_second_buffer_silent :
    ∃ s1 o1 s2 o2,
      audio_stream_generate_u8
        (audio_stream_append_on (audio_stream_init initial_state 0 44100) 0 0 440) 0
        (fun _ => 0) 512 = some (s1, o1) ∧
      audio_stream_generate_u8 s1 12 (fun _ => 0) 512 = some (s2, o2) ∧
      audio_stream_get_volume s2 = 127 ∧
      (∀ j : Nat, j < 512 → o2 j = 128) ∧
      ¬ (∃ j : Nat, j < 512 ∧ (o2 j = 128 + 127 ∨ o2 j = 128 - 127)) := by
  have h1 := generate_priming
    (audio_stream_append_on (audio_stream_init initial_state 0 44100) 0 0 440) 0
    (fun _ => 0) 512 (append_on_prev_time_neg _ _ _ _ _ _) (by decide)
  refine ⟨_, _, _, _, h1, generate_empty _ 12 (fun _ => 0) 512 ?_ rfl (by decide), ?_, ?_, ?_⟩
  · simp
  · rfl
  · intro j hj
    exact memset_inside _ 128 512 j (by exact_mod_cast hj)
  · rintro ⟨j, hj, h⟩
    have h128 : memset (fun _ => 0) 0 128 512 j = 128 :=
      memset_inside _ 128 512 j (by exact_mod_cast hj)
    rw [h128] at h
    omega

/-- C3 (amended). An on event appended between `audio_stream_init` and the priming call is
discarded by the priming call: both the priming call and the call after it return buffers
of 128 only, and the queue is empty after each of them. -/
theorem on_before_priming_is_discarded (s : AudioState) (t0 rate time cycles : Int) (freq : ℚ)
    (time1 time2 len1 len2 : Int) (stream1 stream2 : Nat → Nat)
    (hlen1 : 0 ≤ len1) (hlen2 : 0 ≤ len2) :
    ∃ s1 o1 s2 o2,
      audio_stream_generate_u8
        (audio_stream_append_on (audio_stream_init s t0 rate) time cycles freq) time1
        stream1 len1 = some (s1, o1) ∧
      audio_stream_generate_u8 s1 time2 stream2 len2 = some (s2, o2) ∧
      (∀ j : Nat, (j : Int) < len1 → o1 j = 128) ∧
      (∀ j : Nat, (j : Int) < len2 → o2 j = 128) ∧
      s1.speaker_entry_pos = 0 ∧ s2.speaker_entry_pos = 0 := by
  have h1 := generate_priming
    (audio_stream_append_on (audio_stream_init s t0 rate) time cycles freq) time1
    stream1 len1 (append_on_prev_time_neg _ _ _ _ _ _) hlen1
  by_cases hneg : ((time1 : Int) : ℚ) < 0
  · refine ⟨_, _, _, _, h1, generate_priming _ time2 stream2 len2 hneg hlen2, ?_, ?_, rfl, rfl⟩
    · intro j hj
      exact memset_inside _ 128 len1 j hj
    · intro j hj
      exact memset_inside _ 128 len2 j hj
  · refine ⟨_, _, _, _, h1, generate_empty _ time2 stream2 len2 (not_lt.mp hneg) rfl hlen2,
      ?_, ?_, rfl, rfl⟩
    · intro j hj
      exact memset_inside _ 128 len1 j hj
    · intro j hj
      exact memset_inside _ 128 len2 j hj

theorem on_before_priming_is_discarded_witness :
    (0 : Int) ≤ 512 ∧ (0 : Int) ≤ 512 ∧
    ∃ s1 o1 s2 o2,
      audio_stream_generate_u8
        (audio_stream_append_on (audio_stream_init initial_state 0 44100) 0 0 440) 0
        (fun _ => 0) 512 = some (s1, o1) ∧
      audio_stream_generate_u8 s1 12 (fun _ => 0) 512 = some (s2, o2) ∧
      (∀ j : Nat, (j : Int) < 512 → o1 j = 128) ∧
      (∀ j : Nat, (j : Int) < 512 → o2 j = 128) ∧
      s1.speaker_entry_pos = 0 ∧ s2.speaker_entry_pos = 0 :=
  ⟨by decide, by decide,
    on_before_priming_is_discarded initial_state 0 44100 0 0 440 0 12 512 512
      (fun _ => 0) (fun _ => 0) (by decide) (by decide)⟩

theorem set_volume_le (s : AudioState) (v : Nat) :
    (audio_stream_set_volume s v).audio_volume ≤ 127 := by
  simp only [audio_stream_set_volume, AUDIO_VOLUME_MAX]
  split_ifs with h
  · exact le_refl _
  · omega

theorem append_on_volume (s : AudioState) (time cycles : Int) (freq : ℚ) :
    (audio_stream_append_on s time cycles freq).audio_volume = s.audio_volume := by
  unfold audio_stream_append_on audio_stream_flag_speaker_overrun
  split_ifs <;> rfl

theorem append_off_volume (s : AudioState) (time cycles : Int) :
    (audio_stream_append_off s time cycles).audio_volume = s.audio_volume := by
  unfold audio_stream_append_off audio_stream_flag_speaker_overrun
  split_ifs <;> rfl

theorem generate_volume (s s1 : AudioState) (time len : Int) (stream out : Nat → Nat)
    (h : audio_stream_generate_u8 s time stream len = some (s1, out)) :
    s1.audio_volume = s.audio_volume := by
  unfold audio_stream_generate_u8 at h
  simp only [] at h
  split_ifs at h <;>
    first
    | (simp only [Option.some.injEq, Prod.mk.injEq] at h
       rw [← h.1])
    | (simp only [Option.bind_eq_some, Option.some.injEq, Prod.mk.injEq] at h
       obtain ⟨r, _, a, _, h3, _⟩ := h
       rw [← h3])

theorem reachable_volume_le (s : AudioState) (h : Reachable s) : s.audio_volume ≤ 127 := by
  induction h with
  | initial => simp [initial_state, AUDIO_VOLUME_MAX]
  | init s time freq _ ih => exact ih
  | set_volume s v _ _ _ => exact set_volume_le s v
  | set_note_delay s d _ ih => exact ih
  | append_on s time cycles freq _ ih => rw [append_on_volume]; exact ih
  | append_off s time cycles _ ih => rw [append_off_volume]; exact ih
  | generate s s1 time len stream out _ hg ih =>
    rw [generate_volume s s1 time len stream out hg]; exact ih

/-- C5. `audio_stream_get_volume` after `audio_stream_set_volume(v)` is `min(v, 127)`
(127 for 255, 0 for 0), `audio_stream_get_max_volume` is 127, setting the same volume twice
or setting the clamped value again changes nothing, the initial volume is 127 and the
stored volume is at most 127 in every reachable state. -/
theorem volume_clamp :
    (∀ (s : AudioState) (v : Nat), v < 256 →
      audio_stream_get_volume (audio_stream_set_volume s v) = min v 127) ∧
    (∀ s : AudioState, audio_stream_get_volume (audio_stream_set_volume s 255) = 127) ∧
    (∀ s : AudioState, audio_stream_get_volume (audio_stream_set_volume s 0) = 0) ∧
    audio_stream_get_max_volume = 127 ∧
    (∀ (s : AudioState) (v : Nat),
      audio_stream_set_volume (audio_stream_set_volume s v) v = audio_stream_set_volume s v) ∧
    (∀ (s : AudioState) (v : Nat),
      audio_stream_set_volume (audio_stream_set_volume s v)
        (audio_stream_get_volume (audio_stream_set_volume s v)) = audio_stream_set_volume s v) ∧
    audio_stream_get_volume initial_state = 127 ∧
    (∀ s : AudioState, Reachable s → audio_stream_get_volume s ≤ 127) := by
  refine ⟨?_, ?_, ?_, rfl, ?_, ?_, rfl, ?_⟩
  · intro s v _
    simp only [audio_stream_get_volume, audio_stream_set_volume, AUDIO_VOLUME_MAX]
    split_ifs with h
    · omega
    · omega
  · intro s
    simp [audio_stream_get_volume, audio_stream_set_volume, AUDIO_VOLUME_MAX]
  · intro s
    simp [audio_stream_get_volume, audio_stream_set_volume, AUDIO_VOLUME_MAX]
  · intro s v
    simp [audio_stream_set_volume]
  · intro s v
    simp only [audio_stream_get_volume, audio_stream_set_volume, AUDIO_VOLUME_MAX]
    split_ifs <;> rfl
  · intro s hs
    exact reachable_volume_le s hs

theorem volume_clamp_witness :
    (200 : Nat) < 256 ∧
    audio_stream_get_volume (audio_stream_set_volume initial_state 200) = min 200 127 ∧
    Reachable (audio_stream_set_volume initial_state 200) ∧
    audio_stream_get_volume (audio_stream_set_volume initial_state 200) ≤ 127 :=
  ⟨by decide, volume_clamp.1 initial_state 200 (by decide),
    Reachable.set_volume _ _ (by decide) Reachable.initial,
    volume_clamp.2.2.2.2.2.2.2 _ (Reachable.set_volume _ _ (by decide) Reachable.initial)⟩

theorem wrapInt32_of_range (x : Int) (h1 : -2147483648 ≤ x) (h2 : x < 2147483648) :
    wrapInt32 x = x := by
  unfold wrapInt32
  rw [Int.emod_eq_of_lt (by omega) (by omega)]
  omega

theorem local_delay_closed_form (s : AudioState) (c0 c1 : Int)
    (h1 : -2147483648 ≤ c1 - c0) (h2 : c1 - c0 < 2147483648) :
    audio_local_delay_time s c0 c1 =
      s.audio_delay_time * ((min (max (c1 - c0) 0) 3600 : Int) : ℚ) / 3600 := by
  unfold audio_local_delay_time
  rw [wrapInt32_of_range _ h1 h2]
  by_cases hle : c0 ≥ c1
  · have hm : min (max (c1 - c0) 0) 3600 = 0 := by
      rw [max_eq_right (by omega)]
      exact min_eq_left (by decide)
    simp [hle, hm]
  · by_cases hgt : c1 - c0 > 3600
    · have hm : min (max (c1 - c0) 0) 3600 = 3600 := by
        rw [max_eq_left (by omega)]
        exact min_eq_right (by omega)
      simp [hle, hgt, hm]
    · have hm : min (max (c1 - c0) 0) 3600 = c1 - c0 := by
        rw [max_eq_left (by omega)]
        exact min_eq_left (by omega)
      simp only [hle, hgt, hm, if_false]
      ring

/-- C10. When `c1 - c0` does not overflow a 32-bit `int`, `audio_local_delay_time(c0, c1)`
is `d * min(max(c1 - c0, 0), 3600) / 3600` for the note delay `d`: 0 when `c1 <= c0`,
`(c1 - c0) * d / 3600` when `0 < c1 - c0 <= 3600`, `d` when `c1 - c0 > 3600`; for `d >= 0`
it lies in `[0, d]` and is nondecreasing in `c1`. -/
theorem local_delay_time_spec (s : AudioState) (c0 c1 : Int)
    (hlo : -2147483648 ≤ c1 - c0) (hhi : c1 - c0 < 2147483648) :
    audio_local_delay_time s c0 c1 =
      s.audio_delay_time * ((min (max (c1 - c0) 0) 3600 : Int) : ℚ) / 3600 ∧
    (c1 ≤ c0 → audio_local_delay_time s c0 c1 = 0) ∧
    (0 < c1 - c0 → c1 - c0 ≤ 3600 →
      audio_local_delay_time s c0 c1 = ((c1 - c0 : Int) : ℚ) * s.audio_delay_time / 3600) ∧
    (3600 < c1 - c0 → audio_local_delay_time s c0 c1 = s.audio_delay_time) ∧
    (0 ≤ s.audio_delay_time →
      0 ≤ audio_local_delay_time s c0 c1 ∧
      audio_local_delay_time s c0 c1 ≤ s.audio_delay_time) ∧
    (0 ≤ s.audio_delay_time → ∀ c2 : Int, c1 ≤ c2 → c2 - c0 < 2147483648 →
      audio_local_delay_time s c0 c1 ≤ audio_local_delay_time s c0 c2) := by
  have hcf := local_delay_closed_form s c0 c1 hlo hhi
  refine ⟨hcf, ?_, ?_, ?_, ?_, ?_⟩
  · intro h
    rw [hcf, max_eq_right (by omega), min_eq_left (by decide)]
    simp
  · intro h3 h4
    rw [hcf, max_eq_left (by omega), min_eq_left h4]
    ring
  · intro h3
    rw [hcf, max_eq_left (by omega), min_eq_right (by omega)]
    simp
  · intro hd
    have hm0 : (0 : ℚ) ≤ ((min (max (c1 - c0) 0) 3600 : Int) : ℚ) := by
      have : (0 : Int) ≤ min (max (c1 - c0) 0) 3600 := le_min (le_max_right _ _) (by decide)
      exact_mod_cast this
    have hm1 : ((min (max (c1 - c0) 0) 3600 : Int) : ℚ) ≤ 3600 := by
      have : min (max (c1 - c0) 0) 3600 ≤ (3600 : Int) := min_le_right _ _
      exact_mod_cast this
    rw [hcf]
    constructor
    · positivity
    · rw [div_le_iff₀ (by norm_num)]
      exact mul_le_mul_of_nonneg_left hm1 hd
  · intro hd c2 h12 h2hi
    rw [hcf, local_delay_closed_form s c0 c2 (by omega) h2hi]
    have hmono : ((min (max (c1 - c0) 0) 3600 : Int) : ℚ) ≤
        ((min (max (c2 - c0) 0) 3600 : Int) : ℚ) := by
      have : min (max (c1 - c0) 0) 3600 ≤ min (max (c2 - c0) 0) 3600 :=
        min_le_min (max_le_max (by omega) (le_refl _)) (le_refl _)
      exact_mod_cast this
    exact div_le_div_of_nonneg_right (mul_le_mul_of_nonneg_left hmono hd) (by norm_num)

theorem local_delay_time_spec_witness :
    (-2147483648 : Int) ≤ 1 - 0 ∧ (1 : Int) - 0 < 2147483648 ∧
    audio_local_delay_time (audio_stream_init initial_state 0 44100) 0 1 =
      (audio_stream_init initial_state 0 44100).audio_delay_time *
        ((min (max ((1 : Int) - 0) 0) 3600 : Int) : ℚ) / 3600 :=
  ⟨by decide, by decide,
    (local_delay_time_spec (audio_stream_init initial_state 0 44100) 0 1
      (by decide) (by decide)).1⟩

/-- C9. An accepted `audio_stream_append_on` or `audio_stream_append_off` stores, when the
queue is non-empty and its last event is enabled, the timestamp
`max(t, last.ms + delay(last.cycles, cycles))`, which is at least `last.ms + delay(...)`;
otherwise it stores `t`.  Here `t` is the time passed in, for `audio_stream_append_off`
after its clamp against `audio_prev_time`. -/
theorem debounce_timestamp (s : AudioState) (time cycles : Int) (freq : ℚ) :
    (s.speaker_entry_pos < 63 →
      ((audio_stream_append_on s time cycles freq).speaker_entries s.speaker_entry_pos).ms =
        (if 0 < s.speaker_entry_pos ∧
            (s.speaker_entries (s.speaker_entry_pos - 1)).enabled = true then
          max (time : ℚ) ((s.speaker_entries (s.speaker_entry_pos - 1)).ms +
            audio_local_delay_time s (s.speaker_entries (s.speaker_entry_pos - 1)).cycles cycles)
        else (time : ℚ)) ∧
      (0 < s.speaker_entry_pos →
        (s.speaker_entries (s.speaker_entry_pos - 1)).enabled = true →
        (s.speaker_entries (s.speaker_entry_pos - 1)).ms +
            audio_local_delay_time s (s.speaker_entries (s.speaker_entry_pos - 1)).cycles cycles ≤
          ((audio_stream_append_on s time cycles freq).speaker_entries
            s.speaker_entry_pos).ms)) ∧
    (s.speaker_entry_pos < 64 →
      ((audio_stream_append_off s time cycles).speaker_entries s.speaker_entry_pos).ms =
        (if 0 < s.speaker_entry_pos ∧
            (s.speaker_entries (s.speaker_entry_pos - 1)).enabled = true then
          max (((if (time : ℚ) < s.audio_prev_time then trunc s.audio_prev_time else time : Int)) : ℚ)
            ((s.speaker_entries (s.speaker_entry_pos - 1)).ms +
            audio_local_delay_time s (s.speaker_entries (s.speaker_entry_pos - 1)).cycles cycles)
        else (((if (time : ℚ) < s.audio_prev_time then trunc s.audio_prev_time else time : Int)) : ℚ)) ∧
      (0 < s.speaker_entry_pos →
        (s.speaker_entries (s.speaker_entry_pos - 1)).enabled = true →
        (s.speaker_entries (s.speaker_entry_pos - 1)).ms +
            audio_local_delay_time s (s.speaker_entries (s.speaker_entry_pos - 1)).cycles cycles ≤
          ((audio_stream_append_off s time cycles).speaker_entries
            s.speaker_entry_pos).ms)) := by
  constructor
  · intro hacc
    have hg : ¬ s.speaker_entry_pos ≥ SPEAKER_ENTRY_LEN - 1 := by
      simp only [SPEAKER_ENTRY_LEN]; omega
    have hms : ((audio_stream_append_on s time cycles freq).speaker_entries
        s.speaker_entry_pos).ms =
        (if s.speaker_entry_pos > 0 ∧
            (s.speaker_entries (s.speaker_entry_pos - 1)).enabled = true ∧
            (s.speaker_entries (s.speaker_entry_pos - 1)).ms +
              audio_local_delay_time s (s.speaker_entries (s.speaker_entry_pos - 1)).cycles cycles
              ≥ (time : ℚ) then
          (s.speaker_entries (s.speaker_entry_pos - 1)).ms +
            audio_local_delay_time s (s.speaker_entries (s.speaker_entry_pos - 1)).cycles cycles
        else (time : ℚ)) := by
      simp only [audio_stream_append_on, hg, if_false, Function.update_same]
    constructor
    · rw [hms]
      by_cases hp : 0 < s.speaker_entry_pos
      · by_cases he : (s.speaker_entries (s.speaker_entry_pos - 1)).enabled = true
        · by_cases hc : (s.speaker_entries (s.speaker_entry_pos - 1)).ms +
              audio_local_delay_time s (s.speaker_entries (s.speaker_entry_pos - 1)).cycles cycles
              ≥ (time : ℚ)
          · simp only [gt_iff_lt, hp, he, hc, and_self, if_true]
            exact (max_eq_right hc).symm
          · simp only [gt_iff_lt, hp, he, hc, and_false, and_self, if_false, if_true]
            exact (max_eq_left (le_of_lt (not_le.mp hc))).symm
        · simp [hp, he]
      · simp [hp]
    · intro hp he
      rw [hms]
      by_cases hc : (s.speaker_entries (s.speaker_entry_pos - 1)).ms +
          audio_local_delay_time s (s.speaker_entries (s.speaker_entry_pos - 1)).cycles cycles
          ≥ (time : ℚ)
      · simp only [gt_iff_lt, hp, he, hc, and_self, if_true, le_refl]
      · simp only [gt_iff_lt, hp, he, hc, and_false, if_false]
        exact le_of_lt (not_le.mp hc)
  · intro hacc
    have hg : ¬ s.speaker_entry_pos ≥ SPEAKER_ENTRY_LEN := by
      simp only [SPEAKER_ENTRY_LEN]; omega
    generalize ht : ((if (time : ℚ) < s.audio_prev_time then trunc s.audio_prev_time else time : Int))
      = t
    have hms : ((audio_stream_append_off s time cycles).speaker_entries
        s.speaker_entry_pos).ms =
        (if s.speaker_entry_pos > 0 ∧
            (s.speaker_entries (s.speaker_entry_pos - 1)).enabled = true ∧
            (s.speaker_entries (s.speaker_entry_pos - 1)).ms +
              audio_local_delay_time s (s.speaker_entries (s.speaker_entry_pos - 1)).cycles cycles
              ≥ (t : ℚ) then
          (s.speaker_entries (s.speaker_entry_pos - 1)).ms +
            audio_local_delay_time s (s.speaker_entries (s.speaker_entry_pos - 1)).cycles cycles
        else (t : ℚ)) := by
      simp only [audio_stream_append_off, hg, if_false, Function.update_same, ht]
    constructor
    · rw [hms]
      by_cases hp : 0 < s.speaker_entry_pos
      · by_cases he : (s.speaker_entries (s.speaker_entry_pos - 1)).enabled = true
        · by_cases hc : (s.speaker_entries (s.speaker_entry_pos - 1)).ms +
              audio_local_delay_time s (s.speaker_entries (s.speaker_entry_pos - 1)).cycles cycles
              ≥ (t : ℚ)
          · simp only [gt_iff_lt, hp, he, hc, and_self, if_true]
            exact (max_eq_right hc).symm
          · simp only [gt_iff_lt, hp, he, hc, and_false, and_self, if_false, if_true]
            exact (max_eq_left (le_of_lt (not_le.mp hc))).symm
        · simp [hp, he]
      · simp [hp]
    · intro hp he
      rw [hms]
      by_cases hc : (s.speaker_entries (s.speaker_entry_pos - 1)).ms +
          audio_local_delay_time s (s.speaker_entries (s.speaker_entry_pos - 1)).cycles cycles
          ≥ (t : ℚ)
      · simp only [gt_iff_lt, hp, he, hc, and_self, if_true, le_refl]
      · simp only [gt_iff_lt, hp, he, hc, and_false, if_false]
        exact le_of_lt (not_le.mp hc)

theorem trunc_intCast (n : Int) : trunc (n : ℚ) = n := by
  simp [trunc]

theorem trunc_of_nonneg (q : ℚ) (h : 0 ≤ q) : trunc q = ⌊q⌋ := by
  unfold trunc
  rw [Rat.floor_def, Int.tdiv_eq_ediv (Rat.num_nonneg.mpr h) (Int.ofNat_nonneg _)]

theorem trunc_of_nonpos (q : ℚ) (h : q ≤ 0) : trunc q ≤ 0 := by
  unfold trunc
  have hn : q.num ≤ 0 := Rat.num_nonpos.mpr h
  have h1 : Int.tdiv (-(-q.num)) (q.den : Int) = -(Int.tdiv (-q.num) q.den) := Int.neg_tdiv _ _
  rw [neg_neg] at h1
  rw [h1]
  have h2 : 0 ≤ Int.tdiv (-q.num) (q.den : Int) :=
    Int.tdiv_nonneg (by omega) (Int.ofNat_nonneg _)
  omega

theorem note_loop_outside (volume : Nat) (fsf : Int) (n : Nat) (j p : Int) (stream : Nat → Nat)
    (k : Nat) (hj : 0 ≤ j) (hk : (k : Int) < j ∨ j + n ≤ (k : Int)) :
    note_loop volume fsf n j p stream k = stream k := by
  induction n generalizing j p stream with
  | zero => rfl
  | succ n ih =>
    simp only [note_loop]
    rw [ih (j + 1) _ _ (by omega) (by push_cast at hk; omega)]
    have hne : k ≠ j.toNat := by
      intro he
      have : (k : Int) = j := by rw [he]; exact Int.toNat_of_nonneg hj
      push_cast at hk
      omega
    exact Function.update_noteq hne _ _

theorem note_loop_values (volume : Nat) (fsf : Int) (n : Nat) (j p : Int) (stream : Nat → Nat)
    (k : Nat) :
    note_loop volume fsf n j p stream k = stream k ∨
    note_loop volume fsf n j p stream k = (128 + volume) % 256 ∨
    note_loop volume fsf n j p stream k = (((128 : Int) - (volume : Int)) % 256).toNat := by
  induction n generalizing j p stream with
  | zero => exact Or.inl rfl
  | succ n ih =>
    simp only [note_loop]
    rcases ih (j + 1) (Int.tmod (p + 256) (fsf * 2))
      (Function.update stream j.toNat
        (if mask_hi p < mask_hi fsf then (128 + volume) % 256
         else (((128 : Int) - (volume : Int)) % 256).toNat)) with h | h | h
    · rw [h]
      by_cases hk : k = j.toNat
      · subst hk
        rw [Function.update_same]
        split_ifs
        · exact Or.inr (Or.inl rfl)
        · exact Or.inr (Or.inr rfl)
      · rw [Function.update_noteq hk]
        exact Or.inl rfl
    · exact Or.inr (Or.inl h)
    · exact Or.inr (Or.inr h)

theorem note_loop_inside (volume : Nat) (fsf : Int) (hfsf : 0 < fsf) (n : Nat) (j p : Int)
    (stream : Nat → Nat) (hj : 0 ≤ j) (hp0 : 0 ≤ p) (hp1 : p < fsf * 2) (i : Nat) (hi : i < n) :
    note_loop volume fsf n j p stream (j.toNat + i) =
      (if mask_hi ((p + 256 * i) % (fsf * 2)) < mask_hi fsf then (128 + volume) % 256
       else (((128 : Int) - (volume : Int)) % 256).toNat) := by
  induction n generalizing j p stream i with
  | zero => omega
  | succ n ih =>
    simp only [note_loop]
    have hq0 : 0 ≤ Int.tmod (p + 256) (fsf * 2) := Int.tmod_nonneg _ (by omega)
    have hq1 : Int.tmod (p + 256) (fsf * 2) < fsf * 2 := Int.tmod_lt_of_pos _ (by omega)
    have hqe : Int.tmod (p + 256) (fsf * 2) = (p + 256) % (fsf * 2) :=
      Int.tmod_eq_emod (by omega) (by omega)
    cases i with
    | zero =>
      rw [Nat.add_zero, note_loop_outside _ _ _ _ _ _ _ (by omega)
        (Or.inl (by rw [Int.toNat_of_nonneg hj]; omega)), Function.update_same]
      simp only [Nat.cast_zero, mul_zero, add_zero]
      rw [Int.emod_eq_of_lt hp0 hp1]
    | succ i =>
      have hidx : j.toNat + (i + 1) = (j + 1).toNat + i := by omega
      rw [hidx, ih (j + 1) _ _ (by omega) hq0 hq1 i (by omega), hqe]
      have hmod : ((p + 256) % (fsf * 2) + 256 * (i : Int)) % (fsf * 2) =
          (p + 256 * ((i + 1 : Nat) : Int)) % (fsf * 2) := by
        rw [Int.emod_add_emod]
        push_cast
        congr 1
        ring
      rw [hmod]

theorem sample_hi (v : Nat) (hv : v ≤ 127) : (128 + v) % 256 = 128 + v := by omega

theorem sample_lo (v : Nat) (hv : v ≤ 127) :
    (((128 : Int) - (v : Int)) % 256).toNat = 128 - v := by omega

theorem emit_note_values (audio_freq : Int) (volume : Nat) (freq : ℚ) (ctr a b : Int)
    (stream out : Nat → Nat)
    (h : emit_note audio_freq volume freq ctr a b stream = some out) (k : Nat) :
    out k = stream k ∨ out k = (128 + volume) % 256 ∨
      out k = (((128 : Int) - (volume : Int)) % 256).toNat := by
  unfold emit_note at h
  split_ifs at h
  simp only [Option.some.injEq] at h
  rw [← h]
  exact note_loop_values _ _ _ _ _ _ _

theorem span_loop_values (s : AudioState) (len : Int) (ar rts : ℚ) (n i : Nat) (ctr : Int)
    (stream : Nat → Nat) (r : Nat × Int × (Nat → Nat))
    (h : span_loop s len ar rts n i ctr stream = some r) (k : Nat) :
    r.2.2 k = stream k ∨ r.2.2 k = 128 ∨ r.2.2 k = (128 + s.audio_volume) % 256 ∨
      r.2.2 k = (((128 : Int) - (s.audio_volume : Int)) % 256).toNat := by
  induction n generalizing i ctr stream with
  | zero =>
    simp only [span_loop, Option.some.injEq] at h
    rw [← h]
    exact Or.inl rfl
  | succ n ih =>
    simp only [span_loop, Option.bind_eq_some] at h
    obtain ⟨e, _, dto, _, h⟩ := h
    split_ifs at h with h1 h2 h3
    · simp only [Option.some.injEq] at h
      rw [← h]
      exact Or.inl rfl
    · simp only [Option.bind_eq_some] at h
      obtain ⟨st1, hst1, h⟩ := h
      rcases ih _ _ _ h with h4 | h4
      · rcases emit_note_values _ _ _ _ _ _ _ _ hst1 k with h5 | h5 | h5
        · exact Or.inl (h4.trans h5)
        · exact Or.inr (Or.inr (Or.inl (h4.trans h5)))
        · exact Or.inr (Or.inr (Or.inr (h4.trans h5)))
      · exact Or.inr h4
    · rcases ih _ _ _ h with h4 | h4
      · rw [h4]
        unfold memset
        split_ifs
        · exact Or.inr (Or.inl rfl)
        · exact Or.inl rfl
      · exact Or.inr h4
    · exact ih _ _ _ h

theorem generate_values (s s1 : AudioState) (time len : Int) (stream out : Nat → Nat)
    (h : audio_stream_generate_u8 s time stream len = some (s1, out)) (k : Nat) :
    out k = stream k ∨ out k = 128 ∨ out k = (128 + s.audio_volume) % 256 ∨
      out k = (((128 : Int) - (s.audio_volume : Int)) % 256).toNat := by
  unfold audio_stream_generate_u8 at h
  simp only [] at h
  split_ifs at h <;>
    first
    | (simp only [Option.some.injEq, Prod.mk.injEq] at h
       rw [← h.2]
       unfold memset
       split_ifs
       · exact Or.inr (Or.inl rfl)
       · exact Or.inl rfl)
    | (simp only [Option.bind_eq_some, Option.some.injEq, Prod.mk.injEq] at h
       obtain ⟨r, hr, a, _, _, h4⟩ := h
       rw [← h4]
       exact span_loop_values _ _ _ _ _ _ _ _ _ hr k)

/-- C6. In every reachable state the volume is at most 127, and every byte of the buffer
after `audio_stream_generate_u8` is either the byte that was there before the call or one
of 128, 128+volume, 128-volume, computed without 8-bit wrap-around, hence in `[1, 255]`. -/
theorem generated_samples_range (s s1 : AudioState) (time len : Int) (stream out : Nat → Nat)
    (hs : Reachable s)
    (hgen : audio_stream_generate_u8 s time stream len = some (s1, out)) :
    s.audio_volume ≤ 127 ∧
    ∀ k : Nat, out k = stream k ∨
      ((out k = 128 ∨ out k = 128 + s.audio_volume ∨ out k = 128 - s.audio_volume) ∧
        1 ≤ out k ∧ out k ≤ 255) := by
  have hv := reachable_volume_le s hs
  refine ⟨hv, fun k => ?_⟩
  rcases generate_values s s1 time len stream out hgen k with h | h | h | h
  · exact Or.inl h
  · exact Or.inr ⟨Or.inl h, by omega, by omega⟩
  · rw [sample_hi _ hv] at h
    exact Or.inr ⟨Or.inr (Or.inl h), by omega, by omega⟩
  · rw [sample_lo _ hv] at h
    exact Or.inr ⟨Or.inr (Or.inr h), by omega, by omega⟩

theorem audio_res_eq (p : ℚ) (len r : Int) :
    p + ((len : ℚ) / (r : ℚ) * 1000) - p = (len : ℚ) / (r : ℚ) * 1000 := by ring

theorem res_to_samples_eq (len r : Int) (hl : len ≠ 0) (hr : r ≠ 0) :
    (len : ℚ) / ((len : ℚ) / (r : ℚ) * 1000) = (r : ℚ) / 1000 := by
  have h1 : (len : ℚ) ≠ 0 := by exact_mod_cast hl
  have h2 : (r : ℚ) ≠ 0 := by exact_mod_cast hr
  field_simp
  ring

theorem audio_to_last (len r : Int) (hr : r ≠ 0) :
    trunc ((len : ℚ) / (r : ℚ) * 1000 * ((r : ℚ) / 1000)) = len := by
  have h2 : (r : ℚ) ≠ 0 := by exact_mod_cast hr
  have : (len : ℚ) / (r : ℚ) * 1000 * ((r : ℚ) / 1000) = (len : ℚ) := by field_simp
  rw [this, trunc_intCast]

/-- A primed stream whose queue holds one enabled entry that starts inside the buffer:
the entry is rendered from its clipped start sample to the end of the buffer and is kept,
resynchronised to the callback time. -/
theorem generate_single (s : AudioState) (time : Int) (stream : Nat → Nat) (len : Int)
    (hp : 0 ≤ s.audio_prev_time) (hq : s.speaker_entry_pos = 1) (hr : s.audio_freq ≠ 0)
    (hl : 0 < len) (hen : (s.speaker_entries 0).enabled = true)
    (hf : (s.speaker_entries 0).freq ≠ 0)
    (hH : freq_samples_fixed s.audio_freq (s.speaker_entries 0).freq ≠ 0)
    (hF : trunc (((s.speaker_entries 0).ms - s.audio_prev_time) * ((s.audio_freq : ℚ) / 1000))
      < len) :
    audio_stream_generate_u8 s time stream len =
      some ({ s with
              speaker_entries := Function.update s.speaker_entries 0
                { s.speaker_entries 0 with ms := time }
              speaker_entry_pos := 1
              speaker_overrun_flagged := false
              speaker_freq_ctr := s.speaker_freq_ctr + (len - clip_from (trunc
                (((s.speaker_entries 0).ms - s.audio_prev_time) * ((s.audio_freq : ℚ) / 1000))))
              audio_prev_time := time },
            note_loop s.audio_volume
              (freq_samples_fixed s.audio_freq (s.speaker_entries 0).freq)
              (len - clip_from (trunc
                (((s.speaker_entries 0).ms - s.audio_prev_time) *
                  ((s.audio_freq : ℚ) / 1000)))).toNat
              (clip_from (trunc
                (((s.speaker_entries 0).ms - s.audio_prev_time) * ((s.audio_freq : ℚ) / 1000))))
              (Int.tmod (s.speaker_freq_ctr * 256)
                (freq_samples_fixed s.audio_freq (s.speaker_entries 0).freq * 2))
              stream) := by
  have hl0 : len ≠ 0 := by omega
  have hp1 : ¬ s.audio_prev_time < 0 := not_lt.mpr hp
  have hcond : ¬ (s.audio_freq = 0 ∨ len = 0) := by
    rintro (h | h)
    · exact hr h
    · exact hl0 h
  generalize hFdef : trunc (((s.speaker_entries 0).ms - s.audio_prev_time) *
    ((s.audio_freq : ℚ) / 1000)) = F at *
  have hcf : clip_from F < len := by
    unfold clip_from
    split_ifs <;> omega
  have hct : clip_to len len = len := by
    unfold clip_to
    split_ifs <;> omega
  have hbrk : ¬ (¬ F < 0 ∧ F ≥ len) := by omega
  have hH2 : freq_samples_fixed s.audio_freq (s.speaker_entries 0).freq * 2 ≠ 0 := by omega
  have hf2 : (s.speaker_entries 0).freq * 2 ≠ 0 := by
    intro h
    apply hf
    linarith
  have hread : entry_read s.speaker_entries ((0 : Nat) : Int) = some (s.speaker_entries 0) := by
    simp [entry_read, SPEAKER_ENTRY_LEN]
  have hdto : audio_dto s ((len : ℚ) / (s.audio_freq : ℚ) * 1000) 0 =
      some ((len : ℚ) / (s.audio_freq : ℚ) * 1000) := by
    simp [audio_dto, hq]
  have hspan : span_loop s len ((len : ℚ) / (s.audio_freq : ℚ) * 1000)
      ((s.audio_freq : ℚ) / 1000) 1 0 s.speaker_freq_ctr stream =
      some (1, s.speaker_freq_ctr + (len - clip_from F),
        note_loop s.audio_volume (freq_samples_fixed s.audio_freq (s.speaker_entries 0).freq)
          (len - clip_from F).toNat (clip_from F)
          (Int.tmod (s.speaker_freq_ctr * 256)
            (freq_samples_fixed s.audio_freq (s.speaker_entries 0).freq * 2)) stream) := by
    simp only [span_loop, hread, hdto, Option.some_bind, hFdef, audio_to_last len _ hr,
      hbrk, if_false, hct, gt_iff_lt, hcf, if_true, hen, emit_note, hf2, hH2, zero_add]
  have hcomp : compact_loop 0 1 0 s.speaker_entries = some s.speaker_entries := by
    have hr0 : entry_read s.speaker_entries 0 = some (s.speaker_entries 0) := by
      simp [entry_read, SPEAKER_ENTRY_LEN]
    simp [compact_loop, hr0, entry_write, SPEAKER_ENTRY_LEN]
  unfold audio_stream_generate_u8
  simp only [hp1, if_false, hq, one_ne_zero, hcond, audio_res_eq,
    res_to_samples_eq len _ hl0 hr, hspan, Option.some_bind]
  simp [hcomp]

theorem clip_from_of_nonpos (x : Int) (h : x ≤ 0) : clip_from x = 0 := by
  unfold clip_from
  split_ifs <;> omega

/-- A primed stream whose queue holds one enabled entry with a timestamp not after
`audio_prev_time`: the whole buffer is the square wave continued from the phase counter. -/
theorem generate_continuing_tone (s : AudioState) (time : Int) (stream : Nat → Nat) (len : Int)
    (hp : 0 ≤ s.audio_prev_time) (hq : s.speaker_entry_pos = 1) (hr : 0 < s.audio_freq)
    (hl : 0 < len) (hen : (s.speaker_entries 0).enabled = true)
    (hf : 0 < (s.speaker_entries 0).freq)
    (hH : 1 ≤ freq_samples_fixed s.audio_freq (s.speaker_entries 0).freq)
    (hms : (s.speaker_entries 0).ms ≤ s.audio_prev_time) (hc : 0 ≤ s.speaker_freq_ctr) :
    ∃ s1 out, audio_stream_generate_u8 s time stream len = some (s1, out) ∧
      s1.audio_prev_time = time ∧ s1.speaker_entry_pos = 1 ∧ s1.audio_freq = s.audio_freq ∧
      s1.audio_volume = s.audio_volume ∧ s1.speaker_freq_ctr = s.speaker_freq_ctr + len ∧
      s1.speaker_entries 0 = { s.speaker_entries 0 with ms := time } ∧
      ∀ n : Nat, (n : Int) < len →
        out n =
          (if mask_hi (((s.speaker_freq_ctr + n) * 256) %
                (freq_samples_fixed s.audio_freq (s.speaker_entries 0).freq * 2)) <
              mask_hi (freq_samples_fixed s.audio_freq (s.speaker_entries 0).freq)
           then (128 + s.audio_volume) % 256
           else (((128 : Int) - (s.audio_volume : Int)) % 256).toNat) := by
  have hF0 : trunc (((s.speaker_entries 0).ms - s.audio_prev_time) *
      ((s.audio_freq : ℚ) / 1000)) ≤ 0 := by
    apply trunc_of_nonpos
    have h1 : (s.speaker_entries 0).ms - s.audio_prev_time ≤ 0 := by linarith
    have h2 : (0 : ℚ) ≤ (s.audio_freq : ℚ) / 1000 := by
      have : (0 : ℚ) < (s.audio_freq : ℚ) := by exact_mod_cast hr
      positivity
    exact mul_nonpos_of_nonpos_of_nonneg h1 h2
  have hgen := generate_single s time stream len hp hq (by omega) hl hen (ne_of_gt hf)
    (by omega) (by omega)
  rw [clip_from_of_nonpos _ hF0] at hgen
  refine ⟨_, _, hgen, rfl, rfl, rfl, rfl, by simp, by simp, ?_⟩
  intro n hn
  generalize freq_samples_fixed s.audio_freq (s.speaker_entries 0).freq = H at *
  have hidx : n = (0 : Int).toNat + n := by simp
  have hmod0 : 0 ≤ Int.tmod (s.speaker_freq_ctr * 256) (H * 2) :=
    Int.tmod_nonneg _ (by omega)
  have hmod1 : Int.tmod (s.speaker_freq_ctr * 256) (H * 2) < H * 2 :=
    Int.tmod_lt_of_pos _ (by omega)
  have hmode : Int.tmod (s.speaker_freq_ctr * 256) (H * 2) =
      (s.speaker_freq_ctr * 256) % (H * 2) := Int.tmod_eq_emod (by omega) (by omega)
  conv_lhs => rw [hidx]
  rw [note_loop_inside s.audio_volume H (by omega) _ 0 _ stream (le_refl _) hmod0 hmod1 n
    (by omega), hmode, Int.emod_add_emod]
  have he : s.speaker_freq_ctr * 256 + 256 * (n : Int) = (s.speaker_freq_ctr + n) * 256 := by
    ring
  rw [he]

theorem fsf_1000_100 : freq_samples_fixed 1000 100 = 1280 := by
  unfold freq_samples_fixed
  have : (((1000 * 256 : Int)) : ℚ) / (100 * 2) = ((1280 : Int) : ℚ) := by norm_num
  rw [this, trunc_intCast]

theorem primed_state_generate (stream : Nat → Nat) :
    audio_stream_generate_u8 (audio_stream_init initial_state 0 1000) 0 stream 10 =
      some (primed_state, memset stream 0 128 10) := by
  rw [generate_priming _ 0 stream 10 (by simp [audio_stream_init]) (by decide)]
  simp [primed_state]

theorem primed_state_reachable : Reachable primed_state :=
  Reachable.generate _ _ 0 10 (fun _ => 0) _
    (Reachable.init _ 0 1000 Reachable.initial) (primed_state_generate _)

theorem tone_state_reachable : Reachable tone_state :=
  Reachable.append_on _ 0 0 100 primed_state_reachable

theorem gap_state_reachable : Reachable gap_state :=
  Reachable.append_on _ 5 0 100 primed_state_reachable

theorem tone_state_prev : tone_state.audio_prev_time = 0 := by
  simp [tone_state, audio_stream_append_on, SPEAKER_ENTRY_LEN, primed_state]

theorem tone_state_entry :
    tone_state.speaker_entries 0 = { enabled := true, cycles := 0, freq := 100, ms := 0 } := by
  simp [tone_state, audio_stream_append_on, SPEAKER_ENTRY_LEN, primed_state]

theorem tone_state_fsf :
    freq_samples_fixed tone_state.audio_freq (tone_state.speaker_entries 0).freq = 1280 := by
  rw [tone_state_entry]
  exact fsf_1000_100

theorem gap_state_prev : gap_state.audio_prev_time = 0 := by
  simp [gap_state, audio_stream_append_on, SPEAKER_ENTRY_LEN, primed_state]

theorem gap_state_entry :
    gap_state.speaker_entries 0 = { enabled := true, cycles := 0, freq := 100, ms := 5 } := by
  simp [gap_state, audio_stream_append_on, SPEAKER_ENTRY_LEN, primed_state]

/-- In `gap_state` the call `audio_stream_generate_u8(10, stream, 10)` returns and leaves
sample 0 as the caller's buffer had it. -/
theorem gap_state_generate (stream : Nat → Nat) :
    ∃ s3 out, audio_stream_generate_u8 gap_state 10 stream 10 = some (s3, out) ∧
      out 0 = stream 0 := by
  have hF : trunc (((gap_state.speaker_entries 0).ms - gap_state.audio_prev_time) *
      ((gap_state.audio_freq : ℚ) / 1000)) = 5 := by
    rw [gap_state_entry, gap_state_prev]
    have : ((5 : ℚ) - 0) * ((gap_state.audio_freq : ℚ) / 1000) = ((5 : Int) : ℚ) := by
      have : gap_state.audio_freq = 1000 := rfl
      rw [this]
      norm_num
    rw [this, trunc_intCast]
  have hH : freq_samples_fixed gap_state.audio_freq (gap_state.speaker_entries 0).freq
      = 1280 := by
    rw [gap_state_entry]
    exact fsf_1000_100
  have h := generate_single gap_state 10 stream 10 (by rw [gap_state_prev]) rfl (by decide)
    (by decide) (by rw [gap_state_entry]) (by rw [gap_state_entry]; norm_num)
    (by rw [hH]; decide) (by rw [hF]; decide)
  rw [hF] at h
  exact ⟨_, _, h, note_loop_outside _ _ _ _ _ _ _ (by decide) (Or.inl (by decide))⟩

/-- C2 (failing input). After `audio_stream_init(0, 1000)`, a priming call at time 0 and
`audio_stream_append_on(5, 0, 100)` (the reachable, primed state `gap_state`), the call
`audio_stream_generate_u8(10, stream, 10)` does not write sample 0: the byte the caller's
buffer held there (0 in one run, 7 in the other) is still there afterwards, so the output
depends on the initial buffer contents. -/
theorem generate_leaves_leading_gap :
    audio_stream_generate_u8 (audio_stream_init initial_state 0 1000) 0 (fun _ => 0) 10 =
      some (primed_state, memset (fun _ => 0) 0 128 10) ∧
    Reachable gap_state ∧ 0 ≤ gap_state.audio_prev_time ∧
    ∃ sA oA sB oB,
      audio_stream_generate_u8 gap_state 10 (fun _ => 0) 10 = some (sA, oA) ∧
      audio_stream_generate_u8 gap_state 10 (fun _ => 7) 10 = some (sB, oB) ∧
      oA 0 = 0 ∧ oB 0 = 7 ∧ oA 0 ≠ oB 0 := by
  obtain ⟨sA, oA, hA, hA0⟩ := gap_state_generate (fun _ => 0)
  obtain ⟨sB, oB, hB, hB0⟩ := gap_state_generate (fun _ => 7)
  refine ⟨primed_state_generate _, gap_state_reachable, by rw [gap_state_prev],
    sA, oA, sB, oB, hA, hB, hA0, hB0, ?_⟩
  rw [hA0, hB0]
  decide

theorem generated_samples_range_witness :
    ∃ s3 out, audio_stream_generate_u8 gap_state 10 (fun _ => 0) 10 = some (s3, out) ∧
      gap_state.audio_volume ≤ 127 ∧
      ∀ k : Nat, out k = (fun _ => 0) k ∨
        ((out k = 128 ∨ out k = 128 + gap_state.audio_volume ∨
            out k = 128 - gap_state.audio_volume) ∧
          1 ≤ out k ∧ out k ≤ 255) := by
  obtain ⟨s3, out, h, -⟩ := gap_state_generate (fun _ => 0)
  exact ⟨s3, out, h,
    generated_samples_range gap_state s3 10 10 (fun _ => 0) out gap_state_reachable h⟩

theorem debounce_timestamp_witness :
    (audio_stream_append_on tone_state 1 1 800).speaker_entry_pos < 64 ∧
    0 < (audio_stream_append_on tone_state 1 1 800).speaker_entry_pos ∧
    ((audio_stream_append_on tone_state 1 1 800).speaker_entries
      ((audio_stream_append_on tone_state 1 1 800).speaker_entry_pos - 1)).enabled = true ∧
    tone_state.speaker_entry_pos < 63 ∧
    ((audio_stream_append_on tone_state 1 1 800).speaker_entries
          ((audio_stream_append_on tone_state 1 1 800).speaker_entry_pos - 1)).ms +
        audio_local_delay_time (audio_stream_append_on tone_state 1 1 800)
          ((audio_stream_append_on tone_state 1 1 800).speaker_entries
            ((audio_stream_append_on tone_state 1 1 800).speaker_entry_pos - 1)).cycles 2 ≤
      ((audio_stream_append_off (audio_stream_append_on tone_state 1 1 800) 1 2).speaker_entries
        (audio_stream_append_on tone_state 1 1 800).speaker_entry_pos).ms ∧
    (tone_state.speaker_entries (tone_state.speaker_entry_pos - 1)).ms +
        audio_local_delay_time tone_state
          (tone_state.speaker_entries (tone_state.speaker_entry_pos - 1)).cycles 1 ≤
      ((audio_stream_append_on tone_state 1 1 800).speaker_entries
        tone_state.speaker_entry_pos).ms :=
  ⟨by decide, by decide, rfl, by decide,
    ((debounce_timestamp (audio_stream_append_on tone_state 1 1 800) 1 2 0).2 (by decide)).2
      (by decide) rfl,
    ((debounce_timestamp tone_state 1 1 800).1 (by decide)).2 (by decide) rfl⟩

theorem flag_overrun_flagged (s : AudioState) :
    (audio_stream_flag_speaker_overrun s).speaker_overrun_flagged = true := by
  unfold audio_stream_flag_speaker_overrun
  split_ifs with h
  · exact h
  · rfl

theorem flag_overrun_of_flagged (s : AudioState) (h : s.speaker_overrun_flagged = true) :
    audio_stream_flag_speaker_overrun s = s := by
  simp [audio_stream_flag_speaker_overrun, h]

theorem flag_overrun_lines (s : AudioState) (h : s.speaker_overrun_flagged = false) :
    (audio_stream_flag_speaker_overrun s).stderr_lines = s.stderr_lines + 1 := by
  simp [audio_stream_flag_speaker_overrun, h]

theorem flag_overrun_frame (s : AudioState) :
    (audio_stream_flag_speaker_overrun s).speaker_entry_pos = s.speaker_entry_pos ∧
    (audio_stream_flag_speaker_overrun s).speaker_entries = s.speaker_entries ∧
    (audio_stream_flag_speaker_overrun s).audio_prev_time = s.audio_prev_time ∧
    (audio_stream_flag_speaker_overrun s).speaker_freq_ctr = s.speaker_freq_ctr ∧
    (audio_stream_flag_speaker_overrun s).audio_volume = s.audio_volume ∧
    (audio_stream_flag_speaker_overrun s).audio_delay_time = s.audio_delay_time ∧
    (audio_stream_flag_speaker_overrun s).audio_freq = s.audio_freq := by
  unfold audio_stream_flag_speaker_overrun
  split_ifs <;> exact ⟨rfl, rfl, rfl, rfl, rfl, rfl, rfl⟩

theorem append_on_dropped (s : AudioState) (time cycles : Int) (freq : ℚ)
    (h : 63 ≤ s.speaker_entry_pos) :
    audio_stream_append_on s time cycles freq = audio_stream_flag_speaker_overrun s := by
  have hg : s.speaker_entry_pos ≥ SPEAKER_ENTRY_LEN - 1 := by
    simp only [SPEAKER_ENTRY_LEN]; omega
  simp only [audio_stream_append_on, hg, if_true]

theorem append_off_dropped (s : AudioState) (time cycles : Int)
    (h : 64 ≤ s.speaker_entry_pos) :
    audio_stream_append_off s time cycles = audio_stream_flag_speaker_overrun s := by
  have hg : s.speaker_entry_pos ≥ SPEAKER_ENTRY_LEN := by
    simp only [SPEAKER_ENTRY_LEN]; omega
  simp only [audio_stream_append_off, hg, if_true]

theorem append_on_accepted (s : AudioState) (time cycles : Int) (freq : ℚ)
    (h : s.speaker_entry_pos < 63) :
    (audio_stream_append_on s time cycles freq).speaker_entry_pos = s.speaker_entry_pos + 1 ∧
    (∀ i : Nat, i ≠ s.speaker_entry_pos →
      (audio_stream_append_on s time cycles freq).speaker_entries i = s.speaker_entries i) ∧
    ((audio_stream_append_on s time cycles freq).speaker_entries s.speaker_entry_pos).cycles
      = cycles ∧
    ((audio_stream_append_on s time cycles freq).speaker_entries s.speaker_entry_pos).enabled
      = true ∧
    ((audio_stream_append_on s time cycles freq).speaker_entries s.speaker_entry_pos).freq
      = freq ∧
    (audio_stream_append_on s time cycles freq).audio_prev_time = s.audio_prev_time ∧
    (audio_stream_append_on s time cycles freq).speaker_freq_ctr = s.speaker_freq_ctr ∧
    (audio_stream_append_on s time cycles freq).audio_volume = s.audio_volume ∧
    (audio_stream_append_on s time cycles freq).audio_delay_time = s.audio_delay_time ∧
    (audio_stream_append_on s time cycles freq).speaker_overrun_flagged
      = s.speaker_overrun_flagged ∧
    (audio_stream_append_on s time cycles freq).audio_freq = s.audio_freq ∧
    (audio_stream_append_on s time cycles freq).stderr_lines = s.stderr_lines := by
  have hg : ¬ s.speaker_entry_pos ≥ SPEAKER_ENTRY_LEN - 1 := by
    simp only [SPEAKER_ENTRY_LEN]; omega
  simp only [audio_stream_append_on, hg, if_false, Function.update_same, true_and, and_true]
  intro i hi
  exact Function.update_noteq hi _ _

theorem append_off_accepted (s : AudioState) (time cycles : Int)
    (h : s.speaker_entry_pos < 64) :
    (audio_stream_append_off s time cycles).speaker_entry_pos = s.speaker_entry_pos + 1 ∧
    (∀ i : Nat, i ≠ s.speaker_entry_pos →
      (audio_stream_append_off s time cycles).speaker_entries i = s.speaker_entries i) ∧
    ((audio_stream_append_off s time cycles).speaker_entries s.speaker_entry_pos).cycles
      = cycles ∧
    ((audio_stream_append_off s time cycles).speaker_entries s.speaker_entry_pos).enabled
      = false ∧
    (audio_stream_append_off s time cycles).audio_prev_time = s.audio_prev_time ∧
    (audio_stream_append_off s time cycles).speaker_freq_ctr = s.speaker_freq_ctr ∧
    (audio_stream_append_off s time cycles).audio_volume = s.audio_volume ∧
    (audio_stream_append_off s time cycles).audio_delay_time = s.audio_delay_time ∧
    (audio_stream_append_off s time cycles).speaker_overrun_flagged
      = s.speaker_overrun_flagged ∧
    (audio_stream_append_off s time cycles).audio_freq = s.audio_freq ∧
    (audio_stream_append_off s time cycles).stderr_lines = s.stderr_lines := by
  have hg : ¬ s.speaker_entry_pos ≥ SPEAKER_ENTRY_LEN := by
    simp only [SPEAKER_ENTRY_LEN]; omega
  simp only [audio_stream_append_off, hg, if_false, Function.update_same, true_and, and_true]
  intro i hi
  exact Function.update_noteq hi _ _

theorem run_alternate (l : List ((Int × Int × ℚ) × (Int × Int))) (s : AudioState)
    (h : s.speaker_entry_pos + 2 * l.length ≤ 64) :
    (run_calls s (alternate_calls l)).speaker_entry_pos = s.speaker_entry_pos + 2 * l.length ∧
    (run_calls s (alternate_calls l)).stderr_lines = s.stderr_lines ∧
    (run_calls s (alternate_calls l)).speaker_overrun_flagged = s.speaker_overrun_flagged ∧
    (run_calls s (alternate_calls l)).audio_prev_time = s.audio_prev_time := by
  induction l generalizing s with
  | nil => exact ⟨rfl, rfl, rfl, rfl⟩
  | cons p rest ih =>
    simp only [List.length_cons] at h
    simp only [alternate_calls, run_calls, apply_call, List.length_cons]
    obtain ⟨a1, -, -, -, -, a6, -, -, -, a10, -, a12⟩ :=
      append_on_accepted s p.1.1 p.1.2.1 p.1.2.2 (by omega)
    obtain ⟨b1, -, -, -, b5, -, -, -, b9, -, b11⟩ :=
      append_off_accepted (audio_stream_append_on s p.1.1 p.1.2.1 p.1.2.2) p.2.1 p.2.2
        (by omega)
    obtain ⟨c1, c2, c3, c4⟩ := ih
      (audio_stream_append_off (audio_stream_append_on s p.1.1 p.1.2.1 p.1.2.2) p.2.1 p.2.2)
      (by omega)
    refine ⟨?_, ?_, ?_, ?_⟩
    · rw [c1, b1, a1]; omega
    · rw [c2, b11, a12]
    · rw [c3, b9, a10]
    · rw [c4, b5, a6]

theorem full_state_pos : full_state.speaker_entry_pos = 64 := by
  have h := (run_alternate (List.replicate 32 ((0, 0, 440), (0, 0))) primed_state
    (by simp [primed_state])).1
  simpa [primed_state] using h

theorem almost_full_state_pos : almost_full_state.speaker_entry_pos = 63 := by
  have h := (run_alternate (List.replicate 31 ((0, 0, 440), (0, 0))) primed_state
    (by simp [primed_state])).1
  have h62 : (run_calls primed_state
      (alternate_calls (List.replicate 31 ((0, 0, 440), (0, 0))))).speaker_entry_pos = 62 := by
    simpa [primed_state] using h
  unfold almost_full_state
  rw [(append_on_accepted _ 0 0 440 (by rw [h62]; decide)).1, h62]

/-- C11. `audio_stream_append_on` is dropped (queue length unchanged) exactly when the queue
already holds 63 or more events; a dropped call leaves the queue length, every entry,
`audio_prev_time`, the phase counter, the volume and the note delay unchanged and leaves
the overrun flag set; an accepted call makes the queue one longer. -/
theorem append_on_drop_iff (s : AudioState) (time cycles : Int) (freq : ℚ) :
    ((audio_stream_append_on s time cycles freq).speaker_entry_pos = s.speaker_entry_pos ↔
      63 ≤ s.speaker_entry_pos) ∧
    (s.speaker_entry_pos < 63 →
      (audio_stream_append_on s time cycles freq).speaker_entry_pos
        = s.speaker_entry_pos + 1) ∧
    (63 ≤ s.speaker_entry_pos →
      (audio_stream_append_on s time cycles freq).speaker_entry_pos = s.speaker_entry_pos ∧
      (audio_stream_append_on s time cycles freq).speaker_entries = s.speaker_entries ∧
      (audio_stream_append_on s time cycles freq).audio_prev_time = s.audio_prev_time ∧
      (audio_stream_append_on s time cycles freq).speaker_freq_ctr = s.speaker_freq_ctr ∧
      (audio_stream_append_on s time cycles freq).audio_volume = s.audio_volume ∧
      (audio_stream_append_on s time cycles freq).audio_delay_time = s.audio_delay_time ∧
      (audio_stream_append_on s time cycles freq).speaker_overrun_flagged = true) := by
  have hacc : s.speaker_entry_pos < 63 →
      (audio_stream_append_on s time cycles freq).speaker_entry_pos
        = s.speaker_entry_pos + 1 := fun h => (append_on_accepted s time cycles freq h).1
  have hdrop : 63 ≤ s.speaker_entry_pos →
      (audio_stream_append_on s time cycles freq).speaker_entry_pos = s.speaker_entry_pos ∧
      (audio_stream_append_on s time cycles freq).speaker_entries = s.speaker_entries ∧
      (audio_stream_append_on s time cycles freq).audio_prev_time = s.audio_prev_time ∧
      (audio_stream_append_on s time cycles freq).speaker_freq_ctr = s.speaker_freq_ctr ∧
      (audio_stream_append_on s time cycles freq).audio_volume = s.audio_volume ∧
      (audio_stream_append_on s time cycles freq).audio_delay_time = s.audio_delay_time ∧
      (audio_stream_append_on s time cycles freq).speaker_overrun_flagged = true := by
    intro h
    rw [append_on_dropped s time cycles freq h]
    obtain ⟨h1, h2, h3, h4, h5, h6, -⟩ := flag_overrun_frame s
    exact ⟨h1, h2, h3, h4, h5, h6, flag_overrun_flagged s⟩
  refine ⟨⟨?_, fun h => (hdrop h).1⟩, hacc, hdrop⟩
  intro h
  by_contra hlt
  have := hacc (by omega)
  omega

theorem append_on_drop_iff_witness :
    (audio_stream_append_on full_state 7 9 440).speaker_entries = full_state.speaker_entries ∧
    (audio_stream_append_on full_state 7 9 440).speaker_overrun_flagged = true ∧
    (audio_stream_append_on primed_state 7 9 440).speaker_entry_pos
      = primed_state.speaker_entry_pos + 1 :=
  ⟨((append_on_drop_iff full_state 7 9 440).2.2 (by rw [full_state_pos]; decide)).2.1,
    ((append_on_drop_iff full_state 7 9 440).2.2 (by rw [full_state_pos]; decide)).2.2.2.2.2.2,
    (append_on_drop_iff primed_state 7 9 440).2.1 (by decide)⟩

/-- C18. An accepted `audio_stream_append_on` or `audio_stream_append_off` makes the queue
exactly one longer, leaves every other entry of the array unchanged, stores at the new tail
the given cycle count with `enabled = true` and the given frequency (append_on) or
`enabled = false` (append_off), and leaves `audio_prev_time`, the phase counter, the
volume, the note delay and the overrun flag unchanged. -/
theorem tail_insertion (s : AudioState) (time cycles : Int) (freq : ℚ) :
    (s.speaker_entry_pos < 63 →
      (audio_stream_append_on s time cycles freq).speaker_entry_pos
        = s.speaker_entry_pos + 1 ∧
      (∀ i : Nat, i < s.speaker_entry_pos →
        (audio_stream_append_on s time cycles freq).speaker_entries i = s.speaker_entries i) ∧
      ((audio_stream_append_on s time cycles freq).speaker_entries s.speaker_entry_pos).cycles
        = cycles ∧
      ((audio_stream_append_on s time cycles freq).speaker_entries s.speaker_entry_pos).enabled
        = true ∧
      ((audio_stream_append_on s time cycles freq).speaker_entries s.speaker_entry_pos).freq
        = freq ∧
      (audio_stream_append_on s time cycles freq).audio_prev_time = s.audio_prev_time ∧
      (audio_stream_append_on s time cycles freq).speaker_freq_ctr = s.speaker_freq_ctr ∧
      (audio_stream_append_on s time cycles freq).audio_volume = s.audio_volume ∧
      (audio_stream_append_on s time cycles freq).audio_delay_time = s.audio_delay_time ∧
      (audio_stream_append_on s time cycles freq).speaker_overrun_flagged
        = s.speaker_overrun_flagged) ∧
    (s.speaker_entry_pos < 64 →
      (audio_stream_append_off s time cycles).speaker_entry_pos = s.speaker_entry_pos + 1 ∧
      (∀ i : Nat, i < s.speaker_entry_pos →
        (audio_stream_append_off s time cycles).speaker_entries i = s.speaker_entries i) ∧
      ((audio_stream_append_off s time cycles).speaker_entries s.speaker_entry_pos).cycles
        = cycles ∧
      ((audio_stream_append_off s time cycles).speaker_entries s.speaker_entry_pos).enabled
        = false ∧
      (audio_stream_append_off s time cycles).audio_prev_time = s.audio_prev_time ∧
      (audio_stream_append_off s time cycles).speaker_freq_ctr = s.speaker_freq_ctr ∧
      (audio_stream_append_off s time cycles).audio_volume = s.audio_volume ∧
      (audio_stream_append_off s time cycles).audio_delay_time = s.audio_delay_time ∧
      (audio_stream_append_off s time cycles).speaker_overrun_flagged
        = s.speaker_overrun_flagged) := by
  constructor
  · intro h
    obtain ⟨h1, h2, h3, h4, h5, h6, h7, h8, h9, h10, -, -⟩ :=
      append_on_accepted s time cycles freq h
    exact ⟨h1, fun i hi => h2 i (by omega), h3, h4, h5, h6, h7, h8, h9, h10⟩
  · intro h
    obtain ⟨h1, h2, h3, h4, h5, h6, h7, h8, h9, -, -⟩ := append_off_accepted s time cycles h
    exact ⟨h1, fun i hi => h2 i (by omega), h3, h4, h5, h6, h7, h8, h9⟩

theorem tail_insertion_witness :
    (audio_stream_append_on tone_state 3 4 800).speaker_entry_pos
      = tone_state.speaker_entry_pos + 1 ∧
    (audio_stream_append_off tone_state 3 4).speaker_entry_pos
      = tone_state.speaker_entry_pos + 1 :=
  ⟨((tail_insertion tone_state 3 4 800).1 (by decide)).1,
    ((tail_insertion tone_state 3 4 800).2 (by decide)).1⟩

theorem span_loop_index (s : AudioState) (len : Int) (ar rts : ℚ) (n i : Nat) (ctr : Int)
    (stream : Nat → Nat) (r : Nat × Int × (Nat → Nat))
    (h : span_loop s len ar rts n i ctr stream = some r) : i ≤ r.1 ∧ r.1 ≤ i + n := by
  induction n generalizing i ctr stream with
  | zero =>
    simp only [span_loop, Option.some.injEq] at h
    rw [← h]
    exact ⟨le_refl _, le_refl _⟩
  | succ n ih =>
    simp only [span_loop, Option.bind_eq_some] at h
    obtain ⟨e, _, dto, _, h⟩ := h
    split_ifs at h with h1 h2 h3
    · simp only [Option.some.injEq] at h
      rw [← h]
      exact ⟨le_refl _, by omega⟩
    · simp only [Option.bind_eq_some] at h
      obtain ⟨st1, _, h⟩ := h
      have := ih _ _ _ h
      omega
    · have := ih _ _ _ h
      omega
    · have := ih _ _ _ h
      omega

theorem compact_loop_neg (k : Int) (hk : k < 0) (n : Nat) (a : Nat → speaker_entry) :
    compact_loop k (n + 1) k a = none := by
  have hr : entry_read a k = none := by
    simp [entry_read, not_le.mpr hk]
  simp [compact_loop, hr]

theorem compact_loop_shift (k : Int) (hk : 0 ≤ k) (n : Nat) (i : Int) (hi : k ≤ i)
    (a a1 : Nat → speaker_entry) (h : compact_loop k n i a = some a1) (j : Nat) :
    a1 j = if i - k ≤ (j : Int) ∧ (j : Int) < i - k + n then a ((j : Int) + k).toNat
      else a j := by
  induction n generalizing i a with
  | zero =>
    simp only [compact_loop, Option.some.injEq] at h
    rw [← h]
    have : ¬ (i - k ≤ (j : Int) ∧ (j : Int) < i - k + ((0 : Nat) : Int)) := by
      push_cast
      omega
    rw [if_neg this]
  | succ n ih =>
    simp only [compact_loop, Option.bind_eq_some] at h
    obtain ⟨e, he, a2, ha2, h⟩ := h
    have he1 : e = a i.toNat := by
      unfold entry_read at he
      split_ifs at he
      simp only [Option.some.injEq] at he
      exact he.symm
    have ha3 : a2 = Function.update a (i - k).toNat e := by
      unfold entry_write at ha2
      split_ifs at ha2
      simp only [Option.some.injEq] at ha2
      exact ha2.symm
    rw [ih (i + 1) (by omega) a2 h, ha3, he1]
    by_cases hj : (j : Int) = i - k
    · have hjn : j = (i - k).toNat := by omega
      have h1 : ¬ (i + 1 - k ≤ (j : Int) ∧ (j : Int) < i + 1 - k + (n : Int)) := by omega
      have h2 : i - k ≤ (j : Int) ∧ (j : Int) < i - k + ((n + 1 : Nat) : Int) := by
        push_cast
        omega
      rw [if_neg h1, if_pos h2, hjn, Function.update_same]
      congr 1
      omega
    · have hjn : j ≠ (i - k).toNat := by omega
      by_cases hr : i + 1 - k ≤ (j : Int) ∧ (j : Int) < i + 1 - k + (n : Int)
      · have h2 : i - k ≤ (j : Int) ∧ (j : Int) < i - k + ((n + 1 : Nat) : Int) := by
          push_cast
          omega
        have hne : ((j : Int) + k).toNat ≠ (i - k).toNat := by omega
        rw [if_pos hr, if_pos h2, Function.update_noteq hne]
      · have h2 : ¬ (i - k ≤ (j : Int) ∧ (j : Int) < i - k + ((n + 1 : Nat) : Int)) := by
          push_cast
          omega
        rw [if_neg hr, if_neg h2, Function.update_noteq hjn]

/-- The state after a non-priming `audio_stream_generate_u8` call on a non-empty queue:
the entry loop stopped at some index `i >= 1`, the entries from `i - 1` on are moved to the
front, the first of them gets the new `audio_prev_time` as timestamp, and the overrun flag
is cleared. -/
theorem generate_nonempty_post (s s1 : AudioState) (time len : Int) (stream out : Nat → Nat)
    (h : audio_stream_generate_u8 s time stream len = some (s1, out))
    (hp : 0 ≤ s.audio_prev_time) (hq : s.speaker_entry_pos ≠ 0) :
    ∃ i : Nat, 1 ≤ i ∧ i ≤ s.speaker_entry_pos ∧
      s1.speaker_entry_pos = s.speaker_entry_pos - (i - 1) ∧
      s1.audio_prev_time =
        (if s.speaker_entry_pos - (i - 1) = 1 then (time : ℚ)
         else max (s.audio_prev_time + ((len : ℚ) / (s.audio_freq : ℚ) * 1000)) (time : ℚ)) ∧
      s1.speaker_entries 0 = { s.speaker_entries (i - 1) with ms := s1.audio_prev_time } ∧
      (∀ j : Nat, 0 < j → s1.speaker_entries j =
        if j < s.speaker_entry_pos - (i - 1) then s.speaker_entries (j + (i - 1))
        else s.speaker_entries j) ∧
      s1.speaker_overrun_flagged = false ∧ s1.audio_volume = s.audio_volume ∧
      s1.audio_delay_time = s.audio_delay_time ∧ s1.audio_freq = s.audio_freq ∧
      s1.stderr_lines = s.stderr_lines := by
  have hp1 : ¬ s.audio_prev_time < 0 := not_lt.mpr hp
  have hmax : (if s.audio_prev_time + (len : ℚ) / (s.audio_freq : ℚ) * 1000 < (time : ℚ)
      then (time : ℚ) else s.audio_prev_time + (len : ℚ) / (s.audio_freq : ℚ) * 1000)
      = max (s.audio_prev_time + ((len : ℚ) / (s.audio_freq : ℚ) * 1000)) (time : ℚ) := by
    split_ifs with hlt
    · exact (max_eq_right (le_of_lt hlt)).symm
    · exact (max_eq_left (not_lt.mp hlt)).symm
  unfold audio_stream_generate_u8 at h
  simp only [hp1, if_false, hq, hmax] at h
  by_cases hc : s.audio_freq = 0 ∨ len = 0
  · rw [if_pos hc] at h
    exact Option.noConfusion h
  rw [if_neg hc] at h
  simp only [Option.bind_eq_some] at h
  obtain ⟨r, hr, a, ha, h⟩ := h
  obtain ⟨-, hi2⟩ := span_loop_index _ _ _ _ _ _ _ _ _ hr
  rw [Nat.zero_add] at hi2
  have hkif : (if (r.1 : Int) - 1 ≥ (s.speaker_entry_pos : Int)
      then (s.speaker_entry_pos : Int) - 1 else (r.1 : Int) - 1) = (r.1 : Int) - 1 := by
    rw [if_neg (by omega)]
  rw [hkif] at ha h
  have hi1 : 1 ≤ r.1 := by
    by_contra hlt
    have h0 : r.1 = 0 := by omega
    have hn : ((s.speaker_entry_pos : Int) - ((r.1 : Int) - 1)).toNat
        = s.speaker_entry_pos + 1 := by omega
    rw [hn, h0] at ha
    rw [compact_loop_neg _ (by decide)] at ha
    exact Option.noConfusion ha
  have hcnt : ((s.speaker_entry_pos : Int) - ((r.1 : Int) - 1)).toNat
      = s.speaker_entry_pos - (r.1 - 1) := by omega
  rw [hcnt] at ha h
  have hshift := compact_loop_shift _ (by omega) _ _ (le_refl _) _ _ ha
  simp only [Option.some.injEq, Prod.mk.injEq] at h
  obtain ⟨hs1, -⟩ := h
  have ha0 : a 0 = s.speaker_entries (r.1 - 1) := by
    rw [hshift 0]
    have hc0 : (r.1 : Int) - 1 - ((r.1 : Int) - 1) ≤ ((0 : Nat) : Int) ∧
        ((0 : Nat) : Int) < (r.1 : Int) - 1 - ((r.1 : Int) - 1) +
          ((s.speaker_entry_pos - (r.1 - 1) : Nat) : Int) := by
      omega
    rw [if_pos hc0]
    congr 1
    omega
  refine ⟨r.1, hi1, hi2, ?_, ?_, ?_, ?_, ?_, ?_, ?_, ?_, ?_⟩
  · rw [← hs1]
  · rw [← hs1]
  · rw [← hs1]
    simp only [Function.update_same, ha0]
  · intro j hj
    rw [← hs1]
    simp only
    rw [Function.update_noteq (by omega), hshift j]
    by_cases hjl : j < s.speaker_entry_pos - (r.1 - 1)
    · have hc1 : (r.1 : Int) - 1 - ((r.1 : Int) - 1) ≤ (j : Int) ∧
          (j : Int) < (r.1 : Int) - 1 - ((r.1 : Int) - 1) +
            ((s.speaker_entry_pos - (r.1 - 1) : Nat) : Int) := by
        omega
      rw [if_pos hc1, if_pos hjl]
      congr 1
      omega
    · have hc1 : ¬ ((r.1 : Int) - 1 - ((r.1 : Int) - 1) ≤ (j : Int) ∧
          (j : Int) < (r.1 : Int) - 1 - ((r.1 : Int) - 1) +
            ((s.speaker_entry_pos - (r.1 - 1) : Nat) : Int)) := by
        omega
      rw [if_neg hc1, if_neg hjl]
  · rw [← hs1]
  · rw [← hs1]
  · rw [← hs1]
  · rw [← hs1]
  · rw [← hs1]

theorem generate_priming_post (s s1 : AudioState) (time len : Int) (stream out : Nat → Nat)
    (h : audio_stream_generate_u8 s time stream len = some (s1, out))
    (hp : s.audio_prev_time < 0) :
    s1 = { s with audio_prev_time := time, speaker_entry_pos := 0 } := by
  by_cases hl : len < 0
  · simp [audio_stream_generate_u8, hp, hl] at h
  · rw [generate_priming s time stream len hp (not_lt.mp hl)] at h
    simp only [Option.some.injEq, Prod.mk.injEq] at h
    exact h.1.symm

theorem generate_empty_post (s s1 : AudioState) (time len : Int) (stream out : Nat → Nat)
    (h : audio_stream_generate_u8 s time stream len = some (s1, out))
    (hp : 0 ≤ s.audio_prev_time) (hq : s.speaker_entry_pos = 0) :
    s1 = { s with audio_prev_time := time } := by
  by_cases hl : len < 0
  · simp [audio_stream_generate_u8, not_lt.mpr hp, hl, hq] at h
  · rw [generate_empty s time stream len hp hq (not_lt.mp hl)] at h
    simp only [Option.some.injEq, Prod.mk.injEq] at h
    exact h.1.symm

theorem reachable_queue_inv (s : AudioState) (h : Reachable s) :
    s.speaker_entry_pos ≤ 64 ∧
    (s.speaker_entry_pos = 64 → (s.speaker_entries 63).enabled = false) := by
  induction h with
  | initial => exact ⟨by decide, fun h => absurd h (by decide)⟩
  | init s time freq _ ih => exact ih
  | set_volume s v _ _ ih => exact ih
  | set_note_delay s d _ ih => exact ih
  | append_on s time cycles freq _ ih =>
    by_cases hacc : s.speaker_entry_pos < 63
    · obtain ⟨h1, -⟩ := append_on_accepted s time cycles freq hacc
      rw [h1]
      exact ⟨by omega, fun h => by omega⟩
    · rw [append_on_dropped s time cycles freq (by omega)]
      obtain ⟨h1, h2, -⟩ := flag_overrun_frame s
      rw [h1, h2]
      exact ih
  | append_off s time cycles _ ih =>
    by_cases hacc : s.speaker_entry_pos < 64
    · obtain ⟨h1, -, -, h4, -⟩ := append_off_accepted s time cycles hacc
      rw [h1]
      refine ⟨by omega, fun h => ?_⟩
      have h63 : s.speaker_entry_pos = 63 := by omega
      rw [h63] at h4
      exact h4
    · rw [append_off_dropped s time cycles (by omega)]
      obtain ⟨h1, h2, -⟩ := flag_overrun_frame s
      rw [h1, h2]
      exact ih
  | generate s s1 time len stream out _ hg ih =>
    by_cases hp : s.audio_prev_time < 0
    · rw [generate_priming_post s s1 time len stream out hg hp]
      exact ⟨by simp, fun h => by simp at h⟩
    · by_cases hq : s.speaker_entry_pos = 0
      · rw [generate_empty_post s s1 time len stream out hg (not_lt.mp hp) hq]
        exact ih
      · obtain ⟨i, hi1, hi2, hpos, -, -, hent, -⟩ :=
          generate_nonempty_post s s1 time len stream out hg (not_lt.mp hp) hq
        rw [hpos]
        refine ⟨by omega, fun h => ?_⟩
        have hi : i = 1 := by omega
        have h64 : s.speaker_entry_pos = 64 := by omega
        rw [hent 63 (by decide), hi, h64]
        simp only [Nat.sub_self, Nat.sub_zero, Nat.add_zero]
        rw [if_pos (by decide)]
        exact ih.2 h64

/-- C12. Whenever `audio_stream_append_on` is accepted, the `audio_stream_append_off` that
follows it is accepted too, whatever its arguments, and stores a disabled entry right
after the on entry; an accepted on entry is stored at an index below 63, and in every
reachable state the queue holds at most 64 entries and every enabled entry of the queue has
an index below 63. -/
theorem reserved_slot :
    (∀ (s : AudioState) (time cycles : Int) (freq : ℚ) (time2 cycles2 : Int),
      s.speaker_entry_pos ≤ 64 → call_dropped s (Call.note_on time cycles freq) = false →
      call_dropped (audio_stream_append_on s time cycles freq) (Call.note_off time2 cycles2)
        = false ∧
      (audio_stream_append_off (audio_stream_append_on s time cycles freq)
        time2 cycles2).speaker_entry_pos = s.speaker_entry_pos + 2 ∧
      ((audio_stream_append_off (audio_stream_append_on s time cycles freq)
        time2 cycles2).speaker_entries (s.speaker_entry_pos + 1)).enabled = false ∧
      ((audio_stream_append_off (audio_stream_append_on s time cycles freq)
        time2 cycles2).speaker_entries s.speaker_entry_pos).enabled = true ∧
      s.speaker_entry_pos < 63) ∧
    (∀ s : AudioState, Reachable s →
      s.speaker_entry_pos ≤ 64 ∧
      ∀ i : Nat, i < s.speaker_entry_pos → (s.speaker_entries i).enabled = true → i < 63) := by
  constructor
  · intro s time cycles freq time2 cycles2 _ hacc
    have hlt : s.speaker_entry_pos < 63 := by
      simp only [call_dropped, SPEAKER_ENTRY_LEN, decide_eq_false_iff_not] at hacc
      omega
    obtain ⟨h1, -, -, h4, -⟩ := append_on_accepted s time cycles freq hlt
    obtain ⟨g1, g2, -, g4, -⟩ :=
      append_off_accepted (audio_stream_append_on s time cycles freq) time2 cycles2 (by omega)
    refine ⟨?_, ?_, ?_, ?_, hlt⟩
    · simp only [call_dropped, SPEAKER_ENTRY_LEN, decide_eq_false_iff_not, h1]
      omega
    · rw [g1, h1]
    · rw [h1] at g4
      exact g4
    · rw [g2 _ (by omega)]
      exact h4
  · intro s hs
    obtain ⟨h1, h2⟩ := reachable_queue_inv s hs
    refine ⟨h1, fun i hi hen => ?_⟩
    by_contra hge
    have h63 : i = 63 := by omega
    have h64 : s.speaker_entry_pos = 64 := by omega
    rw [h63, h2 h64] at hen
    exact Bool.noConfusion hen

theorem reserved_slot_witness :
    call_dropped (audio_stream_append_on tone_state 2 3 440) (Call.note_off 5 6) = false ∧
    (audio_stream_append_off (audio_stream_append_on tone_state 2 3 440) 5 6).speaker_entry_pos
      = tone_state.speaker_entry_pos + 2 ∧
    tone_state.speaker_entry_pos ≤ 64 :=
  ⟨(reserved_slot.1 tone_state 2 3 440 5 6 (by decide) (by decide)).1,
    (reserved_slot.1 tone_state 2 3 440 5 6 (by decide) (by decide)).2.1,
    (reserved_slot.2 tone_state tone_state_reachable).1⟩

/-- C13 (counterexample). Starting from the empty queue of `primed_state`, 32 alternating
pairs of accepted on and off calls fill the queue to 64 entries; the 33rd
`audio_stream_append_on` and the 33rd `audio_stream_append_off` are both dropped, after
only 32 on events (fewer than 63) have been appended. -/
theorem alternating_off_dropped_after_32 :
    primed_state.speaker_entry_pos = 0 ∧
    (List.replicate 32 (((0 : Int), (0 : Int), (440 : ℚ)), ((0 : Int), (0 : Int)))).length
      < 63 ∧
    full_state.speaker_entry_pos = 64 ∧
    call_dropped full_state (Call.note_on 0 0 440) = true ∧
    call_dropped (audio_stream_append_on full_state 0 0 440) (Call.note_off 0 0) = true ∧
    (audio_stream_append_off (audio_stream_append_on full_state 0 0 440) 0 0).speaker_entry_pos
      = 64 ∧
    (audio_stream_append_off (audio_stream_append_on full_state 0 0 440) 0 0).speaker_entries
      = full_state.speaker_entries := by
  have hon : audio_stream_append_on full_state 0 0 440
      = audio_stream_flag_speaker_overrun full_state :=
    append_on_dropped _ _ _ _ (by rw [full_state_pos]; decide)
  have hpos1 : (audio_stream_flag_speaker_overrun full_state).speaker_entry_pos = 64 := by
    rw [(flag_overrun_frame full_state).1, full_state_pos]
  have hoff : audio_stream_append_off (audio_stream_flag_speaker_overrun full_state) 0 0
      = audio_stream_flag_speaker_overrun (audio_stream_flag_speaker_overrun full_state) :=
    append_off_dropped _ _ _ (by rw [hpos1])
  refine ⟨rfl, by simp, full_state_pos, ?_, ?_, ?_, ?_⟩
  · simp only [call_dropped, full_state_pos]
    decide
  · rw [hon]
    simp only [call_dropped, hpos1]
    decide
  · rw [hon, hoff, (flag_overrun_frame _).1, hpos1]
  · rw [hon, hoff, (flag_overrun_frame _).2.1, (flag_overrun_frame _).2.1]

/-- C13 (amended). Starting from an empty queue, alternating on, off, on, off, ... calls
with no draining in between are all accepted (the queue grows by two per pair, nothing is
reported) as long as at most 32 pairs are appended; after 32 pairs the queue holds 64
entries and the next `audio_stream_append_on` and `audio_stream_append_off` are dropped. -/
theorem alternating_appends_accepted (s : AudioState)
    (l : List ((Int × Int × ℚ) × (Int × Int))) (hempty : s.speaker_entry_pos = 0)
    (hlen : l.length ≤ 32) :
    (run_calls s (alternate_calls l)).speaker_entry_pos = 2 * l.length ∧
    (run_calls s (alternate_calls l)).stderr_lines = s.stderr_lines ∧
    (run_calls s (alternate_calls l)).speaker_overrun_flagged = s.speaker_overrun_flagged ∧
    (l.length = 32 → ∀ (time cycles : Int) (freq : ℚ) (time2 cycles2 : Int),
      call_dropped (run_calls s (alternate_calls l)) (Call.note_on time cycles freq) = true ∧
      call_dropped (audio_stream_append_on (run_calls s (alternate_calls l)) time cycles freq)
        (Call.note_off time2 cycles2) = true) := by
  obtain ⟨h1, h2, h3, -⟩ := run_alternate l s (by omega)
  rw [hempty, Nat.zero_add] at h1
  refine ⟨h1, h2, h3, ?_⟩
  intro h32 time cycles freq time2 cycles2
  have h64 : (run_calls s (alternate_calls l)).speaker_entry_pos = 64 := by omega
  constructor
  · simp only [call_dropped, h64]
    decide
  · rw [append_on_dropped _ _ _ _ (by rw [h64]; decide)]
    simp only [call_dropped, (flag_overrun_frame _).1, h64]
    decide

theorem alternating_appends_accepted_witness :
    (run_calls primed_state (alternate_calls
      (List.replicate 32 ((0, 0, 440), (0, 0))))).speaker_entry_pos
      = 2 * (List.replicate 32 (((0 : Int), (0 : Int), (440 : ℚ)),
          ((0 : Int), (0 : Int)))).length :=
  (alternating_appends_accepted primed_state (List.replicate 32 ((0, 0, 440), (0, 0))) rfl
    (by simp)).1

/-- C14 (counterexample). With 63 queued events (`almost_full_state`) an
`audio_stream_append_off` is accepted: the queue reaches 64 entries, the new entry is
stored at index 63 and nothing is reported. -/
theorem append_off_accepted_at_63 :
    almost_full_state.speaker_entry_pos = 63 ∧
    (audio_stream_append_off almost_full_state 0 0).speaker_entry_pos = 64 ∧
    ((audio_stream_append_off almost_full_state 0 0).speaker_entries 63).enabled = false ∧
    ((audio_stream_append_off almost_full_state 0 0).speaker_entries 63).cycles = 0 ∧
    (audio_stream_append_off almost_full_state 0 0).stderr_lines
      = almost_full_state.stderr_lines ∧
    (audio_stream_append_off almost_full_state 0 0).speaker_overrun_flagged
      = almost_full_state.speaker_overrun_flagged := by
  obtain ⟨h1, -, h3, h4, -, -, -, -, h9, -, h11⟩ :=
    append_off_accepted almost_full_state 0 0 (by rw [almost_full_state_pos]; decide)
  rw [almost_full_state_pos] at h1 h3 h4
  exact ⟨almost_full_state_pos, h1, h4, h3, h11, h9⟩

/-- C14 (amended). `audio_stream_append_off` is dropped (queue length and entries
unchanged, overrun flag set) exactly when the queue already holds 64 events or more; with
63 events it is accepted and the queue reaches 64 entries. -/
theorem append_off_drop_iff (s : AudioState) (time cycles : Int) :
    ((audio_stream_append_off s time cycles).speaker_entry_pos = s.speaker_entry_pos ↔
      64 ≤ s.speaker_entry_pos) ∧
    (64 ≤ s.speaker_entry_pos →
      (audio_stream_append_off s time cycles).speaker_entry_pos = s.speaker_entry_pos ∧
      (audio_stream_append_off s time cycles).speaker_entries = s.speaker_entries ∧
      (audio_stream_append_off s time cycles).speaker_overrun_flagged = true) ∧
    (s.speaker_entry_pos = 63 →
      (audio_stream_append_off s time cycles).speaker_entry_pos = 64 ∧
      ((audio_stream_append_off s time cycles).speaker_entries 63).enabled = false ∧
      (audio_stream_append_off s time cycles).speaker_overrun_flagged
        = s.speaker_overrun_flagged) := by
  have hdrop : 64 ≤ s.speaker_entry_pos →
      (audio_stream_append_off s time cycles).speaker_entry_pos = s.speaker_entry_pos ∧
      (audio_stream_append_off s time cycles).speaker_entries = s.speaker_entries ∧
      (audio_stream_append_off s time cycles).speaker_overrun_flagged = true := by
    intro h
    rw [append_off_dropped s time cycles h]
    exact ⟨(flag_overrun_frame s).1, (flag_overrun_frame s).2.1, flag_overrun_flagged s⟩
  refine ⟨⟨?_, fun h => (hdrop h).1⟩, hdrop, ?_⟩
  · intro h
    by_contra hlt
    have := (append_off_accepted s time cycles (by omega)).1
    omega
  · intro h63
    obtain ⟨h1, -, -, h4, -, -, -, -, h9, -⟩ := append_off_accepted s time cycles (by omega)
    rw [h63] at h1 h4
    exact ⟨h1, h4, h9⟩

theorem append_off_drop_iff_witness :
    (audio_stream_append_off full_state 1 2).speaker_entries = full_state.speaker_entries ∧
    (audio_stream_append_off almost_full_state 1 2).speaker_entry_pos = 64 :=
  ⟨((append_off_drop_iff full_state 1 2).2.1 (by rw [full_state_pos])).2.1,
    ((append_off_drop_iff almost_full_state 1 2).2.2 almost_full_state_pos).1⟩

theorem apply_call_dropped (s : AudioState) (c : Call) (h : call_dropped s c = true) :
    apply_call s c = audio_stream_flag_speaker_overrun s := by
  cases c with
  | note_on time cycles freq =>
    simp only [call_dropped, SPEAKER_ENTRY_LEN, decide_eq_true_eq] at h
    exact append_on_dropped s time cycles freq (by omega)
  | note_off time cycles =>
    simp only [call_dropped, SPEAKER_ENTRY_LEN, decide_eq_true_eq] at h
    exact append_off_dropped s time cycles (by omega)

theorem run_calls_dropped_flagged (l : List Call) (s : AudioState)
    (hf : s.speaker_overrun_flagged = true) (hd : ∀ d ∈ l, call_dropped s d = true) :
    run_calls s l = s := by
  induction l with
  | nil => rfl
  | cons c rest ih =>
    simp only [run_calls]
    rw [apply_call_dropped s c (hd c (List.mem_cons_self _ _)), flag_overrun_of_flagged s hf]
    exact ih (fun d hdm => hd d (List.mem_cons_of_mem _ hdm))

theorem call_dropped_flag_overrun (s : AudioState) (c : Call) :
    call_dropped (audio_stream_flag_speaker_overrun s) c = call_dropped s c := by
  cases c <;> simp only [call_dropped, (flag_overrun_frame s).1]

/-- C15. In a sequence of dropped `audio_stream_append_on` / `audio_stream_append_off`
calls with nothing in between, started with the overrun flag clear, the first drop prints
the diagnostic once and sets the flag, every later drop changes nothing, so the whole
sequence prints exactly one diagnostic; started with the flag set, the sequence prints
nothing and changes nothing. -/
theorem drop_and_flag_once (s : AudioState) (c : Call) (rest : List Call)
    (hc : call_dropped s c = true) (hrest : ∀ d ∈ rest, call_dropped s d = true) :
    (s.speaker_overrun_flagged = false →
      (apply_call s c).stderr_lines = s.stderr_lines + 1 ∧
      (apply_call s c).speaker_overrun_flagged = true ∧
      (∀ d ∈ rest, call_dropped (apply_call s c) d = true) ∧
      run_calls (apply_call s c) rest = apply_call s c ∧
      (run_calls s (c :: rest)).stderr_lines = s.stderr_lines + 1 ∧
      (run_calls s (c :: rest)).speaker_overrun_flagged = true ∧
      (run_calls s (c :: rest)).speaker_entry_pos = s.speaker_entry_pos ∧
      (run_calls s (c :: rest)).speaker_entries = s.speaker_entries) ∧
    (s.speaker_overrun_flagged = true → run_calls s (c :: rest) = s) := by
  have happ := apply_call_dropped s c hc
  have hrest1 : ∀ d ∈ rest, call_dropped (apply_call s c) d = true := by
    intro d hd
    rw [happ, call_dropped_flag_overrun]
    exact hrest d hd
  have hflag1 : (apply_call s c).speaker_overrun_flagged = true := by
    rw [happ]
    exact flag_overrun_flagged s
  have hrun : run_calls (apply_call s c) rest = apply_call s c :=
    run_calls_dropped_flagged rest _ hflag1 hrest1
  constructor
  · intro hclear
    have hlines : (apply_call s c).stderr_lines = s.stderr_lines + 1 := by
      rw [happ]
      exact flag_overrun_lines s hclear
    refine ⟨hlines, hflag1, hrest1, hrun, ?_, ?_, ?_, ?_⟩
    · simp only [run_calls]
      rw [hrun, hlines]
    · simp only [run_calls]
      rw [hrun, hflag1]
    · simp only [run_calls]
      rw [hrun, happ, (flag_overrun_frame s).1]
    · simp only [run_calls]
      rw [hrun, happ, (flag_overrun_frame s).2.1]
  · intro hset
    exact run_calls_dropped_flagged (c :: rest) s hset (by
      intro d hd
      rcases List.mem_cons.mp hd with h | h
      · rw [h]; exact hc
      · exact hrest d h)

theorem drop_and_flag_once_witness :
    full_state.speaker_overrun_flagged = false ∧
    (run_calls full_state [Call.note_on 1 2 440, Call.note_off 3 4, Call.note_on 5 6 880]).stderr_lines
      = full_state.stderr_lines + 1 ∧
    (run_calls full_state [Call.note_on 1 2 440, Call.note_off 3 4, Call.note_on 5 6 880]).speaker_overrun_flagged
      = true :=
  have hclear : full_state.speaker_overrun_flagged = false :=
    (run_alternate (List.replicate 32 ((0, 0, 440), (0, 0))) primed_state
      (by simp [primed_state])).2.2.1
  have hd : ∀ d ∈ [Call.note_off 3 4, Call.note_on 5 6 880], call_dropped full_state d = true := by
    intro d hd
    simp only [List.mem_cons, List.mem_singleton, List.not_mem_nil, or_false] at hd
    rcases hd with h | h <;> rw [h] <;> simp only [call_dropped, full_state_pos] <;> decide
  have hc : call_dropped full_state (Call.note_on 1 2 440) = true := by
    simp only [call_dropped, full_state_pos]
    decide
  ⟨hclear,
    ((drop_and_flag_once full_state (Call.note_on 1 2 440) [Call.note_off 3 4, Call.note_on 5 6 880] hc hd).1
      hclear).2.2.2.2.1,
    ((drop_and_flag_once full_state (Call.note_on 1 2 440) [Call.note_off 3 4, Call.note_on 5 6 880] hc hd).1
      hclear).2.2.2.2.2.1⟩

/-- When the first queued entry maps to a start sample `>= len`, the entry loop breaks at
index 0, `k = -1`, and the compaction loop reads `speaker_entries[-1]`: the call has no
defined result. -/
theorem generate_break_at_first (s : AudioState) (time : Int) (stream : Nat → Nat) (len : Int)
    (hp : 0 ≤ s.audio_prev_time) (hq : s.speaker_entry_pos ≠ 0) (hr : s.audio_freq ≠ 0)
    (hl : 0 < len)
    (hF : len ≤ trunc (((s.speaker_entries 0).ms - s.audio_prev_time) *
      ((s.audio_freq : ℚ) / 1000))) :
    audio_stream_generate_u8 s time stream len = none := by
  have hl0 : len ≠ 0 := by omega
  have hp1 : ¬ s.audio_prev_time < 0 := not_lt.mpr hp
  have hcond : ¬ (s.audio_freq = 0 ∨ len = 0) := by
    rintro (h | h)
    · exact hr h
    · exact hl0 h
  obtain ⟨n, hn⟩ : ∃ n, s.speaker_entry_pos = n + 1 := ⟨s.speaker_entry_pos - 1, by omega⟩
  have hread : entry_read s.speaker_entries ((0 : Nat) : Int) = some (s.speaker_entries 0) := by
    simp [entry_read, SPEAKER_ENTRY_LEN]
  have hdto : ∃ dto, audio_dto s ((len : ℚ) / (s.audio_freq : ℚ) * 1000) 0 = some dto := by
    unfold audio_dto
    split_ifs
    · exact ⟨_, rfl⟩
    · refine ⟨(s.speaker_entries 1).ms - s.audio_prev_time, ?_⟩
      simp [entry_read, SPEAKER_ENTRY_LEN]
  obtain ⟨dto, hdto⟩ := hdto
  have hbrk : ¬ trunc (((s.speaker_entries 0).ms - s.audio_prev_time) *
      ((s.audio_freq : ℚ) / 1000)) < 0 ∧
      trunc (((s.speaker_entries 0).ms - s.audio_prev_time) *
        ((s.audio_freq : ℚ) / 1000)) ≥ len := ⟨by omega, hF⟩
  have hspan : span_loop s len ((len : ℚ) / (s.audio_freq : ℚ) * 1000)
      ((s.audio_freq : ℚ) / 1000) (n + 1) 0 s.speaker_freq_ctr stream =
      some (0, s.speaker_freq_ctr, stream) := by
    simp only [span_loop, hread, hdto, Option.some_bind]
    rw [if_pos hbrk]
  have hk : ¬ (((0 : Nat) : Int) - 1 ≥ ((n + 1 : Nat) : Int)) := by
    push_cast
    omega
  have hcnt : (((n + 1 : Nat) : Int) - (((0 : Nat) : Int) - 1)).toNat = n + 1 + 1 := by
    push_cast
    omega
  unfold audio_stream_generate_u8
  simp only [hp1, if_false, hq, hcond, audio_res_eq, res_to_samples_eq len _ hl0 hr, hn, hspan,
    Option.some_bind, hk, hcnt]
  rw [compact_loop_neg _ (by decide)]
  rfl

theorem late_state_prev : late_state.audio_prev_time = 0 := by
  simp [late_state, audio_stream_append_on, SPEAKER_ENTRY_LEN, primed_state]

theorem late_state_entry :
    late_state.speaker_entries 0 = { enabled := true, cycles := 0, freq := 100, ms := 50 } := by
  simp [late_state, audio_stream_append_on, SPEAKER_ENTRY_LEN, primed_state]

theorem late_state_from :
    trunc (((late_state.speaker_entries 0).ms - late_state.audio_prev_time) *
      ((late_state.audio_freq : ℚ) / 1000)) = 50 := by
  rw [late_state_entry, late_state_prev]
  have : ((50 : ℚ) - 0) * ((late_state.audio_freq : ℚ) / 1000) = ((50 : Int) : ℚ) := by
    have : late_state.audio_freq = 1000 := rfl
    rw [this]
    norm_num
  rw [this, trunc_intCast]

/-- C16 (failing input). After `audio_stream_init(0, 1000)`, a priming call at time 0 and
`audio_stream_append_on(50, 0, 100)` (the reachable, primed state `late_state`), the only
queued entry maps to start sample 50 >= 10; `audio_stream_generate_u8(10, stream, 10)`
breaks out of the entry loop at index 0, sets `k = -1` and reads `speaker_entries[-1]`:
the call has no defined result, so the entry is not left untouched in the queue. -/
theorem late_event_generate_undefined :
    Reachable late_state ∧ 0 ≤ late_state.audio_prev_time ∧
    late_state.speaker_entry_pos = 1 ∧
    trunc (((late_state.speaker_entries 0).ms - late_state.audio_prev_time) *
      ((late_state.audio_freq : ℚ) / 1000)) = 50 ∧
    audio_stream_generate_u8 late_state 10 (fun _ => 0) 10 = none ∧
    entry_read late_state.speaker_entries (((0 : Nat) : Int) - 1) = none :=
  ⟨Reachable.append_on _ 50 0 100 primed_state_reachable, by rw [late_state_prev], rfl,
    late_state_from,
    generate_break_at_first late_state 10 (fun _ => 0) 10 (by rw [late_state_prev])
      (by decide) (by decide) (by decide) (by rw [late_state_from]; decide),
    by simp [entry_read]⟩

theorem generate_total_priming_or_empty (s : AudioState) (time : Int) (stream : Nat → Nat)
    (len : Int) (hl : 0 < len) (h : s.audio_prev_time < 0 ∨ s.speaker_entry_pos = 0) :
    ∃ s1 out, audio_stream_generate_u8 s time stream len = some (s1, out) := by
  by_cases hp : s.audio_prev_time < 0
  · exact ⟨_, _, generate_priming s time stream len hp (le_of_lt hl)⟩
  · rcases h with h | h
    · exact absurd h hp
    · exact ⟨_, _, generate_empty s time stream len (not_lt.mp hp) h (le_of_lt hl)⟩

/-- C19. After an `audio_stream_generate_u8(time, stream, len)` call that returns, priming
or not, the stored `audio_prev_time` is at least the callback time; with `len > 0` the
priming call and the call on an empty queue always return. -/
theorem prev_time_ge_callback_time (s : AudioState) (time : Int) (stream : Nat → Nat)
    (len : Int) :
    (∀ (s1 : AudioState) (out : Nat → Nat),
      audio_stream_generate_u8 s time stream len = some (s1, out) →
      (time : ℚ) ≤ s1.audio_prev_time) ∧
    (0 < len → (s.audio_prev_time < 0 ∨ s.speaker_entry_pos = 0) →
      ∃ s1 out, audio_stream_generate_u8 s time stream len = some (s1, out) ∧
        (time : ℚ) ≤ s1.audio_prev_time) := by
  have hmain : ∀ (s1 : AudioState) (out : Nat → Nat),
      audio_stream_generate_u8 s time stream len = some (s1, out) →
      (time : ℚ) ≤ s1.audio_prev_time := by
    intro s1 out h
    by_cases hp : s.audio_prev_time < 0
    · rw [generate_priming_post s s1 time len stream out h hp]
    · by_cases hq : s.speaker_entry_pos = 0
      · rw [generate_empty_post s s1 time len stream out h (not_lt.mp hp) hq]
      · obtain ⟨i, -, -, -, hprev, -⟩ :=
          generate_nonempty_post s s1 time len stream out h (not_lt.mp hp) hq
        rw [hprev]
        split_ifs
        · exact le_refl _
        · exact le_max_right _ _
  refine ⟨hmain, fun hl hc => ?_⟩
  obtain ⟨s1, out, h⟩ := generate_total_priming_or_empty s time stream len hl hc
  exact ⟨s1, out, h, hmain s1 out h⟩

theorem prev_time_ge_callback_time_witness :
    ∃ s1 out, audio_stream_generate_u8 tone_state 3 (fun _ => 0) 10 = some (s1, out) ∧
      ((3 : Int) : ℚ) ≤ s1.audio_prev_time := by
  obtain ⟨s1, out, h, -⟩ := generate_continuing_tone tone_state 3 (fun _ => 0) 10
    (by rw [tone_state_prev]) rfl (by decide) (by decide) (by rw [tone_state_entry])
    (by rw [tone_state_entry]; norm_num) (by rw [tone_state_fsf]; decide)
    (by rw [tone_state_entry, tone_state_prev]) (le_refl _)
  exact ⟨s1, out, h, (prev_time_ge_callback_time tone_state 3 (fun _ => 0) 10).1 s1 out h⟩

/-- C20 (counterexample). In `tone_state` (`audio_prev_time = 0`, rate 1000, one queued
entry) the call `audio_stream_generate_u8(3, stream, 10)` leaves one entry and stores the
callback time 3 both in `audio_prev_time` and in the entry's timestamp, not the clamped
end-of-buffer time `max(0 + 10*1000/1000, 3) = 10`. -/
theorem prev_time_not_clamped_single_entry :
    ∃ s1 out, audio_stream_generate_u8 tone_state 3 (fun _ => 0) 10 = some (s1, out) ∧
      s1.speaker_entry_pos = 1 ∧ s1.audio_prev_time = 3 ∧ (s1.speaker_entries 0).ms = 3 ∧
      max (tone_state.audio_prev_time + (((10 : Int) : ℚ) / (tone_state.audio_freq : ℚ) * 1000))
        (((3 : Int) : ℚ)) = 10 ∧
      s1.audio_prev_time ≠
        max (tone_state.audio_prev_time +
          (((10 : Int) : ℚ) / (tone_state.audio_freq : ℚ) * 1000)) (((3 : Int) : ℚ)) := by
  obtain ⟨s1, out, h, hprev, hpos, -, -, -, hent, -⟩ :=
    generate_continuing_tone tone_state 3 (fun _ => 0) 10
    (by rw [tone_state_prev]) rfl (by decide) (by decide) (by rw [tone_state_entry])
    (by rw [tone_state_entry]; norm_num) (by rw [tone_state_fsf]; decide)
    (by rw [tone_state_entry, tone_state_prev]) (le_refl _)
  have hrate : tone_state.audio_freq = 1000 := rfl
  have hmax : max (tone_state.audio_prev_time +
      (((10 : Int) : ℚ) / (tone_state.audio_freq : ℚ) * 1000)) (((3 : Int) : ℚ)) = 10 := by
    rw [tone_state_prev, hrate]
    norm_num
  refine ⟨s1, out, h, hpos, ?_, ?_, hmax, ?_⟩
  · rw [hprev]; norm_num
  · rw [hent]; norm_num
  · rw [hmax, hprev]; norm_num

/-- C20 (amended). After a non-priming `audio_stream_generate_u8` call that returns:
on an empty queue `audio_prev_time` is the callback time; on a non-empty queue it is the
callback time when exactly one entry remains after compaction and the clamped
end-of-buffer time `max(old audio_prev_time + len*1000/rate, time)` when two or more
remain, and the first remaining entry's timestamp equals the new `audio_prev_time`. -/
theorem prev_time_after_generate (s s1 : AudioState) (time len : Int) (stream out : Nat → Nat)
    (hprimed : 0 ≤ s.audio_prev_time)
    (hgen : audio_stream_generate_u8 s time stream len = some (s1, out)) :
    (s.speaker_entry_pos = 0 → s1.audio_prev_time = time ∧ s1.speaker_entry_pos = 0) ∧
    (s.speaker_entry_pos ≠ 0 →
      1 ≤ s1.speaker_entry_pos ∧
      s1.audio_prev_time =
        (if s1.speaker_entry_pos = 1 then (time : ℚ)
         else max (s.audio_prev_time + ((len : ℚ) / (s.audio_freq : ℚ) * 1000)) (time : ℚ)) ∧
      (s1.speaker_entries 0).ms = s1.audio_prev_time) := by
  constructor
  · intro hq
    rw [generate_empty_post s s1 time len stream out hgen hprimed hq]
    exact ⟨rfl, hq⟩
  · intro hq
    obtain ⟨i, hi1, hi2, hpos, hprev, hent, -⟩ :=
      generate_nonempty_post s s1 time len stream out hgen hprimed hq
    refine ⟨by omega, ?_, ?_⟩
    · rw [hpos]
      exact hprev
    · rw [hent]

theorem prev_time_after_generate_witness :
    ∃ s1 out, audio_stream_generate_u8 tone_state 3 (fun _ => 0) 10 = some (s1, out) ∧
      (tone_state.speaker_entry_pos ≠ 0 →
        1 ≤ s1.speaker_entry_pos ∧
        s1.audio_prev_time =
          (if s1.speaker_entry_pos = 1 then (((3 : Int)) : ℚ)
           else max (tone_state.audio_prev_time +
              ((((10 : Int)) : ℚ) / (tone_state.audio_freq : ℚ) * 1000)) (((3 : Int)) : ℚ)) ∧
        (s1.speaker_entries 0).ms = s1.audio_prev_time) := by
  obtain ⟨s1, out, h, -⟩ := generate_continuing_tone tone_state 3 (fun _ => 0) 10
    (by rw [tone_state_prev]) rfl (by decide) (by decide) (by rw [tone_state_entry])
    (by rw [tone_state_entry]; norm_num) (by rw [tone_state_fsf]; decide)
    (by rw [tone_state_entry, tone_state_prev]) (le_refl _)
  exact ⟨s1, out, h,
    (prev_time_after_generate tone_state s1 3 10 (fun _ => 0) out (by rw [tone_state_prev])
      h).2⟩

theorem lt_tmod_of_pos_aux (a b : Int) (hb : 0 < b) : -b < Int.tmod a b := by
  rcases le_or_lt 0 a with ha | ha
  · have := Int.tmod_nonneg b ha
    omega
  · have h1 : Int.tmod a b = -(Int.tmod (-a) b) := by
      rw [Int.tmod_def, Int.tmod_def, Int.neg_tdiv]
      ring
    have h2 := Int.tmod_lt_of_pos (-a) hb
    omega

/-- With a half period `0 < fsf < 256` the masked half period is 0, so no phase compares
below it and every sample of the span is the low level. -/
theorem note_loop_low (volume : Nat) (fsf : Int) (h1 : 0 < fsf) (h2 : fsf < 256)
    (n : Nat) (j p : Int) (stream : Nat → Nat) (hj : 0 ≤ j) (hp0 : -(fsf * 2) < p)
    (hp1 : p < fsf * 2) (i : Nat) (hi : i < n) :
    note_loop volume fsf n j p stream (j.toNat + i)
      = (((128 : Int) - (volume : Int)) % 256).toNat := by
  induction n generalizing j p stream i with
  | zero => omega
  | succ n ih =>
    simp only [note_loop]
    have hq0 := lt_tmod_of_pos_aux (p + 256) (fsf * 2) (by omega)
    have hq1 := Int.tmod_lt_of_pos (p + 256) (show 0 < fsf * 2 by omega)
    cases i with
    | zero =>
      rw [Nat.add_zero, note_loop_outside _ _ _ _ _ _ _ (by omega)
        (Or.inl (by rw [Int.toNat_of_nonneg hj]; omega)), Function.update_same]
      have hm : ¬ mask_hi p < mask_hi fsf := by
        simp only [mask_hi, not_lt.mpr (le_of_lt h1), if_false]
        split_ifs <;> omega
      rw [if_neg hm]
    | succ i =>
      have hidx : j.toNat + (i + 1) = (j + 1).toNat + i := by omega
      rw [hidx]
      exact ih (j + 1) _ _ (by omega) hq0 hq1 i (by omega)

/-- C27. After a non-priming `audio_stream_generate_u8` call on a non-empty queue that
returns, the queue is still non-empty and its first entry's timestamp equals the new
`audio_prev_time`, so that entry maps to sample 0 in the next call; on any stream with a
non-empty queue the other functions leave the queue non-empty, so a non-empty queue becomes
empty only through a priming call. -/
theorem queue_stays_nonempty (s s1 : AudioState) (time len : Int) (stream out : Nat → Nat)
    (hprimed : 0 ≤ s.audio_prev_time) (hq : s.speaker_entry_pos ≠ 0)
    (hgen : audio_stream_generate_u8 s time stream len = some (s1, out)) :
    1 ≤ s1.speaker_entry_pos ∧
    (s1.speaker_entries 0).ms = s1.audio_prev_time ∧
    (∀ len2 : Int, audio_from s1 len2 0 = 0) ∧
    (∀ u : AudioState, 1 ≤ u.speaker_entry_pos →
      (∀ (t c : Int) (f : ℚ), 1 ≤ (audio_stream_append_on u t c f).speaker_entry_pos) ∧
      (∀ t c : Int, 1 ≤ (audio_stream_append_off u t c).speaker_entry_pos) ∧
      (∀ t r : Int, 1 ≤ (audio_stream_init u t r).speaker_entry_pos) ∧
      (∀ v : Nat, 1 ≤ (audio_stream_set_volume u v).speaker_entry_pos) ∧
      (∀ d : ℚ, 1 ≤ (audio_stream_set_note_delay u d).speaker_entry_pos)) := by
  obtain ⟨i, hi1, hi2, hpos, -, hent, -⟩ :=
    generate_nonempty_post s s1 time len stream out hgen hprimed hq
  have h1 : 1 ≤ s1.speaker_entry_pos := by omega
  have hms : (s1.speaker_entries 0).ms = s1.audio_prev_time := by rw [hent]
  refine ⟨h1, hms, ?_, ?_⟩
  · intro len2
    unfold audio_from
    rw [hms, sub_self, zero_mul]
    exact trunc_intCast 0
  · intro u hu
    refine ⟨?_, ?_, fun _ _ => hu, fun _ => hu, fun _ => hu⟩
    · intro t c f
      by_cases hacc : u.speaker_entry_pos < 63
      · rw [(append_on_accepted u t c f hacc).1]
        omega
      · rw [append_on_dropped u t c f (by omega), (flag_overrun_frame u).1]
        exact hu
    · intro t c
      by_cases hacc : u.speaker_entry_pos < 64
      · rw [(append_off_accepted u t c hacc).1]
        omega
      · rw [append_off_dropped u t c (by omega), (flag_overrun_frame u).1]
        exact hu

theorem queue_stays_nonempty_witness :
    ∃ s1 out, audio_stream_generate_u8 tone_state 3 (fun _ => 0) 10 = some (s1, out) ∧
      1 ≤ s1.speaker_entry_pos ∧ (s1.speaker_entries 0).ms = s1.audio_prev_time := by
  obtain ⟨s1, out, h, -⟩ := generate_continuing_tone tone_state 3 (fun _ => 0) 10
    (by rw [tone_state_prev]) rfl (by decide) (by decide) (by rw [tone_state_entry])
    (by rw [tone_state_entry]; norm_num) (by rw [tone_state_fsf]; decide)
    (by rw [tone_state_entry, tone_state_prev]) (le_refl _)
  have hw := queue_stays_nonempty tone_state s1 3 10 (fun _ => 0) out
    (by rw [tone_state_prev]) (by decide) h
  exact ⟨s1, out, h, hw.1, hw.2.1⟩

theorem unprimed_full_state_flagged : unprimed_full_state.speaker_overrun_flagged = true := by
  have h := (run_alternate (List.replicate 32 ((0, 0, 440), (0, 0)))
    (audio_stream_init initial_state 0 1000) (by simp [audio_stream_init, initial_state])).1
  have h64 : (run_calls (audio_stream_init initial_state 0 1000)
      (alternate_calls (List.replicate 32 ((0, 0, 440), (0, 0))))).speaker_entry_pos = 64 := by
    simpa [audio_stream_init, initial_state] using h
  unfold unprimed_full_state
  rw [append_on_dropped _ _ _ _ (by rw [h64]; decide)]
  exact flag_overrun_flagged _

theorem unprimed_full_state_prev : unprimed_full_state.audio_prev_time = -1 := by
  unfold unprimed_full_state
  rw [append_on_prev_time,
    (run_alternate (List.replicate 32 ((0, 0, 440), (0, 0)))
      (audio_stream_init initial_state 0 1000)
      (by simp [audio_stream_init, initial_state])).2.2.2]
  rfl

theorem run_calls_reachable (l : List Call) (s : AudioState) (h : Reachable s) :
    Reachable (run_calls s l) := by
  induction l generalizing s with
  | nil => exact h
  | cons c rest ih =>
    simp only [run_calls]
    apply ih
    cases c with
    | note_on t c f => exact Reachable.append_on s t c f h
    | note_off t c => exact Reachable.append_off s t c h

theorem flagged_empty_state_reachable : Reachable flagged_empty_state := by
  have hr : Reachable unprimed_full_state :=
    Reachable.append_on _ 0 0 440
      (run_calls_reachable _ _ (Reachable.init _ 0 1000 Reachable.initial))
  have hg : audio_stream_generate_u8 unprimed_full_state 0 (fun _ => 0) 10 =
      some (flagged_empty_state, memset (fun _ => 0) 0 128 10) := by
    rw [generate_priming _ 0 (fun _ => 0) 10 (by rw [unprimed_full_state_prev]; norm_num)
      (by decide)]
    simp [flagged_empty_state]
  exact Reachable.generate _ _ 0 10 (fun _ => 0) _ hr hg

theorem generate_empty_flag (s : AudioState) (time : Int) (stream : Nat → Nat) (len : Int)
    (hp : 0 ≤ s.audio_prev_time) (hq : s.speaker_entry_pos = 0) (hl : 0 ≤ len) :
    ∃ s1 out, audio_stream_generate_u8 s time stream len = some (s1, out) ∧
      s1.speaker_overrun_flagged = s.speaker_overrun_flagged :=
  ⟨_, _, generate_empty s time stream len hp hq hl, rfl⟩

/-- C24 (counterexample). `flagged_empty_state` is reachable, primed, has an empty queue
and the overrun flag set; a non-priming `audio_stream_generate_u8` call on it returns with
the flag still set. -/
theorem empty_queue_keeps_overrun_flag :
    Reachable flagged_empty_state ∧ 0 ≤ flagged_empty_state.audio_prev_time ∧
    flagged_empty_state.speaker_entry_pos = 0 ∧
    flagged_empty_state.speaker_overrun_flagged = true ∧
    ∃ s1 out, audio_stream_generate_u8 flagged_empty_state 5 (fun _ => 0) 10
        = some (s1, out) ∧
      s1.speaker_overrun_flagged = true := by
  have hflag : flagged_empty_state.speaker_overrun_flagged = true := by
    simp only [flagged_empty_state]
    exact unprimed_full_state_flagged
  have hprev : (0 : ℚ) ≤ flagged_empty_state.audio_prev_time := by
    simp only [flagged_empty_state, le_refl]
  have hpos : flagged_empty_state.speaker_entry_pos = 0 := by
    simp only [flagged_empty_state]
  obtain ⟨s1, out, h, hf⟩ :=
    generate_empty_flag flagged_empty_state 5 (fun _ => 0) 10 hprev hpos (by decide)
  exact ⟨flagged_empty_state_reachable, hprev, hpos, hflag, s1, out, h, hf.trans hflag⟩

theorem append_on_ms (s : AudioState) (time cycles : Int) (freq : ℚ)
    (h : s.speaker_entry_pos < 63) :
    ((audio_stream_append_on s time cycles freq).speaker_entries s.speaker_entry_pos).ms =
      (if s.speaker_entry_pos > 0 ∧
          (s.speaker_entries (s.speaker_entry_pos - 1)).enabled = true ∧
          (s.speaker_entries (s.speaker_entry_pos - 1)).ms +
            audio_local_delay_time s (s.speaker_entries (s.speaker_entry_pos - 1)).cycles cycles
            ≥ (time : ℚ) then
        (s.speaker_entries (s.speaker_entry_pos - 1)).ms +
          audio_local_delay_time s (s.speaker_entries (s.speaker_entry_pos - 1)).cycles cycles
      else (time : ℚ)) := by
  have hg : ¬ s.speaker_entry_pos ≥ SPEAKER_ENTRY_LEN - 1 := by
    simp only [SPEAKER_ENTRY_LEN]; omega
  simp only [audio_stream_append_on, hg, if_false, Function.update_same]

theorem append_off_ms (s : AudioState) (time cycles : Int) (h : s.speaker_entry_pos < 64) :
    ((audio_stream_append_off s time cycles).speaker_entries s.speaker_entry_pos).ms =
      (if s.speaker_entry_pos > 0 ∧
          (s.speaker_entries (s.speaker_entry_pos - 1)).enabled = true ∧
          (s.speaker_entries (s.speaker_entry_pos - 1)).ms +
            audio_local_delay_time s (s.speaker_entries (s.speaker_entry_pos - 1)).cycles cycles
            ≥ ((clamped_off_time s time : Int) : ℚ) then
        (s.speaker_entries (s.speaker_entry_pos - 1)).ms +
          audio_local_delay_time s (s.speaker_entries (s.speaker_entry_pos - 1)).cycles cycles
      else ((clamped_off_time s time : Int) : ℚ)) := by
  have hg : ¬ s.speaker_entry_pos ≥ SPEAKER_ENTRY_LEN := by
    simp only [SPEAKER_ENTRY_LEN]; omega
  simp only [audio_stream_append_off, hg, if_false, Function.update_same, clamped_off_time]

theorem local_delay_nonneg (s : AudioState) (c0 c1 : Int) (hd : 0 ≤ s.audio_delay_time)
    (h1 : -2147483648 ≤ c1 - c0) (h2 : c1 - c0 < 2147483648) :
    0 ≤ audio_local_delay_time s c0 c1 := by
  rw [local_delay_closed_form s c0 c1 h1 h2]
  have hm0 : (0 : ℚ) ≤ ((min (max (c1 - c0) 0) 3600 : Int) : ℚ) := by
    have : (0 : Int) ≤ min (max (c1 - c0) 0) 3600 := le_min (le_max_right _ _) (by decide)
    exact_mod_cast this
  positivity

/-- Appending a tail entry whose timestamp is not earlier than the last one keeps the queue
sorted. -/
theorem queue_sorted_append (s s1 : AudioState)
    (hpos : s1.speaker_entry_pos = s.speaker_entry_pos + 1)
    (hold : ∀ i : Nat, i ≠ s.speaker_entry_pos → s1.speaker_entries i = s.speaker_entries i)
    (hs : queue_sorted s)
    (hlast : 0 < s.speaker_entry_pos →
      (s.speaker_entries (s.speaker_entry_pos - 1)).ms
        ≤ (s1.speaker_entries s.speaker_entry_pos).ms) :
    queue_sorted s1 := by
  intro j hj
  rw [hpos] at hj
  by_cases hjl : j + 1 < s.speaker_entry_pos
  · rw [hold j (by omega), hold (j + 1) (by omega)]
    exact hs j hjl
  · have hj1 : j + 1 = s.speaker_entry_pos := by omega
    have hl := hlast (by omega)
    have he : s.speaker_entry_pos - 1 = j := by omega
    rw [he] at hl
    rw [hold j (by omega), hj1]
    exact hl

theorem tone_state_delay : tone_state.audio_delay_time = 1 := by
  simp [tone_state, audio_stream_append_on, SPEAKER_ENTRY_LEN, primed_state, audio_stream_init]

/-- C23 (counterexample). From the empty queue of `primed_state` (`audio_prev_time = 0`,
note delay 1) the calls `audio_stream_append_on(0, 0, 100)`,
`audio_stream_append_off(0, 1800)`, `audio_stream_append_on(0, 1800, 100)` have the
nondecreasing time arguments 0, 0, 0, yet the stored timestamps are 0, 1/2, 0: the off
is pushed forward by the debounce and the on after it is stored with its own time. -/
theorem timestamps_unsorted_after_debounce :
    primed_state.speaker_entry_pos = 0 ∧ primed_state.audio_prev_time = 0 ∧
    0 ≤ primed_state.audio_delay_time ∧
    unsorted_state.speaker_entry_pos = 3 ∧
    (unsorted_state.speaker_entries 0).ms = 0 ∧
    (unsorted_state.speaker_entries 1).ms = 1 / 2 ∧
    (unsorted_state.speaker_entries 2).ms = 0 ∧
    ¬ queue_sorted unsorted_state := by
  have hdelay : audio_local_delay_time tone_state 0 1800 = 1 / 2 := by
    have hw : wrapInt32 (1800 - 0) = 1800 := by
      rw [wrapInt32_of_range _ (by decide) (by decide)]
      rfl
    simp only [audio_local_delay_time, hw, tone_state_delay]
    norm_num
  have hpos1 : tone_state.speaker_entry_pos = 1 := rfl
  obtain ⟨a1, a2, -, a4, -⟩ := append_off_accepted tone_state 0 1800 (by decide)
  have hclamp : clamped_off_time tone_state 0 = 0 := by
    simp [clamped_off_time, tone_state_prev]
  have hms1 : ((audio_stream_append_off tone_state 0 1800).speaker_entries 1).ms = 1 / 2 := by
    have h := append_off_ms tone_state 0 1800 (by decide)
    rw [hpos1] at h
    rw [h, hclamp]
    simp only [Nat.sub_self, tone_state_entry, hdelay]
    norm_num
  rw [hpos1] at a1 a4
  have hpos2 : (audio_stream_append_off tone_state 0 1800).speaker_entry_pos = 2 := a1
  obtain ⟨b1, b2, -⟩ := append_on_accepted (audio_stream_append_off tone_state 0 1800) 0 1800
    100 (by rw [hpos2]; decide)
  have hms2 : (unsorted_state.speaker_entries 2).ms = 0 := by
    have h := append_on_ms (audio_stream_append_off tone_state 0 1800) 0 1800 100
      (by rw [hpos2]; decide)
    rw [hpos2] at h
    unfold unsorted_state
    rw [h]
    simp [a4]
  have hu1 : (unsorted_state.speaker_entries 1).ms = 1 / 2 := by
    unfold unsorted_state
    rw [b2 1 (by rw [hpos2]; decide)]
    exact hms1
  have hu0 : (unsorted_state.speaker_entries 0).ms = 0 := by
    unfold unsorted_state
    rw [b2 0 (by rw [hpos2]; decide), a2 0 (by rw [hpos1]; decide), tone_state_entry]
  have hu3 : unsorted_state.speaker_entry_pos = 3 := by
    unfold unsorted_state
    rw [b1, hpos2]
  refine ⟨rfl, rfl, ?_, hu3, hu0, hu1, hms2, ?_⟩
  · simp [primed_state, audio_stream_init]
  · intro hs
    have := hs 1 (by rw [hu3]; decide)
    rw [hu1, hms2] at this
    norm_num at this

/-- C23 (amended). With a note delay `>= 0`, an accepted `audio_stream_append_on` or
`audio_stream_append_off` on a queue with nondecreasing timestamps leaves the timestamps
nondecreasing when the queue is empty, or the last event is enabled and the cycle
difference does not overflow, or the call's time (for append_off after its clamp) is not
earlier than the last stored timestamp. -/
theorem timestamp_order_preserved (s : AudioState) (time cycles : Int) (freq : ℚ)
    (hd : 0 ≤ s.audio_delay_time) (hs : queue_sorted s) :
    (s.speaker_entry_pos < 63 →
      (s.speaker_entry_pos = 0 ∨
        ((s.speaker_entries (s.speaker_entry_pos - 1)).enabled = true ∧
          -2147483648 ≤ cycles - (s.speaker_entries (s.speaker_entry_pos - 1)).cycles ∧
          cycles - (s.speaker_entries (s.speaker_entry_pos - 1)).cycles < 2147483648) ∨
        (s.speaker_entries (s.speaker_entry_pos - 1)).ms ≤ (time : ℚ)) →
      queue_sorted (audio_stream_append_on s time cycles freq)) ∧
    (s.speaker_entry_pos < 64 →
      (s.speaker_entry_pos = 0 ∨
        ((s.speaker_entries (s.speaker_entry_pos - 1)).enabled = true ∧
          -2147483648 ≤ cycles - (s.speaker_entries (s.speaker_entry_pos - 1)).cycles ∧
          cycles - (s.speaker_entries (s.speaker_entry_pos - 1)).cycles < 2147483648) ∨
        (s.speaker_entries (s.speaker_entry_pos - 1)).ms
          ≤ ((clamped_off_time s time : Int) : ℚ)) →
      queue_sorted (audio_stream_append_off s time cycles)) := by
  have key : ∀ (t ms1 : ℚ),
      ms1 = (if s.speaker_entry_pos > 0 ∧
          (s.speaker_entries (s.speaker_entry_pos - 1)).enabled = true ∧
          (s.speaker_entries (s.speaker_entry_pos - 1)).ms +
            audio_local_delay_time s (s.speaker_entries (s.speaker_entry_pos - 1)).cycles cycles
            ≥ t then
        (s.speaker_entries (s.speaker_entry_pos - 1)).ms +
          audio_local_delay_time s (s.speaker_entries (s.speaker_entry_pos - 1)).cycles cycles
      else t) →
      (s.speaker_entry_pos = 0 ∨
        ((s.speaker_entries (s.speaker_entry_pos - 1)).enabled = true ∧
          -2147483648 ≤ cycles - (s.speaker_entries (s.speaker_entry_pos - 1)).cycles ∧
          cycles - (s.speaker_entries (s.speaker_entry_pos - 1)).cycles < 2147483648) ∨
        (s.speaker_entries (s.speaker_entry_pos - 1)).ms ≤ t) →
      0 < s.speaker_entry_pos →
      (s.speaker_entries (s.speaker_entry_pos - 1)).ms ≤ ms1 := by
    intro t ms1 hms hcase hpos
    rw [hms]
    rcases hcase with h0 | ⟨hen, ho1, ho2⟩ | hle
    · omega
    · have hdel := local_delay_nonneg s _ cycles hd ho1 ho2
      split_ifs with hc
      · linarith
      · have hc2 : ¬ ((s.speaker_entries (s.speaker_entry_pos - 1)).ms +
            audio_local_delay_time s (s.speaker_entries (s.speaker_entry_pos - 1)).cycles
              cycles ≥ t) := fun h => hc ⟨hpos, hen, h⟩
        linarith [not_le.mp hc2]
    · split_ifs with hc
      · linarith [hc.2.2]
      · exact hle
  constructor
  · intro hacc hcase
    obtain ⟨h1, h2, -⟩ := append_on_accepted s time cycles freq hacc
    exact queue_sorted_append s _ h1 h2 hs
      (key (time : ℚ) _ (append_on_ms s time cycles freq hacc) hcase)
  · intro hacc hcase
    obtain ⟨h1, h2, -⟩ := append_off_accepted s time cycles hacc
    exact queue_sorted_append s _ h1 h2 hs
      (key _ _ (append_off_ms s time cycles hacc) hcase)

theorem timestamp_order_preserved_witness :
    queue_sorted (audio_stream_append_on tone_state 1 1 800) ∧
    queue_sorted (audio_stream_append_off tone_state 1 1) := by
  have hs : queue_sorted tone_state := by
    intro j hj
    have : tone_state.speaker_entry_pos = 1 := rfl
    omega
  have hd : (0 : ℚ) ≤ tone_state.audio_delay_time := by rw [tone_state_delay]; norm_num
  have hcase : tone_state.speaker_entry_pos = 0 ∨
      ((tone_state.speaker_entries (tone_state.speaker_entry_pos - 1)).enabled = true ∧
        -2147483648 ≤ 1 - (tone_state.speaker_entries (tone_state.speaker_entry_pos - 1)).cycles ∧
        1 - (tone_state.speaker_entries (tone_state.speaker_entry_pos - 1)).cycles
          < 2147483648) ∨
      (tone_state.speaker_entries (tone_state.speaker_entry_pos - 1)).ms ≤ ((1 : Int) : ℚ) := by
    right
    right
    have : tone_state.speaker_entry_pos - 1 = 0 := rfl
    rw [this, tone_state_entry]
    norm_num
  have hcase2 : tone_state.speaker_entry_pos = 0 ∨
      ((tone_state.speaker_entries (tone_state.speaker_entry_pos - 1)).enabled = true ∧
        -2147483648 ≤ 1 - (tone_state.speaker_entries (tone_state.speaker_entry_pos - 1)).cycles ∧
        1 - (tone_state.speaker_entries (tone_state.speaker_entry_pos - 1)).cycles
          < 2147483648) ∨
      (tone_state.speaker_entries (tone_state.speaker_entry_pos - 1)).ms
        ≤ ((clamped_off_time tone_state 1 : Int) : ℚ) := by
    right
    right
    have : tone_state.speaker_entry_pos - 1 = 0 := rfl
    rw [this, tone_state_entry]
    norm_num [clamped_off_time, tone_state_prev]
  exact ⟨(timestamp_order_preserved tone_state 1 1 800 hd hs).1 (by decide) hcase,
    (timestamp_order_preserved tone_state 1 1 800 hd hs).2 (by decide) hcase2⟩

theorem compact_loop_total (k : Int) (hk : 0 ≤ k) (n : Nat) (i : Int) (hi : k ≤ i)
    (hcap : i + n ≤ 64) (a : Nat → speaker_entry) :
    ∃ a1, compact_loop k n i a = some a1 := by
  induction n generalizing i a with
  | zero => exact ⟨a, rfl⟩
  | succ n ih =>
    push_cast at hcap
    have hr : entry_read a i = some (a i.toNat) := by
      have : 0 ≤ i ∧ i < (SPEAKER_ENTRY_LEN : Int) := by
        simp only [SPEAKER_ENTRY_LEN]
        omega
      simp only [entry_read, this, and_self, if_true]
    have hw : entry_write a (i - k) (a i.toNat)
        = some (Function.update a (i - k).toNat (a i.toNat)) := by
      have : 0 ≤ i - k ∧ i - k < (SPEAKER_ENTRY_LEN : Int) := by
        simp only [SPEAKER_ENTRY_LEN]
        omega
      simp only [entry_write, this, and_self, if_true]
    obtain ⟨a1, h1⟩ := ih (i + 1) (by omega) (by omega)
      (Function.update a (i - k).toNat (a i.toNat))
    exact ⟨a1, by simp only [compact_loop, hr, hw, Option.some_bind, h1]⟩

theorem max_of_if (x y : ℚ) : (if x < y then y else x) = max x y := by
  split_ifs with hlt
  · exact (max_eq_right (le_of_lt hlt)).symm
  · exact (max_eq_left (not_lt.mp hlt)).symm

/-- A non-priming `audio_stream_generate_u8` call on a non-empty queue returns exactly when
rate and length are non-zero, the entry loop returns with a stop index `>= 1` and the
compaction loop returns; the result is then given by the two loops. -/
theorem generate_nonempty_iff (s s1 : AudioState) (time len : Int) (stream out : Nat → Nat)
    (hp : 0 ≤ s.audio_prev_time) (hq : s.speaker_entry_pos ≠ 0) :
    audio_stream_generate_u8 s time stream len = some (s1, out) ↔
      s.audio_freq ≠ 0 ∧ len ≠ 0 ∧
      ∃ (r : Nat × Int × (Nat → Nat)) (a : Nat → speaker_entry),
        span_loop s len ((len : ℚ) / (s.audio_freq : ℚ) * 1000) ((s.audio_freq : ℚ) / 1000)
          s.speaker_entry_pos 0 s.speaker_freq_ctr stream = some r ∧
        1 ≤ r.1 ∧ r.1 ≤ s.speaker_entry_pos ∧
        compact_loop ((r.1 : Int) - 1) (s.speaker_entry_pos - (r.1 - 1)) ((r.1 : Int) - 1)
          s.speaker_entries = some a ∧
        s1 = { s with
          speaker_entries := Function.update a 0
            { a 0 with ms := final_curr_time s time len (s.speaker_entry_pos - (r.1 - 1)) }
          speaker_entry_pos := s.speaker_entry_pos - (r.1 - 1)
          speaker_overrun_flagged := false
          speaker_freq_ctr := r.2.1
          audio_prev_time := final_curr_time s time len (s.speaker_entry_pos - (r.1 - 1)) } ∧
        out = r.2.2 := by
  have hp1 : ¬ s.audio_prev_time < 0 := not_lt.mpr hp
  by_cases hc : s.audio_freq = 0 ∨ len = 0
  · constructor
    · intro h
      unfold audio_stream_generate_u8 at h
      simp only [hp1, if_false, hq, hc, if_true] at h
      exact Option.noConfusion h
    · rintro ⟨h1, h2, -⟩
      rcases hc with hc | hc
      · exact absurd hc h1
      · exact absurd hc h2
  have hr0 : s.audio_freq ≠ 0 := fun h => hc (Or.inl h)
  have hl0 : len ≠ 0 := fun h => hc (Or.inr h)
  unfold audio_stream_generate_u8 final_curr_time
  simp only [hp1, if_false, hq, hc, max_of_if, audio_res_eq, res_to_samples_eq len _ hl0 hr0,
    Option.bind_eq_some, Option.some.injEq, Prod.mk.injEq]
  constructor
  · rintro ⟨r, hr, a, ha, hs1, hout⟩
    obtain ⟨-, hi2⟩ := span_loop_index _ _ _ _ _ _ _ _ _ hr
    rw [Nat.zero_add] at hi2
    have hkif : (if (r.1 : Int) - 1 ≥ (s.speaker_entry_pos : Int)
        then (s.speaker_entry_pos : Int) - 1 else (r.1 : Int) - 1) = (r.1 : Int) - 1 := by
      rw [if_neg (by omega)]
    rw [hkif] at ha hs1
    have hi1 : 1 ≤ r.1 := by
      by_contra hlt
      have h0 : r.1 = 0 := by omega
      have hn : ((s.speaker_entry_pos : Int) - ((r.1 : Int) - 1)).toNat
          = s.speaker_entry_pos + 1 := by omega
      rw [hn, h0] at ha
      rw [compact_loop_neg _ (by decide)] at ha
      exact Option.noConfusion ha
    have hcnt : ((s.speaker_entry_pos : Int) - ((r.1 : Int) - 1)).toNat
        = s.speaker_entry_pos - (r.1 - 1) := by omega
    rw [hcnt] at ha hs1
    exact ⟨hr0, hl0, r, a, hr, hi1, hi2, ha, hs1.symm, hout.symm⟩
  · rintro ⟨-, -, r, a, hr, hi1, hi2, ha, hs1, hout⟩
    have hkif : (if (r.1 : Int) - 1 ≥ (s.speaker_entry_pos : Int)
        then (s.speaker_entry_pos : Int) - 1 else (r.1 : Int) - 1) = (r.1 : Int) - 1 := by
      rw [if_neg (by omega)]
    have hcnt : ((s.speaker_entry_pos : Int) - ((r.1 : Int) - 1)).toNat
        = s.speaker_entry_pos - (r.1 - 1) := by omega
    refine ⟨r, hr, a, ?_, ?_, hout.symm⟩
    · rw [hkif, hcnt]
      exact ha
    · rw [hkif, hcnt]
      exact hs1.symm

theorem audio_from_eq (s : AudioState) (len : Int) (i : Nat) (hl : len ≠ 0)
    (hr : s.audio_freq ≠ 0) :
    audio_from s len i =
      trunc (((s.speaker_entries i).ms - s.audio_prev_time) * ((s.audio_freq : ℚ) / 1000)) := by
  unfold audio_from
  rw [audio_res_eq, res_to_samples_eq len _ hl hr]

/-- C25 (counterexample). In `gap_state` (entry timestamp 5, `audio_prev_time = 0`, rate
1000) the call `audio_stream_generate_u8(20, stream, 10)` has the drift-clamped end time
`max(0 + 10, 20) = 20`, for which the claimed start sample is
`trunc((5 - 0) * 10 / (20 - 0)) = 2`; the code starts the tone at sample 5: samples 2, 3
and 4 keep the caller's bytes and sample 5 is the first tone sample. -/
theorem start_sample_ignores_drift_clamp :
    max (gap_state.audio_prev_time + (((10 : Int) : ℚ) / (gap_state.audio_freq : ℚ) * 1000))
      (((20 : Int) : ℚ)) = 20 ∧
    trunc (((gap_state.speaker_entries 0).ms - gap_state.audio_prev_time) * ((10 : Int) : ℚ) /
      (20 - gap_state.audio_prev_time)) = 2 ∧
    audio_from gap_state 10 0 = 5 ∧
    ∃ s1 out, audio_stream_generate_u8 gap_state 20 (fun _ => 0) 10 = some (s1, out) ∧
      out 2 = 0 ∧ out 3 = 0 ∧ out 4 = 0 ∧ out 5 = 255 := by
  have hrate : gap_state.audio_freq = 1000 := rfl
  have hF : trunc (((gap_state.speaker_entries 0).ms - gap_state.audio_prev_time) *
      ((gap_state.audio_freq : ℚ) / 1000)) = 5 := by
    rw [gap_state_entry, gap_state_prev, hrate]
    have : ((5 : ℚ) - 0) * (((1000 : Int) : ℚ) / 1000) = ((5 : Int) : ℚ) := by norm_num
    rw [this, trunc_intCast]
  have hH : freq_samples_fixed gap_state.audio_freq (gap_state.speaker_entries 0).freq
      = 1280 := by
    rw [gap_state_entry]
    exact fsf_1000_100
  have h := generate_single gap_state 20 (fun _ => 0) 10 (by rw [gap_state_prev]) rfl
    (by decide) (by decide) (by rw [gap_state_entry]) (by rw [gap_state_entry]; norm_num)
    (by rw [hH]; decide) (by rw [hF]; decide)
  rw [hF, hH] at h
  have hctr : gap_state.speaker_freq_ctr = 0 := rfl
  have hvol : gap_state.audio_volume = 127 := rfl
  have hcf : clip_from 5 = 5 := by decide
  rw [hcf, hctr, hvol] at h
  refine ⟨?_, ?_, ?_, _, _, h, ?_, ?_, ?_, ?_⟩
  · rw [gap_state_prev, hrate]
    norm_num
  · rw [gap_state_entry, gap_state_prev]
    have : ((5 : ℚ) - 0) * ((10 : Int) : ℚ) / (20 - 0) = 5 / 2 := by norm_num
    rw [this, trunc_of_nonneg _ (by norm_num), Int.floor_eq_iff]
    norm_num
  · rw [audio_from_eq _ _ _ (by decide) (by decide)]
    exact hF
  · exact note_loop_outside _ _ _ _ _ _ _ (by decide) (Or.inl (by decide))
  · exact note_loop_outside _ _ _ _ _ _ _ (by decide) (Or.inl (by decide))
  · exact note_loop_outside _ _ _ _ _ _ _ (by decide) (Or.inl (by decide))
  · have h5 := note_loop_inside 127 1280 (by decide) ((10 : Int) - 5).toNat 5
      (Int.tmod (0 * 256) (1280 * 2)) (fun _ => 0) (by decide) (by decide) (by decide) 0
      (by decide)
    have hidx : (5 : Int).toNat + 0 = 5 := rfl
    rw [hidx] at h5
    rw [h5]
    decide

/-- Two entry arrays that agree in every field except `cycles`. -/
theorem entry_read_rel (a b : Nat → speaker_entry)
    (hrel : ∀ j, (b j).ms = (a j).ms ∧ (b j).enabled = (a j).enabled ∧ (b j).freq = (a j).freq)
    (i : Int) :
    (entry_read a i = none ∧ entry_read b i = none) ∨
    (∃ ea eb, entry_read a i = some ea ∧ entry_read b i = some eb ∧ eb.ms = ea.ms ∧
      eb.enabled = ea.enabled ∧ eb.freq = ea.freq) := by
  unfold entry_read
  split_ifs with h
  · exact Or.inr ⟨_, _, rfl, rfl, hrel _⟩
  · exact Or.inl ⟨rfl, rfl⟩

theorem span_loop_rel (s : AudioState) (b : Nat → speaker_entry)
    (hrel : ∀ j, (b j).ms = (s.speaker_entries j).ms ∧
      (b j).enabled = (s.speaker_entries j).enabled ∧ (b j).freq = (s.speaker_entries j).freq)
    (len : Int) (ar rts : ℚ) (n i : Nat) (ctr : Int) (stream : Nat → Nat) :
    span_loop { s with speaker_entries := b } len ar rts n i ctr stream
      = span_loop s len ar rts n i ctr stream := by
  induction n generalizing i ctr stream with
  | zero => rfl
  | succ n ih =>
    simp only [span_loop, audio_dto]
    rcases entry_read_rel s.speaker_entries b hrel (i : Int) with ⟨h1, h2⟩ | ⟨ea, eb, h1, h2, e1, e2, e3⟩
    · rw [h1, h2]
      rfl
    · rw [h1, h2]
      simp only [Option.some_bind]
      by_cases hlast : i + 1 = s.speaker_entry_pos
      · simp only [hlast, if_true, Option.some_bind, e1, e2, e3, ih]
      · simp only [hlast, if_false]
        rcases entry_read_rel s.speaker_entries b hrel ((i : Int) + 1)
          with ⟨g1, g2⟩ | ⟨fa, fb, g1, g2, f1, -, -⟩
        · rw [g1, g2]
          rfl
        · rw [g1, g2]
          simp only [Option.map_some', Option.some_bind, e1, e2, e3, f1, ih]

theorem compact_loop_rel (k : Int) (n : Nat) (i : Int) (a b a1 : Nat → speaker_entry)
    (hrel : ∀ j, (b j).ms = (a j).ms ∧ (b j).enabled = (a j).enabled ∧ (b j).freq = (a j).freq)
    (h : compact_loop k n i a = some a1) :
    ∃ b1, compact_loop k n i b = some b1 ∧
      ∀ j, (b1 j).ms = (a1 j).ms ∧ (b1 j).enabled = (a1 j).enabled ∧
        (b1 j).freq = (a1 j).freq := by
  induction n generalizing i a b with
  | zero =>
    simp only [compact_loop, Option.some.injEq] at h
    exact ⟨b, rfl, by rw [← h]; exact hrel⟩
  | succ n ih =>
    simp only [compact_loop, Option.bind_eq_some] at h
    obtain ⟨e, he, a2, ha2, h⟩ := h
    unfold entry_read at he
    split_ifs at he with hri
    simp only [Option.some.injEq] at he
    unfold entry_write at ha2
    split_ifs at ha2 with hwi
    simp only [Option.some.injEq] at ha2
    have hrel2 : ∀ j, (Function.update b (i - k).toNat (b i.toNat) j).ms = (a2 j).ms ∧
        (Function.update b (i - k).toNat (b i.toNat) j).enabled = (a2 j).enabled ∧
        (Function.update b (i - k).toNat (b i.toNat) j).freq = (a2 j).freq := by
      intro j
      rw [← ha2, ← he]
      by_cases hj : j = (i - k).toNat
      · subst hj
        simp only [Function.update_same]
        exact hrel _
      · simp only [Function.update_noteq hj]
        exact hrel _
    obtain ⟨b1, hb1, hr1⟩ := ih (i + 1) a2 _ hrel2 h
    refine ⟨b1, ?_, hr1⟩
    simp only [compact_loop, entry_read, hri, and_self, if_true, Option.some_bind, entry_write,
      hwi, hb1]

/-- C26. For two states that differ only in the `cycles` fields of the queue entries,
`audio_stream_generate_u8` with the same callback time, buffer and length returns for
both or for neither, with the same sample buffer, queue length, timestamps, enabled flags,
frequencies, phase counter and `audio_prev_time`. -/
theorem cycles_do_not_influence_generate (s : AudioState) (b : Nat → speaker_entry)
    (time len : Int) (stream : Nat → Nat)
    (hrel : ∀ j, (b j).ms = (s.speaker_entries j).ms ∧
      (b j).enabled = (s.speaker_entries j).enabled ∧ (b j).freq = (s.speaker_entries j).freq) :
    (∀ (s1 : AudioState) (out : Nat → Nat),
      audio_stream_generate_u8 s time stream len = some (s1, out) →
      ∃ s2, audio_stream_generate_u8 { s with speaker_entries := b } time stream len
          = some (s2, out) ∧
        s2.speaker_entry_pos = s1.speaker_entry_pos ∧
        (∀ j, (s2.speaker_entries j).ms = (s1.speaker_entries j).ms ∧
          (s2.speaker_entries j).enabled = (s1.speaker_entries j).enabled ∧
          (s2.speaker_entries j).freq = (s1.speaker_entries j).freq) ∧
        s2.speaker_freq_ctr = s1.speaker_freq_ctr ∧
        s2.audio_prev_time = s1.audio_prev_time) ∧
    (audio_stream_generate_u8 s time stream len = none →
      audio_stream_generate_u8 { s with speaker_entries := b } time stream len = none) := by
  have fwd : ∀ (s : AudioState) (b : Nat → speaker_entry),
      (∀ j, (b j).ms = (s.speaker_entries j).ms ∧
        (b j).enabled = (s.speaker_entries j).enabled ∧
        (b j).freq = (s.speaker_entries j).freq) →
      ∀ (s1 : AudioState) (out : Nat → Nat),
      audio_stream_generate_u8 s time stream len = some (s1, out) →
      ∃ s2, audio_stream_generate_u8 { s with speaker_entries := b } time stream len
          = some (s2, out) ∧
        s2.speaker_entry_pos = s1.speaker_entry_pos ∧
        (∀ j, (s2.speaker_entries j).ms = (s1.speaker_entries j).ms ∧
          (s2.speaker_entries j).enabled = (s1.speaker_entries j).enabled ∧
          (s2.speaker_entries j).freq = (s1.speaker_entries j).freq) ∧
        s2.speaker_freq_ctr = s1.speaker_freq_ctr ∧
        s2.audio_prev_time = s1.audio_prev_time := by
    intro s b hrel s1 out h
    by_cases hp : s.audio_prev_time < 0
    · by_cases hl : len < 0
      · simp [audio_stream_generate_u8, hp, hl] at h
      · rw [generate_priming s time stream len hp (not_lt.mp hl)] at h
        simp only [Option.some.injEq, Prod.mk.injEq] at h
        obtain ⟨rfl, rfl⟩ := h
        exact ⟨_, generate_priming { s with speaker_entries := b } time stream len hp
          (not_lt.mp hl), rfl, hrel, rfl, rfl⟩
    · by_cases hq : s.speaker_entry_pos = 0
      · by_cases hl : len < 0
        · simp [audio_stream_generate_u8, hp, hl, hq] at h
        · rw [generate_empty s time stream len (not_lt.mp hp) hq (not_lt.mp hl)] at h
          simp only [Option.some.injEq, Prod.mk.injEq] at h
          obtain ⟨rfl, rfl⟩ := h
          exact ⟨_, generate_empty { s with speaker_entries := b } time stream len
            (not_lt.mp hp) hq (not_lt.mp hl), rfl, hrel, rfl, rfl⟩
      · obtain ⟨hr0, hl0, r, a, hr, hi1, hi2, ha, hs1, hout⟩ :=
          (generate_nonempty_iff s s1 time len stream out (not_lt.mp hp) hq).mp h
        obtain ⟨b1, hb1, hrel1⟩ := compact_loop_rel _ _ _ _ b _ hrel ha
        have hr2 := span_loop_rel s b hrel len ((len : ℚ) / (s.audio_freq : ℚ) * 1000)
          ((s.audio_freq : ℚ) / 1000) s.speaker_entry_pos 0 s.speaker_freq_ctr stream
        rw [hr] at hr2
        refine ⟨_, (generate_nonempty_iff { s with speaker_entries := b } _ time len stream out
          (not_lt.mp hp) hq).mpr ⟨hr0, hl0, r, b1, hr2, hi1, hi2, hb1, rfl, hout⟩, ?_, ?_, ?_, ?_⟩
        · rw [hs1]
        · intro j
          rw [hs1]
          by_cases hj : j = 0
          · subst hj
            simp only [Function.update_same]
            exact ⟨rfl, (hrel1 0).2.1, (hrel1 0).2.2⟩
          · simp only [Function.update_noteq hj]
            exact hrel1 j
        · rw [hs1]
        · rw [hs1]
          rfl
  refine ⟨fwd s b hrel, fun hnone => ?_⟩
  by_contra hsome
  obtain ⟨p, hp⟩ := Option.ne_none_iff_exists'.mp hsome
  obtain ⟨s2, h2, -⟩ := fwd { s with speaker_entries := b } s.speaker_entries
    (fun j => ⟨(hrel j).1.symm, (hrel j).2.1.symm, (hrel j).2.2.symm⟩) p.1 p.2 hp
  rw [hnone] at h2
  exact Option.noConfusion h2

theorem cycles_do_not_influence_generate_witness :
    ∃ s1 out, audio_stream_generate_u8 tone_state 3 (fun _ => 0) 10 = some (s1, out) ∧
      ∃ s2, audio_stream_generate_u8
          { tone_state with speaker_entries :=
              fun j => { tone_state.speaker_entries j with cycles := 77 } }
          3 (fun _ => 0) 10 = some (s2, out) ∧
        s2.speaker_entry_pos = s1.speaker_entry_pos ∧
        s2.speaker_freq_ctr = s1.speaker_freq_ctr ∧
        s2.audio_prev_time = s1.audio_prev_time := by
  obtain ⟨s1, out, h, -⟩ := generate_continuing_tone tone_state 3 (fun _ => 0) 10
    (by rw [tone_state_prev]) rfl (by decide) (by decide) (by rw [tone_state_entry])
    (by rw [tone_state_entry]; norm_num) (by rw [tone_state_fsf]; decide)
    (by rw [tone_state_entry, tone_state_prev]) (le_refl _)
  obtain ⟨s2, h2, h3, -, h5, h6⟩ :=
    (cycles_do_not_influence_generate tone_state
      (fun j => { tone_state.speaker_entries j with cycles := 77 }) 3 10 (fun _ => 0)
      (fun _ => ⟨rfl, rfl, rfl⟩)).1 s1 out h
  exact ⟨s1, out, h, s2, h2, h3, h5, h6⟩

theorem entry_read_some (a : Nat → speaker_entry) (i : Nat) (e : speaker_entry)
    (h : entry_read a (i : Int) = some e) : e = a i := by
  unfold entry_read at h
  split_ifs at h
  simp only [Option.some.injEq, Int.toNat_ofNat] at h
  exact h.symm

theorem entry_read_in_range (a : Nat → speaker_entry) (i : Nat) (h : i < 64) :
    entry_read a (i : Int) = some (a i) := by
  have : 0 ≤ (i : Int) ∧ (i : Int) < (SPEAKER_ENTRY_LEN : Int) := by
    simp only [SPEAKER_ENTRY_LEN]
    omega
  simp only [entry_read, this, and_self, if_true, Int.toNat_ofNat]

/-- The entry loop stops at the first index whose unclipped start sample is `>= len` (and
not negative), or after the last entry. -/
theorem span_loop_stop (s : AudioState) (len : Int) (ar rts : ℚ) (n i : Nat) (ctr : Int)
    (stream : Nat → Nat) (r : Nat × Int × (Nat → Nat))
    (h : span_loop s len ar rts n i ctr stream = some r) :
    (∀ j : Nat, i ≤ j → j < r.1 →
      ¬ (¬ trunc (((s.speaker_entries j).ms - s.audio_prev_time) * rts) < 0 ∧
        trunc (((s.speaker_entries j).ms - s.audio_prev_time) * rts) ≥ len)) ∧
    (r.1 < i + n →
      ¬ trunc (((s.speaker_entries r.1).ms - s.audio_prev_time) * rts) < 0 ∧
        trunc (((s.speaker_entries r.1).ms - s.audio_prev_time) * rts) ≥ len) := by
  induction n generalizing i ctr stream with
  | zero =>
    simp only [span_loop, Option.some.injEq] at h
    rw [← h]
    exact ⟨fun j h1 h2 => by omega, fun h1 => by omega⟩
  | succ n ih =>
    simp only [span_loop, Option.bind_eq_some] at h
    obtain ⟨e, he, dto, _, h⟩ := h
    have hei := entry_read_some _ _ _ he
    rw [hei] at h
    have step : ∀ (c : Int) (st : Nat → Nat),
        ¬ (¬ trunc (((s.speaker_entries i).ms - s.audio_prev_time) * rts) < 0 ∧
          trunc (((s.speaker_entries i).ms - s.audio_prev_time) * rts) ≥ len) →
        span_loop s len ar rts n (i + 1) c st = some r →
        (∀ j : Nat, i ≤ j → j < r.1 →
          ¬ (¬ trunc (((s.speaker_entries j).ms - s.audio_prev_time) * rts) < 0 ∧
            trunc (((s.speaker_entries j).ms - s.audio_prev_time) * rts) ≥ len)) ∧
        (r.1 < i + (n + 1) →
          ¬ trunc (((s.speaker_entries r.1).ms - s.audio_prev_time) * rts) < 0 ∧
            trunc (((s.speaker_entries r.1).ms - s.audio_prev_time) * rts) ≥ len) := by
      intro c st hnb hrec
      obtain ⟨h1, h2⟩ := ih _ _ _ hrec
      refine ⟨fun j hj1 hj2 => ?_, fun hlt => h2 (by omega)⟩
      by_cases hji : j = i
      · rw [hji]
        exact hnb
      · exact h1 j (by omega) hj2
    split_ifs at h with h1 h2 h3
    · simp only [Option.some.injEq] at h
      rw [← h]
      exact ⟨fun j hj1 hj2 => by omega, fun _ => h1⟩
    · simp only [Option.bind_eq_some] at h
      obtain ⟨st1, _, h⟩ := h
      exact step _ _ h1 h
    · exact step _ _ h1 h
    · exact step _ _ h1 h

/-- The entry loop returns when the entries it reads lie inside the array and every enabled
entry has a non-zero frequency and a non-zero half period. -/
theorem span_loop_total (s : AudioState) (len : Int) (ar rts : ℚ)
    (hcap : s.speaker_entry_pos ≤ 64)
    (hvalid : ∀ j : Nat, j < s.speaker_entry_pos → (s.speaker_entries j).enabled = true →
      (s.speaker_entries j).freq ≠ 0 ∧
        freq_samples_fixed s.audio_freq (s.speaker_entries j).freq ≠ 0)
    (n i : Nat) (ctr : Int) (stream : Nat → Nat) (hin : i + n ≤ s.speaker_entry_pos) :
    ∃ r, span_loop s len ar rts n i ctr stream = some r := by
  induction n generalizing i ctr stream with
  | zero => exact ⟨_, rfl⟩
  | succ n ih =>
    have hread := entry_read_in_range s.speaker_entries i (by omega)
    have hdto : ∃ dto, audio_dto s ar i = some dto := by
      unfold audio_dto
      split_ifs with hl
      · exact ⟨_, rfl⟩
      · have h1 := entry_read_in_range s.speaker_entries (i + 1) (by omega)
        push_cast at h1
        exact ⟨_, by rw [h1]; rfl⟩
    obtain ⟨dto, hdto⟩ := hdto
    simp only [span_loop, hread, hdto, Option.some_bind]
    split_ifs with h1 h2 h3
    · exact ⟨_, rfl⟩
    · obtain ⟨hf, hH⟩ := hvalid i (by omega) h3
      have hf2 : (s.speaker_entries i).freq * 2 ≠ 0 := by
        intro h
        apply hf
        linarith
      have hH2 : freq_samples_fixed s.audio_freq (s.speaker_entries i).freq * 2 ≠ 0 := by
        omega
      simp only [emit_note, hf2, hH2, if_false, Option.some_bind]
      exact ih _ _ _ (by omega)
    · exact ih _ _ _ (by omega)
    · exact ih _ _ _ (by omega)

/-- The queue and the clock after a non-priming `audio_stream_generate_u8` call on a
non-empty queue that returns, with the stop index of the entry loop. -/
theorem generate_nonempty_full (s s1 : AudioState) (time len : Int) (stream out : Nat → Nat)
    (h : audio_stream_generate_u8 s time stream len = some (s1, out))
    (hp : 0 ≤ s.audio_prev_time) (hq : s.speaker_entry_pos ≠ 0) :
    s.audio_freq ≠ 0 ∧ len ≠ 0 ∧
    ∃ i : Nat, 1 ≤ i ∧ i ≤ s.speaker_entry_pos ∧
      (∀ j : Nat, j < i → ¬ (¬ audio_from s len j < 0 ∧ audio_from s len j ≥ len)) ∧
      (i < s.speaker_entry_pos → ¬ audio_from s len i < 0 ∧ audio_from s len i ≥ len) ∧
      s1.speaker_entry_pos = s.speaker_entry_pos - (i - 1) ∧
      s1.audio_prev_time = final_curr_time s time len (s.speaker_entry_pos - (i - 1)) ∧
      s1.speaker_entries 0 = { s.speaker_entries (i - 1) with ms := s1.audio_prev_time } ∧
      (∀ j : Nat, 0 < j → s1.speaker_entries j =
        if j < s.speaker_entry_pos - (i - 1) then s.speaker_entries (j + (i - 1))
        else s.speaker_entries j) := by
  obtain ⟨hr0, hl0, r, a, hr, hi1, hi2, ha, hs1, -⟩ :=
    (generate_nonempty_iff s s1 time len stream out hp hq).mp h
  obtain ⟨hstop1, hstop2⟩ := span_loop_stop _ _ _ _ _ _ _ _ _ hr
  have hshift := compact_loop_shift _ (by omega) _ _ (le_refl _) _ _ ha
  have ha0 : a 0 = s.speaker_entries (r.1 - 1) := by
    rw [hshift 0]
    have hc0 : (r.1 : Int) - 1 - ((r.1 : Int) - 1) ≤ ((0 : Nat) : Int) ∧
        ((0 : Nat) : Int) < (r.1 : Int) - 1 - ((r.1 : Int) - 1) +
          ((s.speaker_entry_pos - (r.1 - 1) : Nat) : Int) := by
      omega
    rw [if_pos hc0]
    congr 1
    omega
  refine ⟨hr0, hl0, r.1, hi1, hi2, ?_, ?_, ?_, ?_, ?_, ?_⟩
  · intro j hj
    rw [audio_from_eq s len j hl0 hr0]
    exact hstop1 j (Nat.zero_le _) hj
  · intro hlt
    rw [audio_from_eq s len r.1 hl0 hr0]
    exact hstop2 (by omega)
  · rw [hs1]
  · rw [hs1]
  · rw [hs1]
    simp only [Function.update_same, ha0]
  · intro j hj
    rw [hs1]
    simp only
    rw [Function.update_noteq (by omega), hshift j]
    by_cases hjl : j < s.speaker_entry_pos - (r.1 - 1)
    · have hc1 : (r.1 : Int) - 1 - ((r.1 : Int) - 1) ≤ (j : Int) ∧
          (j : Int) < (r.1 : Int) - 1 - ((r.1 : Int) - 1) +
            ((s.speaker_entry_pos - (r.1 - 1) : Nat) : Int) := by
        omega
      rw [if_pos hc1, if_pos hjl]
      congr 1
      omega
    · have hc1 : ¬ ((r.1 : Int) - 1 - ((r.1 : Int) - 1) ≤ (j : Int) ∧
          (j : Int) < (r.1 : Int) - 1 - ((r.1 : Int) - 1) +
            ((s.speaker_entry_pos - (r.1 - 1) : Nat) : Int)) := by
        omega
      rw [if_neg hc1, if_neg hjl]

/-- A non-priming call on a non-empty queue of at most 64 entries returns when rate and
length are non-zero, every enabled entry has a valid frequency and the first entry does
not map to a start sample `>= len`. -/
theorem generate_nonempty_total (s : AudioState) (time len : Int) (stream : Nat → Nat)
    (hp : 0 ≤ s.audio_prev_time) (hq : s.speaker_entry_pos ≠ 0)
    (hcap : s.speaker_entry_pos ≤ 64) (hr0 : s.audio_freq ≠ 0) (hl0 : len ≠ 0)
    (hvalid : ∀ j : Nat, j < s.speaker_entry_pos → (s.speaker_entries j).enabled = true →
      (s.speaker_entries j).freq ≠ 0 ∧
        freq_samples_fixed s.audio_freq (s.speaker_entries j).freq ≠ 0)
    (hfirst : ¬ (¬ audio_from s len 0 < 0 ∧ audio_from s len 0 ≥ len)) :
    ∃ s1 out, audio_stream_generate_u8 s time stream len = some (s1, out) := by
  obtain ⟨r, hr⟩ := span_loop_total s len ((len : ℚ) / (s.audio_freq : ℚ) * 1000)
    ((s.audio_freq : ℚ) / 1000) hcap hvalid s.speaker_entry_pos 0 s.speaker_freq_ctr stream
    (by omega)
  obtain ⟨-, hstop2⟩ := span_loop_stop _ _ _ _ _ _ _ _ _ hr
  obtain ⟨-, hi2⟩ := span_loop_index _ _ _ _ _ _ _ _ _ hr
  have hi1 : 1 ≤ r.1 := by
    by_contra hlt
    have h0 : r.1 = 0 := by omega
    have := hstop2 (by omega)
    rw [h0, ← audio_from_eq s len 0 hl0 hr0] at this
    exact hfirst this
  obtain ⟨a, ha⟩ := compact_loop_total ((r.1 : Int) - 1) (by omega)
    (s.speaker_entry_pos - (r.1 - 1)) ((r.1 : Int) - 1) (le_refl _) (by omega)
    s.speaker_entries
  exact ⟨_, _, (generate_nonempty_iff s _ time len stream _ hp hq).mpr
    ⟨hr0, hl0, r, a, hr, hi1, by omega, ha, rfl, rfl⟩⟩

/-- C21. For a primed stream with a non-empty queue `e_0 .. e_{n-1}` whose first entry maps
to a start sample `< len` (`len > 0`): when `audio_stream_generate_u8` returns, there is
an index `i >= 1`, the first one whose mapped start is `>= len` (`i = n` if there is
none), such that the queue afterwards is `e_{i-1}, e_i, .., e_{n-1}` in that order with
enabled, frequency and cycles unchanged, the timestamps of `e_i ..` unchanged and the
timestamp of `e_{i-1}` set to the new `audio_prev_time`; and the call does return when
the queue has at most 64 entries, the rate is non-zero and the enabled entries have valid
frequencies. -/
theorem compaction_spec (s : AudioState) (time len : Int) (stream : Nat → Nat)
    (hprimed : 0 ≤ s.audio_prev_time) (hn : 1 ≤ s.speaker_entry_pos) (hlen : 0 < len)
    (hfirst : audio_from s len 0 < len) :
    (∀ (s1 : AudioState) (out : Nat → Nat),
      audio_stream_generate_u8 s time stream len = some (s1, out) →
      ∃ i : Nat, 1 ≤ i ∧ i ≤ s.speaker_entry_pos ∧
        (∀ j : Nat, j < i → audio_from s len j < len) ∧
        (i < s.speaker_entry_pos → len ≤ audio_from s len i) ∧
        s1.speaker_entry_pos = s.speaker_entry_pos - (i - 1) ∧
        (∀ j : Nat, j < s.speaker_entry_pos - (i - 1) →
          (s1.speaker_entries j).enabled = (s.speaker_entries (j + (i - 1))).enabled ∧
          (s1.speaker_entries j).freq = (s.speaker_entries (j + (i - 1))).freq ∧
          (s1.speaker_entries j).cycles = (s.speaker_entries (j + (i - 1))).cycles) ∧
        (∀ j : Nat, 0 < j → j < s.speaker_entry_pos - (i - 1) →
          (s1.speaker_entries j).ms = (s.speaker_entries (j + (i - 1))).ms) ∧
        (s1.speaker_entries 0).ms = s1.audio_prev_time) ∧
    (s.speaker_entry_pos ≤ 64 → s.audio_freq ≠ 0 →
      (∀ j : Nat, j < s.speaker_entry_pos → (s.speaker_entries j).enabled = true →
        (s.speaker_entries j).freq ≠ 0 ∧
          freq_samples_fixed s.audio_freq (s.speaker_entries j).freq ≠ 0) →
      ∃ s1 out, audio_stream_generate_u8 s time stream len = some (s1, out)) := by
  constructor
  · intro s1 out h
    obtain ⟨-, -, i, hi1, hi2, hst1, hst2, hpos, -, hent0, hentj⟩ :=
      generate_nonempty_full s s1 time len stream out h hprimed (by omega)
    refine ⟨i, hi1, hi2, ?_, ?_, hpos, ?_, ?_, ?_⟩
    · intro j hj
      have := hst1 j hj
      by_contra hge
      exact this ⟨by omega, by omega⟩
    · intro hlt
      exact (hst2 hlt).2
    · intro j hj
      by_cases hj0 : j = 0
      · rw [hj0, hent0, Nat.zero_add]
        exact ⟨rfl, rfl, rfl⟩
      · rw [hentj j (by omega), if_pos hj]
        exact ⟨rfl, rfl, rfl⟩
    · intro j hj0 hj
      rw [hentj j hj0, if_pos hj]
    · rw [hent0]
  · intro hcap hr0 hvalid
    exact generate_nonempty_total s time len stream hprimed (by omega) hcap hr0 (by omega)
      hvalid (fun hb => by omega)

theorem clip_from_nonneg (x : Int) : 0 ≤ clip_from x := by
  unfold clip_from
  split_ifs <;> omega

theorem span_loop_break_first (s : AudioState) (len : Int) (ar rts : ℚ) (n : Nat) (ctr : Int)
    (stream : Nat → Nat)
    (hF : ¬ trunc (((s.speaker_entries 0).ms - s.audio_prev_time) * rts) < 0 ∧
      trunc (((s.speaker_entries 0).ms - s.audio_prev_time) * rts) ≥ len) :
    span_loop s len ar rts (n + 1) 0 ctr stream = some (0, ctr, stream) := by
  have hread := entry_read_in_range s.speaker_entries 0 (by decide)
  have hdto : ∃ dto, audio_dto s ar 0 = some dto := by
    unfold audio_dto
    split_ifs
    · exact ⟨_, rfl⟩
    · refine ⟨(s.speaker_entries 1).ms - s.audio_prev_time, ?_⟩
      simp [entry_read, SPEAKER_ENTRY_LEN]
  obtain ⟨dto, hdto⟩ := hdto
  simp only [span_loop, hread, hdto, Option.some_bind]
  rw [if_pos hF]

/-- C22 (failing input). In the reachable state `late_state` (one entry, mapped to start
sample 50) the entry loop of `audio_stream_generate_u8(10, stream, 10)` stops at index 0,
so `k = 0 - 1 = -1`: the first source index of the compaction loop is -1, outside
`[0, 64)`, the read `speaker_entries[-1]` has no defined value, and `speaker_entry_pos -= k`
would store the length 2, one more than before. -/
theorem compaction_index_out_of_range :
    Reachable late_state ∧ late_state.speaker_entry_pos = 1 ∧
    span_loop late_state 10 (((10 : Int) : ℚ) / (late_state.audio_freq : ℚ) * 1000)
      ((late_state.audio_freq : ℚ) / 1000) late_state.speaker_entry_pos 0
      late_state.speaker_freq_ctr (fun _ => 0)
      = some (0, late_state.speaker_freq_ctr, fun _ => 0) ∧
    ¬ (0 ≤ ((0 : Nat) : Int) - 1) ∧
    entry_read late_state.speaker_entries (((0 : Nat) : Int) - 1) = none ∧
    compact_loop (((0 : Nat) : Int) - 1)
      ((late_state.speaker_entry_pos : Int) - (((0 : Nat) : Int) - 1)).toNat
      (((0 : Nat) : Int) - 1) late_state.speaker_entries = none ∧
    ((late_state.speaker_entry_pos : Int) - (((0 : Nat) : Int) - 1)).toNat = 2 ∧
    audio_stream_generate_u8 late_state 10 (fun _ => 0) 10 = none := by
  have hpos : late_state.speaker_entry_pos = 1 := rfl
  refine ⟨Reachable.append_on _ 50 0 100 primed_state_reachable, hpos, ?_, by decide,
    by simp [entry_read], ?_, ?_, ?_⟩
  · rw [hpos]
    exact span_loop_break_first late_state 10 _ _ 0 _ _
      (by rw [late_state_from]; exact ⟨by decide, by decide⟩)
  · rw [hpos]
    exact compact_loop_neg _ (by decide) 1 _
  · rw [hpos]
    rfl
  · exact generate_break_at_first late_state 10 (fun _ => 0) 10 (by rw [late_state_prev])
      (by decide) (by decide) (by decide) (by rw [late_state_from]; decide)

theorem primed_state_2000_reachable : Reachable primed_state_2000 := by
  have hg : audio_stream_generate_u8 (audio_stream_init initial_state 0 2000) 0 (fun _ => 0) 1
      = some (primed_state_2000, memset (fun _ => 0) 0 128 1) := by
    rw [generate_priming _ 0 (fun _ => 0) 1 (by simp [audio_stream_init]) (by decide)]
    simp [primed_state_2000]
  exact Reachable.generate _ _ 0 1 (fun _ => 0) _ (Reachable.init _ 0 2000 Reachable.initial) hg

theorem two_entry_state_reachable : Reachable two_entry_state :=
  Reachable.append_off _ 100 0 (Reachable.append_on _ 0 0 100 primed_state_2000_reachable)

theorem two_entry_state_prev : two_entry_state.audio_prev_time = 0 := by
  simp [two_entry_state, audio_stream_append_off, audio_stream_append_on, SPEAKER_ENTRY_LEN,
    primed_state_2000]

theorem two_entry_state_entry0 :
    two_entry_state.speaker_entries 0
      = { enabled := true, cycles := 0, freq := 100, ms := 0 } := by
  simp [two_entry_state, audio_stream_append_off, audio_stream_append_on, SPEAKER_ENTRY_LEN,
    primed_state_2000]

theorem two_entry_state_entry1 :
    (two_entry_state.speaker_entries 1).enabled = false ∧
    (two_entry_state.speaker_entries 1).ms = 100 := by
  norm_num [two_entry_state, audio_stream_append_off, audio_stream_append_on,
    SPEAKER_ENTRY_LEN, primed_state_2000, audio_local_delay_time]

theorem fsf_2000_100 : freq_samples_fixed 2000 100 = 2560 := by
  unfold freq_samples_fixed
  have : (((2000 * 256 : Int)) : ℚ) / (100 * 2) = ((2560 : Int) : ℚ) := by norm_num
  rw [this, trunc_intCast]

theorem two_entry_state_from0 : audio_from two_entry_state 1 0 = 0 := by
  rw [audio_from_eq _ _ _ (by decide) (by decide), two_entry_state_entry0,
    two_entry_state_prev]
  have : ((0 : ℚ) - 0) * ((two_entry_state.audio_freq : ℚ) / 1000) = ((0 : Int) : ℚ) := by
    norm_num
  rw [this, trunc_intCast]

theorem two_entry_state_from1 : audio_from two_entry_state 1 1 = 200 := by
  rw [audio_from_eq _ _ _ (by decide) (by decide), two_entry_state_entry1.2,
    two_entry_state_prev]
  have hrate : two_entry_state.audio_freq = 2000 := rfl
  have : ((100 : ℚ) - 0) * ((two_entry_state.audio_freq : ℚ) / 1000) = ((200 : Int) : ℚ) := by
    rw [hrate]
    norm_num
  rw [this, trunc_intCast]

theorem two_entry_state_valid (j : Nat) (hj : j < two_entry_state.speaker_entry_pos)
    (hen : (two_entry_state.speaker_entries j).enabled = true) :
    (two_entry_state.speaker_entries j).freq ≠ 0 ∧
      freq_samples_fixed two_entry_state.audio_freq (two_entry_state.speaker_entries j).freq
        ≠ 0 := by
  have hpos : two_entry_state.speaker_entry_pos = 2 := rfl
  have hj01 : j = 0 ∨ j = 1 := by omega
  rcases hj01 with h | h
  · rw [h, two_entry_state_entry0]
    have hrate : two_entry_state.audio_freq = 2000 := rfl
    rw [hrate]
    exact ⟨by norm_num, by rw [fsf_2000_100]; decide⟩
  · rw [h, two_entry_state_entry1.1] at hen
    exact Bool.noConfusion hen

/-- The call `audio_stream_generate_u8(0, stream, 1)` in `two_entry_state`: both entries
stay queued and `audio_prev_time` becomes the nominal end 1/2 ms. -/
theorem two_entry_state_generate (stream : Nat → Nat) :
    ∃ s1 out, audio_stream_generate_u8 two_entry_state 0 stream 1 = some (s1, out) ∧
      s1.speaker_entry_pos = 2 ∧ s1.audio_prev_time = 1 / 2 ∧
      (s1.speaker_entries 1).enabled = false ∧
      (s1.speaker_entries 0).ms = 1 / 2 ∧ (s1.speaker_entries 1).ms = 100 := by
  have hpos : two_entry_state.speaker_entry_pos = 2 := rfl
  obtain ⟨s1, out, h⟩ := generate_nonempty_total two_entry_state 0 1 stream
    (by rw [two_entry_state_prev]) (by decide) (by decide) (by decide) (by decide)
    two_entry_state_valid (by rw [two_entry_state_from0]; decide)
  obtain ⟨-, -, i, hi1, hi2, hst1, -, hp1, hprev, hent0, hentj⟩ :=
    generate_nonempty_full two_entry_state s1 0 1 stream out h (by rw [two_entry_state_prev])
      (by decide)
  have hi : i = 1 := by
    by_contra hne
    have h1 := hst1 1 (by omega)
    rw [two_entry_state_from1] at h1
    exact h1 ⟨by decide, by decide⟩
  rw [hi, hpos] at hp1 hprev hentj
  have hprev2 : s1.audio_prev_time = 1 / 2 := by
    rw [hprev]
    have hrate : two_entry_state.audio_freq = 2000 := rfl
    simp only [final_curr_time, two_entry_state_prev, hrate]
    norm_num
  have he1 : s1.speaker_entries 1 = two_entry_state.speaker_entries 1 := by
    rw [hentj 1 (by decide)]
    rfl
  refine ⟨s1, out, h, hp1, hprev2, ?_, ?_, ?_⟩
  · rw [he1]
    exact two_entry_state_entry1.1
  · rw [hent0, hprev2]
  · rw [he1]
    exact two_entry_state_entry1.2

theorem compaction_spec_witness :
    ∃ s1 out, audio_stream_generate_u8 two_entry_state 0 (fun _ => 0) 1 = some (s1, out) ∧
      ∃ i : Nat, 1 ≤ i ∧ i ≤ two_entry_state.speaker_entry_pos ∧
        s1.speaker_entry_pos = two_entry_state.speaker_entry_pos - (i - 1) ∧
        (s1.speaker_entries 0).ms = s1.audio_prev_time := by
  have hw := compaction_spec two_entry_state 0 1 (fun _ => 0) (by rw [two_entry_state_prev])
    (by decide) (by decide) (by rw [two_entry_state_from0]; decide)
  obtain ⟨s1, out, h⟩ := hw.2 (by decide) (by decide) two_entry_state_valid
  obtain ⟨i, h1, h2, -, -, h5, -, -, h8⟩ := hw.1 s1 out h
  exact ⟨s1, out, h, i, h1, h2, h5, h8⟩

theorem trunc_half : trunc (1 / 2) = 0 := by
  rw [trunc_of_nonneg _ (by norm_num), Int.floor_eq_iff]
  norm_num

/-- C29 (failing input). After `audio_stream_init(0, 2000)`, a priming call at time 0,
`audio_stream_append_on(0, 0, 100)`, `audio_stream_append_off(100, 0)` and
`audio_stream_generate_u8(0, stream, 1)` the stream has `audio_prev_time = 1/2` and two
queued entries, the last one disabled.  `audio_stream_append_off(0, 0)` is then accepted
and, because the clamp stores `(long) 0.5 = 0` in `time`, its entry gets the timestamp 0,
earlier than `audio_prev_time`. -/
theorem append_off_timestamp_truncated :
    Reachable two_entry_state ∧
    ∃ s1 out, audio_stream_generate_u8 two_entry_state 0 (fun _ => 0) 1 = some (s1, out) ∧
      Reachable s1 ∧ s1.audio_prev_time = 1 / 2 ∧ s1.speaker_entry_pos = 2 ∧
      clamped_off_time s1 0 = 0 ∧
      (audio_stream_append_off s1 0 0).speaker_entry_pos = 3 ∧
      ((audio_stream_append_off s1 0 0).speaker_entries 2).ms = 0 ∧
      ((audio_stream_append_off s1 0 0).speaker_entries 2).ms
        < (audio_stream_append_off s1 0 0).audio_prev_time := by
  obtain ⟨s1, out, h, hpos, hprev, hen1, -, -⟩ := two_entry_state_generate (fun _ => 0)
  have hclamp : clamped_off_time s1 0 = 0 := by
    unfold clamped_off_time
    rw [hprev, if_pos (by norm_num)]
    exact trunc_half
  obtain ⟨a1, -, -, -, a5, -⟩ := append_off_accepted s1 0 0 (by rw [hpos]; decide)
  have hms : ((audio_stream_append_off s1 0 0).speaker_entries 2).ms = 0 := by
    have hm := append_off_ms s1 0 0 (by rw [hpos]; decide)
    rw [hpos] at hm
    rw [hm, hclamp]
    have hlast : (s1.speaker_entries (2 - 1)).enabled = false := hen1
    simp [hlast]
  refine ⟨two_entry_state_reachable, s1, out, h,
    Reachable.generate _ _ 0 1 (fun _ => 0) _ two_entry_state_reachable h, hprev, hpos, hclamp,
    ?_, hms, ?_⟩
  · rw [a1, hpos]
  · rw [hms, a5, hprev]
    norm_num

theorem round_half_even_eq (x : ℚ) (m : Int) (h1 : 2 * ((m : ℚ) - x) < 1)
    (h2 : 2 * (x - (m : ℚ)) < 1) : round_half_even x = m := by
  unfold round_half_even
  rcases le_or_lt (m : ℚ) x with h | h
  · have hf : ⌊x⌋ = m := by
      rw [Int.floor_eq_iff]
      constructor
      · exact h
      · linarith
    rw [hf, if_pos h2]
  · have hf : ⌊x⌋ = m - 1 := by
      rw [Int.floor_eq_iff]
      push_cast
      constructor <;> linarith
    rw [hf]
    push_cast
    rw [if_neg (by linarith), if_pos (by linarith)]
    ring

theorem round_half_even_intCast (n : Int) : round_half_even (n : ℚ) = n :=
  round_half_even_eq _ n (by simp) (by simp)

theorem round_half_even_ge (x : ℚ) (n : Int) (h : (n : ℚ) ≤ x) : n ≤ round_half_even x := by
  have hf : n ≤ ⌊x⌋ := Int.le_floor.mpr h
  unfold round_half_even
  split_ifs <;> omega

theorem round_half_even_le (x : ℚ) (n : Int) (h : x ≤ (n : ℚ)) : round_half_even x ≤ n := by
  have hf : ⌊x⌋ ≤ n := Int.floor_le_floor h |>.trans (by rw [Int.floor_intCast])
  rcases lt_or_eq_of_le hf with hlt | heq
  · unfold round_half_even
    split_ifs <;> omega
  · have hx : x = (n : ℚ) := le_antisymm h (by rw [← heq]; exact Int.floor_le x)
    rw [hx, round_half_even_intCast]

theorem log2_eq (q : ℚ) (e : Int) (h1 : (2 : ℚ) ^ e ≤ q) (h2 : q < (2 : ℚ) ^ (e + 1)) :
    Int.log 2 q = e := by
  have hq : 0 < q := lt_of_lt_of_le (by positivity) h1
  have ha : e ≤ Int.log 2 q := (Int.zpow_le_iff_le_log (by norm_num) hq).mp h1
  have hb : Int.log 2 q < e + 1 := (Int.lt_zpow_iff_log_lt (by norm_num) hq).mp h2
  omega

/-- Evaluation of `fl64` at a positive number from its binade and the rounded
significand. -/
theorem fl64_eq (q : ℚ) (e m : Int) (h1 : (2 : ℚ) ^ e ≤ q) (h2 : q < (2 : ℚ) ^ (e + 1))
    (hm1 : 2 * ((m : ℚ) - q * (2 : ℚ) ^ (52 - e)) < 1)
    (hm2 : 2 * (q * (2 : ℚ) ^ (52 - e) - (m : ℚ)) < 1) :
    fl64 q = (m : ℚ) / (2 : ℚ) ^ (52 - e) := by
  have hq : 0 < q := lt_of_lt_of_le (by positivity) h1
  unfold fl64
  rw [if_neg (ne_of_gt hq), abs_of_pos hq, log2_eq q e h1 h2, round_half_even_eq _ m hm1 hm2]

theorem fl64_zero : fl64 0 = 0 := by simp [fl64]

theorem fl64_intCast (n : Int) (h : |n| < 9007199254740992) : fl64 (n : ℚ) = n := by
  by_cases h0 : n = 0
  · rw [h0]
    exact fl64_zero
  have hq : (0 : ℚ) < |(n : ℚ)| := abs_pos.mpr (by exact_mod_cast h0)
  have h1 : (1 : ℚ) ≤ |(n : ℚ)| := by
    have : (1 : Int) ≤ |n| := Int.one_le_abs h0
    exact_mod_cast this
  have h2 : |(n : ℚ)| < (2 : ℚ) ^ (53 : Int) := by
    have : ((|n| : Int) : ℚ) < 9007199254740992 := by exact_mod_cast h
    rw [Int.cast_abs] at this
    norm_num
    exact this
  have ha : (0 : Int) ≤ Int.log 2 |(n : ℚ)| :=
    (Int.zpow_le_iff_le_log (by norm_num) hq).mp (by simpa using h1)
  have hb : Int.log 2 |(n : ℚ)| < 53 := (Int.lt_zpow_iff_log_lt (by norm_num) hq).mp h2
  unfold fl64
  rw [if_neg (by exact_mod_cast h0)]
  generalize Int.log 2 |(n : ℚ)| = e at ha hb
  obtain ⟨k, hk⟩ : ∃ k : Nat, 52 - e = (k : Int) := ⟨(52 - e).toNat, by omega⟩
  rw [hk, zpow_natCast]
  have hx : (n : ℚ) * (2 : ℚ) ^ k = ((n * 2 ^ k : Int) : ℚ) := by push_cast; ring
  rw [hx, round_half_even_intCast]
  push_cast
  field_simp

theorem fl64_ge_int (q : ℚ) (n : Int) (hn : 0 < n) (hn2 : n ≤ 9007199254740992)
    (h : (n : ℚ) ≤ q) : (n : ℚ) ≤ fl64 q := by
  have hnq : (0 : ℚ) < (n : ℚ) := by exact_mod_cast hn
  have hq : 0 < q := lt_of_lt_of_le hnq h
  unfold fl64
  rw [if_neg (ne_of_gt hq), abs_of_pos hq]
  have hlo : (2 : ℚ) ^ Int.log 2 q ≤ q := Int.zpow_log_le_self (by norm_num) hq
  generalize Int.log 2 q = e at hlo
  have hp : (0 : ℚ) < (2 : ℚ) ^ (52 - e) := by positivity
  rw [le_div_iff₀ hp]
  rcases le_or_lt e 52 with he | he
  · obtain ⟨k, hk⟩ : ∃ k : Nat, 52 - e = (k : Int) := ⟨(52 - e).toNat, by omega⟩
    rw [hk, zpow_natCast]
    have hN : ((n * 2 ^ k : Int) : ℚ) ≤ q * (2 : ℚ) ^ k := by
      push_cast
      exact mul_le_mul_of_nonneg_right h (by positivity)
    have := round_half_even_ge _ _ hN
    have h3 : ((n * 2 ^ k : Int) : ℚ) ≤ (round_half_even (q * (2 : ℚ) ^ k) : ℚ) := by
      exact_mod_cast this
    push_cast at h3
    exact h3
  · have hx : ((4503599627370496 : Int) : ℚ) ≤ q * (2 : ℚ) ^ (52 - e) := by
      have h4 : (2 : ℚ) ^ e * (2 : ℚ) ^ (52 - e) ≤ q * (2 : ℚ) ^ (52 - e) :=
        mul_le_mul_of_nonneg_right hlo (le_of_lt hp)
      rw [← zpow_add₀ (by norm_num : (2 : ℚ) ≠ 0)] at h4
      have : e + (52 - e) = 52 := by ring
      rw [this] at h4
      norm_num at h4 ⊢
      exact h4
    have h5 := round_half_even_ge _ _ hx
    have h6 : ((4503599627370496 : Int) : ℚ) ≤ (round_half_even (q * (2 : ℚ) ^ (52 - e)) : ℚ) := by
      exact_mod_cast h5
    have h7 : (2 : ℚ) ^ (52 - e) ≤ 1 / 2 := by
      have : (2 : ℚ) ^ (52 - e) ≤ (2 : ℚ) ^ (-1 : Int) :=
        zpow_le_zpow_right₀ (by norm_num) (by omega)
      norm_num at this ⊢
      exact this
    have h8 : (n : ℚ) ≤ 9007199254740992 := by exact_mod_cast hn2
    calc (n : ℚ) * (2 : ℚ) ^ (52 - e) ≤ 9007199254740992 * (1 / 2) :=
          mul_le_mul h8 h7 (le_of_lt hp) (by norm_num)
      _ ≤ (round_half_even (q * (2 : ℚ) ^ (52 - e)) : ℚ) := by
          norm_num at h6 ⊢
          exact h6

theorem fl64_le_int (q : ℚ) (n : Int) (hq : 0 < q) (hn2 : n < 9007199254740992)
    (h : q ≤ (n : ℚ)) : fl64 q ≤ (n : ℚ) := by
  have hnq : (0 : ℚ) < (n : ℚ) := lt_of_lt_of_le hq h
  unfold fl64
  rw [if_neg (ne_of_gt hq), abs_of_pos hq]
  have hlo : (2 : ℚ) ^ Int.log 2 q ≤ q := Int.zpow_log_le_self (by norm_num) hq
  have he : Int.log 2 q < 53 := by
    apply (Int.lt_zpow_iff_log_lt (by norm_num) hq).mp
    have : (n : ℚ) < 9007199254740992 := by exact_mod_cast hn2
    norm_num
    linarith
  generalize Int.log 2 q = e at hlo he
  have hp : (0 : ℚ) < (2 : ℚ) ^ (52 - e) := by positivity
  rw [div_le_iff₀ hp]
  obtain ⟨k, hk⟩ : ∃ k : Nat, 52 - e = (k : Int) := ⟨(52 - e).toNat, by omega⟩
  rw [hk, zpow_natCast]
  have hN : q * (2 : ℚ) ^ k ≤ ((n * 2 ^ k : Int) : ℚ) := by
    push_cast
    exact mul_le_mul_of_nonneg_right h (by positivity)
  have := round_half_even_le _ _ hN
  have h3 : (round_half_even (q * (2 : ℚ) ^ k) : ℚ) ≤ ((n * 2 ^ k : Int) : ℚ) := by
    exact_mod_cast this
  push_cast at h3
  exact h3

theorem note_loop_c_eq (volume : Nat) (fsf : Int) (h0 : 0 < fsf)
    (hr : fsf * 2 + 256 ≤ 2147483648) (n : Nat) (j p : Int) (stream : Nat → Nat)
    (hp0 : 0 ≤ p) (hp1 : p < fsf * 2) :
    note_loop_c volume fsf n j p stream = some (note_loop volume fsf n j p stream) := by
  induction n generalizing j p stream with
  | zero => rfl
  | succ n ih =>
    simp only [note_loop_c, note_loop]
    rw [if_neg (by omega)]
    exact ih _ _ _ (Int.tmod_nonneg _ (by omega)) (Int.tmod_lt_of_pos _ (by omega))

theorem note_loop_c_some (volume : Nat) (fsf : Int) (n : Nat) (j p : Int)
    (stream out : Nat → Nat) (h : note_loop_c volume fsf n j p stream = some out) :
    out = note_loop volume fsf n j p stream := by
  induction n generalizing j p stream with
  | zero =>
    simp only [note_loop_c, Option.some.injEq] at h
    exact h.symm
  | succ n ih =>
    simp only [note_loop_c] at h
    by_cases hov : 2147483648 ≤ p + 256
    · rw [if_pos hov] at h
      exact Option.noConfusion h
    · rw [if_neg hov] at h
      exact ih _ _ _ h

/-- Inside the ranges of `int` and `long` the renderer of the code is the sample loop
started at the phase `(speaker_freq_ctr << 8) % (freq_samples_fixed << 1)`. -/
theorem emit_note_c_eq (r : Int) (v : Nat) (f : ℚ) (H ctr a b : Int) (stream : Nat → Nat)
    (hH : freq_samples_fixed_c r f = some H) (h0 : 0 < H) (hr : H * 2 + 256 ≤ 2147483648)
    (hc0 : 0 ≤ ctr) (hc1 : ctr * 256 < 9223372036854775808) :
    emit_note_c r v f ctr a b stream =
      some (note_loop v H (b - a).toNat a (Int.tmod (ctr * 256) (H * 2)) stream) := by
  unfold emit_note_c
  rw [hH]
  simp only [Option.some_bind]
  rw [if_neg (by omega), if_neg (by omega), if_neg (by omega)]
  exact note_loop_c_eq v H h0 hr _ _ _ _ (Int.tmod_nonneg _ (by omega))
    (Int.tmod_lt_of_pos _ (by omega))

theorem emit_note_c_some (r : Int) (v : Nat) (f : ℚ) (ctr a b : Int) (stream out : Nat → Nat)
    (h : emit_note_c r v f ctr a b stream = some out) :
    ∃ H p, out = note_loop v H (b - a).toNat a p stream := by
  unfold emit_note_c at h
  simp only [Option.bind_eq_some] at h
  obtain ⟨H, -, h⟩ := h
  by_cases h1 : ctr < 0 ∨ 9223372036854775808 ≤ ctr * 256
  · rw [if_pos h1] at h
    exact Option.noConfusion h
  rw [if_neg h1] at h
  by_cases h2 : H < 0 ∨ 2147483648 ≤ H * 2
  · rw [if_pos h2] at h
    exact Option.noConfusion h
  rw [if_neg h2] at h
  by_cases h3 : H * 2 = 0
  · rw [if_pos h3] at h
    exact Option.noConfusion h
  rw [if_neg h3] at h
  exact ⟨H, _, note_loop_c_some _ _ _ _ _ _ _ h⟩

theorem memset_off_outside (stream : Nat → Nat) (off : Int) (c : Nat) (n : Int) (j : Nat)
    (h : (j : Int) < off ∨ off + n ≤ (j : Int)) : memset stream off c n j = stream j := by
  unfold memset
  rw [if_neg (by omega)]

/-- The binary64 call on a primed stream whose queue holds one enabled entry that does not
stop the loop: the entry is rendered from its clipped start sample to the clipped sample
mapped from the nominal end of the buffer. -/
theorem generate_f64_single (s : AudioState) (time : Int) (stream : Nat → Nat) (len : Int)
    (F T H : Int) (hp : 0 ≤ s.audio_prev_time) (hq : s.speaker_entry_pos = 1)
    (hr : s.audio_freq ≠ 0) (hl : len ≠ 0) (hres : audio_res_f64 s len ≠ 0)
    (hen : (s.speaker_entries 0).enabled = true)
    (hF : cast_long (fl64 (fl64 ((s.speaker_entries 0).ms - s.audio_prev_time) *
      res_to_samples_f64 s len)) = some F)
    (hT : cast_long (fl64 (audio_res_f64 s len * res_to_samples_f64 s len)) = some T)
    (hFl : F < len) (hspan : clip_from F < clip_to T len)
    (hH : freq_samples_fixed_c s.audio_freq (s.speaker_entries 0).freq = some H)
    (h0 : 0 < H) (hHr : H * 2 + 256 ≤ 2147483648) (hc0 : 0 ≤ s.speaker_freq_ctr)
    (hc1 : s.speaker_freq_ctr * 256 < 9223372036854775808) :
    audio_stream_generate_u8_f64 s time stream len =
      some ({ s with
              speaker_entries := Function.update s.speaker_entries 0
                { s.speaker_entries 0 with ms := fl64 time }
              speaker_entry_pos := 1
              speaker_overrun_flagged := false
              speaker_freq_ctr := s.speaker_freq_ctr + (clip_to T len - clip_from F)
              audio_prev_time := fl64 time },
            note_loop s.audio_volume H (clip_to T len - clip_from F).toNat (clip_from F)
              (Int.tmod (s.speaker_freq_ctr * 256) (H * 2)) stream) := by
  have hp1 : ¬ s.audio_prev_time < 0 := not_lt.mpr hp
  have hcond : ¬ (s.audio_freq = 0 ∨ len = 0 ∨ audio_res_f64 s len = 0) := by
    rintro (h | h | h)
    · exact hr h
    · exact hl h
    · exact hres h
  have hbrk : ¬ (¬ F < 0 ∧ F ≥ len) := by omega
  have hread : entry_read s.speaker_entries ((0 : Nat) : Int) = some (s.speaker_entries 0) := by
    simp [entry_read, SPEAKER_ENTRY_LEN]
  have hdto : audio_dto_f64 s (audio_res_f64 s len) 0 = some (audio_res_f64 s len) := by
    simp [audio_dto_f64, hq]
  have hspan1 : span_loop_f64 s len (audio_res_f64 s len) (res_to_samples_f64 s len) 1 0
      s.speaker_freq_ctr stream =
      some (1, s.speaker_freq_ctr + (clip_to T len - clip_from F),
        note_loop s.audio_volume H (clip_to T len - clip_from F).toNat (clip_from F)
          (Int.tmod (s.speaker_freq_ctr * 256) (H * 2)) stream) := by
    simp only [span_loop_f64, hread, hdto, Option.some_bind, hF, hT, hbrk, if_false,
      gt_iff_lt, hspan, if_true, hen,
      emit_note_c_eq _ _ _ H _ _ _ _ hH h0 hHr hc0 hc1, zero_add]
  have hcomp : compact_loop 0 1 0 s.speaker_entries = some s.speaker_entries := by
    have hr0 : entry_read s.speaker_entries 0 = some (s.speaker_entries 0) := by
      simp [entry_read, SPEAKER_ENTRY_LEN]
    simp [compact_loop, hr0, entry_write, SPEAKER_ENTRY_LEN]
  unfold audio_stream_generate_u8_f64
  simp only [hp1, if_false, hq, one_ne_zero, hcond, hspan1, Option.some_bind]
  simp [hcomp]

theorem tone_state_44100_prev : tone_state_44100.audio_prev_time = 10000 := by
  simp [tone_state_44100, audio_stream_append_on, SPEAKER_ENTRY_LEN, primed_state_44100]

theorem tone_state_44100_entry :
    tone_state_44100.speaker_entries 0
      = { enabled := true, cycles := 0, freq := 440, ms := 10000 } := by
  simp [tone_state_44100, audio_stream_append_on, SPEAKER_ENTRY_LEN, primed_state_44100]

/-- The binary64 value of `audio_res` for rate 44100, length 4096 and
`audio_prev_time = 10000`. -/
theorem audio_res_f64_44100_4096 (s : AudioState) (hprev : s.audio_prev_time = 10000)
    (hrate : s.audio_freq = 44100) :
    audio_res_f64 s 4096 = 12765305066243 / 137438953472 := by
  have h1 : fl64 (((4096 : Int) : ℚ) / ((44100 : Int) : ℚ))
      = 6692696262570359 / 72057594037927936 := by
    rw [fl64_eq _ (-4) 6692696262570359 (by norm_num) (by norm_num) (by norm_num)
      (by norm_num)]
    norm_num
  have h2 : fl64 ((6692696262570359 : ℚ) / 72057594037927936 * 1000)
      = 3267918096958183 / 35184372088832 := by
    rw [fl64_eq _ 6 6535836193916366 (by norm_num) (by norm_num) (by norm_num)
      (by norm_num)]
    norm_num
  have h3 : fl64 ((10000 : ℚ) + 3267918096958183 / 35184372088832)
      = 1387154839786243 / 137438953472 := by
    rw [fl64_eq _ 13 5548619359144972 (by norm_num) (by norm_num) (by norm_num)
      (by norm_num)]
    norm_num
  have h4 : fl64 ((1387154839786243 : ℚ) / 137438953472 - 10000)
      = 12765305066243 / 137438953472 := by
    rw [fl64_eq _ 6 6535836193916416 (by norm_num) (by norm_num) (by norm_num)
      (by norm_num)]
    norm_num
  unfold audio_res_f64
  rw [hprev, hrate, h1, h2, h3, h4]

theorem res_to_samples_f64_44100_4096 (s : AudioState) (hprev : s.audio_prev_time = 10000)
    (hrate : s.audio_freq = 44100) :
    res_to_samples_f64 s 4096 = 6206523236469917 / 140737488355328 := by
  unfold res_to_samples_f64
  rw [audio_res_f64_44100_4096 s hprev hrate,
    fl64_eq _ 5 6206523236469917 (by norm_num) (by norm_num) (by norm_num) (by norm_num)]
  norm_num

theorem tone_state_44100_res_4096 :
    audio_res_f64 tone_state_44100 4096 = 12765305066243 / 137438953472 :=
  audio_res_f64_44100_4096 _ tone_state_44100_prev rfl

theorem tone_state_44100_rts_4096 :
    res_to_samples_f64 tone_state_44100 4096 = 6206523236469917 / 140737488355328 :=
  res_to_samples_f64_44100_4096 _ tone_state_44100_prev rfl

theorem trunc_eq_of_bounds (q : ℚ) (n : Int) (h1 : (n : ℚ) ≤ q) (h2 : q < (n : ℚ) + 1)
    (h0 : 0 ≤ q) : trunc q = n := by
  rw [trunc_of_nonneg q h0, Int.floor_eq_iff]
  exact ⟨h1, h2⟩

/-- In binary64 the product `audio_res * res_to_samples` for rate 44100, length 4096 and
`audio_prev_time = 10000` is `4096 - 2^-41`, which the cast of line 163 truncates to
4095. -/
theorem audio_to_last_f64_44100_4096 (s : AudioState) (hprev : s.audio_prev_time = 10000)
    (hrate : s.audio_freq = 44100) :
    cast_long (fl64 (audio_res_f64 s 4096 * res_to_samples_f64 s 4096)) = some 4095 := by
  rw [audio_res_f64_44100_4096 s hprev hrate, res_to_samples_f64_44100_4096 s hprev hrate,
    fl64_eq _ 11 9007199254740991 (by norm_num) (by norm_num) (by norm_num) (by norm_num)]
  unfold cast_long
  rw [if_neg (by norm_num)]
  rw [trunc_eq_of_bounds _ 4095 (by norm_num) (by norm_num) (by norm_num)]

theorem tone_state_44100_to_4096 :
    cast_long (fl64 (audio_res_f64 tone_state_44100 4096 *
      res_to_samples_f64 tone_state_44100 4096)) = some 4095 :=
  audio_to_last_f64_44100_4096 _ tone_state_44100_prev rfl

theorem tone_state_44100_from_4096 :
    cast_long (fl64 (fl64 ((tone_state_44100.speaker_entries 0).ms -
      tone_state_44100.audio_prev_time) * res_to_samples_f64 tone_state_44100 4096))
      = some 0 := by
  rw [tone_state_44100_entry, tone_state_44100_prev]
  simp only [sub_self, fl64_zero, zero_mul]
  unfold cast_long
  rw [if_neg (by norm_num)]
  exact congrArg some (trunc_intCast 0)

theorem fsf_c_44100_440 : freq_samples_fixed_c 44100 440 = some 12829 := by
  have h1 : fl64 ((440 : ℚ) * 2) = 880 := by
    have := fl64_intCast 880 (by decide)
    norm_num at this ⊢
    exact this
  have h2 : fl64 ((((44100 * 256 : Int)) : ℚ) / 880) = 7052867314170415 / 549755813888 := by
    rw [fl64_eq _ 13 7052867314170415 (by norm_num) (by norm_num) (by norm_num)
      (by norm_num)]
    norm_num
  unfold freq_samples_fixed_c
  rw [if_neg (by decide), h1, if_neg (by norm_num), h2, if_neg (by norm_num)]
  rw [trunc_eq_of_bounds _ 12829 (by norm_num) (by norm_num) (by norm_num)]

theorem primed_state_44100_generate (st : Nat → Nat) :
    audio_stream_generate_u8_f64 (audio_stream_init initial_state 0 44100) 10000 st 4096
      = some (primed_state_44100, memset st 0 128 4096) := by
  have hneg : (audio_stream_init initial_state 0 44100).audio_prev_time < 0 := by
    simp [audio_stream_init]
  have ht : fl64 ((10000 : Int) : ℚ) = 10000 := by
    rw [fl64_intCast 10000 (by decide)]
    norm_num
  unfold audio_stream_generate_u8_f64
  simp only [hneg, if_true, ht]
  simp [primed_state_44100]

/-- The binary64 call `audio_stream_generate_u8(10093, stream, 4096)` in
`tone_state_44100`: the tone is rendered into samples 0..4094 only and the phase counter
advances by 4095. -/
theorem tone_state_44100_generate_4096 (stream : Nat → Nat) :
    audio_stream_generate_u8_f64 tone_state_44100 10093 stream 4096 =
      some ({ tone_state_44100 with
              speaker_entries := Function.update tone_state_44100.speaker_entries 0
                { tone_state_44100.speaker_entries 0 with ms := fl64 ((10093 : Int) : ℚ) }
              speaker_entry_pos := 1
              speaker_overrun_flagged := false
              speaker_freq_ctr := tone_state_44100.speaker_freq_ctr + (4095 - 0)
              audio_prev_time := fl64 ((10093 : Int) : ℚ) },
            note_loop tone_state_44100.audio_volume 12829 4095 0
              (Int.tmod (tone_state_44100.speaker_freq_ctr * 256) (12829 * 2)) stream) := by
  have hH : freq_samples_fixed_c tone_state_44100.audio_freq
      (tone_state_44100.speaker_entries 0).freq = some 12829 := by
    rw [tone_state_44100_entry]
    exact fsf_c_44100_440
  have hct : clip_to 4095 4096 = 4095 := by decide
  have hcf : clip_from 0 = 0 := by decide
  have h := generate_f64_single tone_state_44100 10093 stream 4096 0 4095 12829
    (by rw [tone_state_44100_prev]; norm_num) rfl (by decide) (by decide)
    (by rw [tone_state_44100_res_4096]; norm_num) (by rw [tone_state_44100_entry])
    tone_state_44100_from_4096 tone_state_44100_to_4096 (by decide) (by decide) hH
    (by decide) (by decide) (by decide) (by decide)
  rw [hct, hcf] at h
  exact h

theorem tone_state_44100_res_8192 :
    audio_res_f64 tone_state_44100 8192 = 102122440529943 / 549755813888 := by
  have hrate : tone_state_44100.audio_freq = 44100 := rfl
  have h1 : fl64 (((8192 : Int) : ℚ) / ((44100 : Int) : ℚ))
      = 6692696262570359 / 36028797018963968 := by
    rw [fl64_eq _ (-3) 6692696262570359 (by norm_num) (by norm_num) (by norm_num)
      (by norm_num)]
    norm_num
  have h2 : fl64 ((6692696262570359 : ℚ) / 36028797018963968 * 1000)
      = 3267918096958183 / 17592186044416 := by
    rw [fl64_eq _ 7 6535836193916366 (by norm_num) (by norm_num) (by norm_num)
      (by norm_num)]
    norm_num
  have h3 : fl64 ((10000 : ℚ) + 3267918096958183 / 17592186044416)
      = 5599680579409943 / 549755813888 := by
    rw [fl64_eq _ 13 5599680579409943 (by norm_num) (by norm_num) (by norm_num)
      (by norm_num)]
    norm_num
  have h4 : fl64 ((5599680579409943 : ℚ) / 549755813888 - 10000)
      = 102122440529943 / 549755813888 := by
    rw [fl64_eq _ 7 6535836193916352 (by norm_num) (by norm_num) (by norm_num)
      (by norm_num)]
    norm_num
  unfold audio_res_f64
  rw [tone_state_44100_prev, hrate, h1, h2, h3, h4]

theorem tone_state_44100_rts_8192 :
    res_to_samples_f64 tone_state_44100 8192 = 3103261618234989 / 70368744177664 := by
  unfold res_to_samples_f64
  rw [tone_state_44100_res_8192,
    fl64_eq _ 5 6206523236469978 (by norm_num) (by norm_num) (by norm_num) (by norm_num)]
  norm_num

theorem tone_state_44100_to_8192 :
    cast_long (fl64 (audio_res_f64 tone_state_44100 8192 *
      res_to_samples_f64 tone_state_44100 8192)) = some 8192 := by
  rw [tone_state_44100_res_8192, tone_state_44100_rts_8192,
    fl64_eq _ 12 9007199254740992 (by norm_num) (by norm_num) (by norm_num) (by norm_num)]
  unfold cast_long
  rw [if_neg (by norm_num)]
  rw [trunc_eq_of_bounds _ 8192 (by norm_num) (by norm_num) (by norm_num)]

theorem tone_state_44100_from_8192 :
    cast_long (fl64 (fl64 ((tone_state_44100.speaker_entries 0).ms -
      tone_state_44100.audio_prev_time) * res_to_samples_f64 tone_state_44100 8192))
      = some 0 := by
  rw [tone_state_44100_entry, tone_state_44100_prev]
  simp only [sub_self, fl64_zero, zero_mul]
  unfold cast_long
  rw [if_neg (by norm_num)]
  exact congrArg some (trunc_intCast 0)

/-- The binary64 call `audio_stream_generate_u8(10186, stream, 8192)` in
`tone_state_44100`: the tone is rendered into all 8192 samples. -/
theorem tone_state_44100_generate_8192 (stream : Nat → Nat) :
    audio_stream_generate_u8_f64 tone_state_44100 10186 stream 8192 =
      some ({ tone_state_44100 with
              speaker_entries := Function.update tone_state_44100.speaker_entries 0
                { tone_state_44100.speaker_entries 0 with ms := fl64 ((10186 : Int) : ℚ) }
              speaker_entry_pos := 1
              speaker_overrun_flagged := false
              speaker_freq_ctr := tone_state_44100.speaker_freq_ctr + (8192 - 0)
              audio_prev_time := fl64 ((10186 : Int) : ℚ) },
            note_loop tone_state_44100.audio_volume 12829 8192 0
              (Int.tmod (tone_state_44100.speaker_freq_ctr * 256) (12829 * 2)) stream) := by
  have hH : freq_samples_fixed_c tone_state_44100.audio_freq
      (tone_state_44100.speaker_entries 0).freq = some 12829 := by
    rw [tone_state_44100_entry]
    exact fsf_c_44100_440
  have hct : clip_to 8192 8192 = 8192 := by decide
  have hcf : clip_from 0 = 0 := by decide
  have h := generate_f64_single tone_state_44100 10186 stream 8192 0 8192 12829
    (by rw [tone_state_44100_prev]; norm_num) rfl (by decide) (by decide)
    (by rw [tone_state_44100_res_8192]; norm_num) (by rw [tone_state_44100_entry])
    tone_state_44100_from_8192 tone_state_44100_to_8192 (by decide) (by decide) hH
    (by decide) (by decide) (by decide) (by decide)
  rw [hct, hcf] at h
  exact h

/-- C28 (failing input). After `audio_stream_init(0, 44100)`, a priming call at callback
time 10000 and `audio_stream_append_on(10000, 0, 440)` the stream is primed with rate
44100 and one enabled entry of valid frequency whose timestamp equals `audio_prev_time`.
In binary64 `audio_stream_generate_u8(10093, stream, 4096)` maps the end of the buffer to
`(long) 4095.9999999999995 = 4095`: the call returns with sample 4095 as the caller's
buffer had it, and the phase counter advanced by 4095. -/
theorem last_sample_left_unwritten :
    (∀ st : Nat → Nat,
      audio_stream_generate_u8_f64 (audio_stream_init initial_state 0 44100) 10000 st 4096
        = some (primed_state_44100, memset st 0 128 4096)) ∧
    tone_state_44100 = audio_stream_append_on primed_state_44100 10000 0 440 ∧
    0 ≤ tone_state_44100.audio_prev_time ∧ 0 < tone_state_44100.audio_freq ∧
    tone_state_44100.speaker_entry_pos = 1 ∧
    (tone_state_44100.speaker_entries 0).enabled = true ∧
    (tone_state_44100.speaker_entries 0).ms ≤ tone_state_44100.audio_prev_time ∧
    freq_samples_fixed_c tone_state_44100.audio_freq
      (tone_state_44100.speaker_entries 0).freq = some 12829 ∧
    cast_long (fl64 (audio_res_f64 tone_state_44100 4096 *
      res_to_samples_f64 tone_state_44100 4096)) = some 4095 ∧
    ∀ stream : Nat → Nat, ∃ s1 out,
      audio_stream_generate_u8_f64 tone_state_44100 10093 stream 4096 = some (s1, out) ∧
      out 4095 = stream 4095 ∧ s1.speaker_freq_ctr = 4095 := by
  refine ⟨primed_state_44100_generate, rfl, by rw [tone_state_44100_prev]; norm_num,
    by decide, rfl, by rw [tone_state_44100_entry],
    by rw [tone_state_44100_entry, tone_state_44100_prev], ?_, tone_state_44100_to_4096, ?_⟩
  · rw [tone_state_44100_entry]
    exact fsf_c_44100_440
  · intro stream
    refine ⟨_, _, tone_state_44100_generate_4096 stream, ?_, rfl⟩
    exact note_loop_outside _ _ _ _ _ _ _ (le_refl _) (Or.inr (by decide))

/-- C8 (failing input). In `tone_state_44100` (primed, rate 44100, one enabled entry of
440 Hz with timestamp equal to `audio_prev_time = 10000`, phase counter 0, volume 127) the
binary64 call of length 4096 leaves sample 4095 as the caller's buffer had it (0 here) and
advances the phase counter by 4095, while one call of length 4096 + 4096 writes the low
level 1 at sample 4095 and advances the phase counter by 8192: the first buffer is not
the first half of the long one and the tone continues one sample late. -/
theorem phase_slips_between_buffers :
    0 ≤ tone_state_44100.audio_prev_time ∧ tone_state_44100.speaker_entry_pos = 1 ∧
    (tone_state_44100.speaker_entries 0).enabled = true ∧
    (tone_state_44100.speaker_entries 0).ms ≤ tone_state_44100.audio_prev_time ∧
    tone_state_44100.speaker_freq_ctr = 0 ∧
    ∃ s1 o1 s3 o3,
      audio_stream_generate_u8_f64 tone_state_44100 10093 (fun _ => 0) 4096 = some (s1, o1) ∧
      audio_stream_generate_u8_f64 tone_state_44100 10186 (fun _ => 0) (4096 + 4096)
        = some (s3, o3) ∧
      o1 4095 = 0 ∧ o3 4095 = 1 ∧ o3 4095 ≠ o1 4095 ∧
      s1.speaker_freq_ctr = 4095 ∧ s3.speaker_freq_ctr = 8192 ∧
      s1.speaker_entry_pos = 1 ∧ (s1.speaker_entries 0).enabled = true := by
  have ho1 : note_loop tone_state_44100.audio_volume 12829 4095 0
      (Int.tmod (tone_state_44100.speaker_freq_ctr * 256) (12829 * 2)) (fun _ => 0) 4095
      = 0 := note_loop_outside _ _ _ _ _ _ _ (le_refl _) (Or.inr (by decide))
  have ho3 : note_loop tone_state_44100.audio_volume 12829 8192 0
      (Int.tmod (tone_state_44100.speaker_freq_ctr * 256) (12829 * 2)) (fun _ => 0) 4095
      = 1 := by
    have h := note_loop_inside tone_state_44100.audio_volume 12829 (by decide) 8192 0
      (Int.tmod (tone_state_44100.speaker_freq_ctr * 256) (12829 * 2)) (fun _ => 0)
      (le_refl _) (by decide) (by decide) 4095 (by decide)
    have hidx : (0 : Int).toNat + 4095 = 4095 := rfl
    rw [hidx] at h
    rw [h]
    decide
  refine ⟨by rw [tone_state_44100_prev]; norm_num, rfl, by rw [tone_state_44100_entry],
    by rw [tone_state_44100_entry, tone_state_44100_prev], rfl, _, _, _, _,
    tone_state_44100_generate_4096 _, tone_state_44100_generate_8192 _, ho1, ho3, ?_, rfl,
    rfl, rfl, ?_⟩
  · rw [ho1, ho3]
    decide
  · simp only [Function.update_same]
    rw [tone_state_44100_entry]

theorem span_loop_f64_index (s : AudioState) (len : Int) (ar rts : ℚ) (n i : Nat) (ctr : Int)
    (stream : Nat → Nat) (r : Nat × Int × (Nat → Nat))
    (h : span_loop_f64 s len ar rts n i ctr stream = some r) : i ≤ r.1 ∧ r.1 ≤ i + n := by
  induction n generalizing i ctr stream with
  | zero =>
    simp only [span_loop_f64, Option.some.injEq] at h
    rw [← h]
    exact ⟨le_refl _, le_refl _⟩
  | succ n ih =>
    simp only [span_loop_f64, Option.bind_eq_some] at h
    obtain ⟨e, _, dto, _, F, _, T, _, h⟩ := h
    split_ifs at h with h1 h2 h3
    · simp only [Option.some.injEq] at h
      rw [← h]
      exact ⟨le_refl _, by omega⟩
    · simp only [Option.bind_eq_some] at h
      obtain ⟨st1, _, h⟩ := h
      have := ih _ _ _ h
      omega
    · have := ih _ _ _ h
      omega
    · have := ih _ _ _ h
      omega

/-- The binary64 entry loop stops at the first index whose start sample, the cast of
line 162, is `>= len`, or after the last entry. -/
theorem span_loop_f64_stop (s : AudioState) (len : Int) (ar rts : ℚ) (n i : Nat) (ctr : Int)
    (stream : Nat → Nat) (r : Nat × Int × (Nat → Nat))
    (h : span_loop_f64 s len ar rts n i ctr stream = some r) :
    (∀ j : Nat, i ≤ j → j < r.1 →
      ∃ F, cast_long (fl64 (fl64 ((s.speaker_entries j).ms - s.audio_prev_time) * rts))
        = some F ∧ (F < 0 ∨ F < len)) ∧
    (r.1 < i + n →
      ∃ F, cast_long (fl64 (fl64 ((s.speaker_entries r.1).ms - s.audio_prev_time) * rts))
        = some F ∧ 0 ≤ F ∧ len ≤ F) := by
  induction n generalizing i ctr stream with
  | zero =>
    simp only [span_loop_f64, Option.some.injEq] at h
    rw [← h]
    exact ⟨fun j h1 h2 => by omega, fun h1 => by omega⟩
  | succ n ih =>
    simp only [span_loop_f64, Option.bind_eq_some] at h
    obtain ⟨e, he, dto, _, F, hF, T, _, h⟩ := h
    have hei := entry_read_some _ _ _ he
    rw [hei] at hF h
    have step : ∀ (c : Int) (st : Nat → Nat), ¬ (¬ F < 0 ∧ F ≥ len) →
        span_loop_f64 s len ar rts n (i + 1) c st = some r →
        (∀ j : Nat, i ≤ j → j < r.1 →
          ∃ F, cast_long (fl64 (fl64 ((s.speaker_entries j).ms - s.audio_prev_time) * rts))
            = some F ∧ (F < 0 ∨ F < len)) ∧
        (r.1 < i + (n + 1) →
          ∃ F, cast_long
            (fl64 (fl64 ((s.speaker_entries r.1).ms - s.audio_prev_time) * rts))
            = some F ∧ 0 ≤ F ∧ len ≤ F) := by
      intro c st hnb hrec
      obtain ⟨h1, h2⟩ := ih _ _ _ hrec
      refine ⟨fun j hj1 hj2 => ?_, fun hlt => h2 (by omega)⟩
      by_cases hji : j = i
      · rw [hji]
        exact ⟨F, hF, by omega⟩
      · exact h1 j (by omega) hj2
    split_ifs at h with h1 h2 h3
    · simp only [Option.some.injEq] at h
      rw [← h]
      exact ⟨fun j hj1 hj2 => by omega, fun _ => ⟨F, hF, by omega, by omega⟩⟩
    · simp only [Option.bind_eq_some] at h
      obtain ⟨st1, _, h⟩ := h
      exact step _ _ h1 h
    · exact step _ _ h1 h
    · exact step _ _ h1 h

/-- A non-priming binary64 call on a non-empty queue returns exactly when rate, length and
`audio_res` are non-zero, the entry loop returns with a stop index `>= 1` and the
compaction loop returns; the callback time enters the result only through the timestamp
stored at lines 211 and 220. -/
theorem generate_f64_nonempty_iff (s s1 : AudioState) (time len : Int)
    (stream out : Nat → Nat) (hp : 0 ≤ s.audio_prev_time) (hq : s.speaker_entry_pos ≠ 0) :
    audio_stream_generate_u8_f64 s time stream len = some (s1, out) ↔
      s.audio_freq ≠ 0 ∧ len ≠ 0 ∧ audio_res_f64 s len ≠ 0 ∧
      ∃ (r : Nat × Int × (Nat → Nat)) (a : Nat → speaker_entry),
        span_loop_f64 s len (audio_res_f64 s len) (res_to_samples_f64 s len)
          s.speaker_entry_pos 0 s.speaker_freq_ctr stream = some r ∧
        1 ≤ r.1 ∧ r.1 ≤ s.speaker_entry_pos ∧
        compact_loop ((r.1 : Int) - 1) (s.speaker_entry_pos - (r.1 - 1)) ((r.1 : Int) - 1)
          s.speaker_entries = some a ∧
        s1 = { s with
          speaker_entries := Function.update a 0
            { a 0 with
              ms := final_curr_time_f64 s time len (s.speaker_entry_pos - (r.1 - 1)) }
          speaker_entry_pos := s.speaker_entry_pos - (r.1 - 1)
          speaker_overrun_flagged := false
          speaker_freq_ctr := r.2.1
          audio_prev_time :=
            final_curr_time_f64 s time len (s.speaker_entry_pos - (r.1 - 1)) } ∧
        out = r.2.2 := by
  have hp1 : ¬ s.audio_prev_time < 0 := not_lt.mpr hp
  by_cases hc : s.audio_freq = 0 ∨ len = 0 ∨ audio_res_f64 s len = 0
  · constructor
    · intro h
      unfold audio_stream_generate_u8_f64 at h
      simp only [hp1, if_false, hq, hc, if_true] at h
      exact Option.noConfusion h
    · rintro ⟨h1, h2, h3, -⟩
      rcases hc with hc | hc | hc
      · exact absurd hc h1
      · exact absurd hc h2
      · exact absurd hc h3
  have hr0 : s.audio_freq ≠ 0 := fun h => hc (Or.inl h)
  have hl0 : len ≠ 0 := fun h => hc (Or.inr (Or.inl h))
  have hres : audio_res_f64 s len ≠ 0 := fun h => hc (Or.inr (Or.inr h))
  unfold audio_stream_generate_u8_f64 final_curr_time_f64
  simp only [hp1, if_false, hq, hc, max_of_if, Option.bind_eq_some, Option.some.injEq,
    Prod.mk.injEq]
  constructor
  · rintro ⟨r, hr, a, ha, hs1, hout⟩
    obtain ⟨-, hi2⟩ := span_loop_f64_index _ _ _ _ _ _ _ _ _ hr
    rw [Nat.zero_add] at hi2
    have hkif : (if (r.1 : Int) - 1 ≥ (s.speaker_entry_pos : Int)
        then (s.speaker_entry_pos : Int) - 1 else (r.1 : Int) - 1) = (r.1 : Int) - 1 := by
      rw [if_neg (by omega)]
    rw [hkif] at ha hs1
    have hi1 : 1 ≤ r.1 := by
      by_contra hlt
      have h0 : r.1 = 0 := by omega
      have hn : ((s.speaker_entry_pos : Int) - ((r.1 : Int) - 1)).toNat
          = s.speaker_entry_pos + 1 := by omega
      rw [hn, h0] at ha
      rw [compact_loop_neg _ (by decide)] at ha
      exact Option.noConfusion ha
    have hcnt : ((s.speaker_entry_pos : Int) - ((r.1 : Int) - 1)).toNat
        = s.speaker_entry_pos - (r.1 - 1) := by omega
    rw [hcnt] at ha hs1
    exact ⟨hr0, hl0, hres, r, a, hr, hi1, hi2, ha, hs1.symm, hout.symm⟩
  · rintro ⟨-, -, -, r, a, hr, hi1, hi2, ha, hs1, hout⟩
    have hkif : (if (r.1 : Int) - 1 ≥ (s.speaker_entry_pos : Int)
        then (s.speaker_entry_pos : Int) - 1 else (r.1 : Int) - 1) = (r.1 : Int) - 1 := by
      rw [if_neg (by omega)]
    have hcnt : ((s.speaker_entry_pos : Int) - ((r.1 : Int) - 1)).toNat
        = s.speaker_entry_pos - (r.1 - 1) := by omega
    refine ⟨r, hr, a, ?_, ?_, hout.symm⟩
    · rw [hkif, hcnt]
      exact ha
    · rw [hkif, hcnt]
      exact hs1.symm

/-- The binary64 entry loop changes a sample only inside the clipped span
`[clip(start), clip(end))` of an entry it processes. -/
theorem span_loop_f64_written (s : AudioState) (len : Int) (n i : Nat) (ctr : Int)
    (stream : Nat → Nat) (r : Nat × Int × (Nat → Nat))
    (h : span_loop_f64 s len (audio_res_f64 s len) (res_to_samples_f64 s len) n i ctr stream
      = some r)
    (k : Nat)
    (hk : ∀ j : Nat, i ≤ j → j < r.1 → ∀ F T : Int, audio_from_f64 s len j = some F →
      audio_to_f64 s len j = some T → ¬ (clip_from F ≤ (k : Int) ∧ (k : Int) < clip_to T len)) :
    r.2.2 k = stream k := by
  induction n generalizing i ctr stream with
  | zero =>
    simp only [span_loop_f64, Option.some.injEq] at h
    rw [← h]
  | succ n ih =>
    simp only [span_loop_f64, Option.bind_eq_some] at h
    obtain ⟨e, he, dto, hdto, F, hF, T, hT, h⟩ := h
    have hei := entry_read_some _ _ _ he
    rw [hei] at hF h
    have hFi : audio_from_f64 s len i = some F := hF
    have hTi : audio_to_f64 s len i = some T := by
      unfold audio_to_f64
      rw [hdto]
      exact hT
    have step : ∀ (c : Int) (st : Nat → Nat),
        span_loop_f64 s len (audio_res_f64 s len) (res_to_samples_f64 s len) n (i + 1) c st
          = some r →
        (¬ (clip_from F ≤ (k : Int) ∧ (k : Int) < clip_to T len) → st k = stream k) →
        r.2.2 k = stream k := by
      intro c st hrec hst
      obtain ⟨hi1, -⟩ := span_loop_f64_index _ _ _ _ _ _ _ _ _ hrec
      rw [ih _ _ _ hrec (fun j hj1 hj2 => hk j (by omega) hj2)]
      exact hst (hk i (le_refl _) (by omega) F T hFi hTi)
    by_cases hb : ¬ F < 0 ∧ F ≥ len
    · rw [if_pos hb] at h
      simp only [Option.some.injEq] at h
      rw [← h]
    rw [if_neg hb] at h
    by_cases hsp : clip_to T len > clip_from F
    · rw [if_pos hsp] at h
      by_cases hen : (s.speaker_entries i).enabled = true
      · rw [if_pos hen] at h
        simp only [Option.bind_eq_some] at h
        obtain ⟨st1, hst1, h⟩ := h
        obtain ⟨H, p, hloop⟩ := emit_note_c_some _ _ _ _ _ _ _ _ hst1
        refine step _ _ h (fun hout => ?_)
        rw [hloop]
        apply note_loop_outside _ _ _ _ _ _ _ (clip_from_nonneg F)
        rw [Int.toNat_of_nonneg (by omega)]
        omega
      · rw [if_neg hen] at h
        refine step _ _ h (fun hout => ?_)
        apply memset_off_outside
        omega
    · rw [if_neg hsp] at h
      exact step _ _ h (fun _ => rfl)

theorem audio_to_f64_last (s : AudioState) (len : Int) (i : Nat)
    (hi : i + 1 = s.speaker_entry_pos) : audio_to_f64 s len i = audio_to_last_f64 s len := by
  unfold audio_to_f64 audio_to_last_f64 audio_dto_f64
  rw [if_pos hi]
  rfl

/-- The sample buffer, the queue length and the phase counter after a non-priming binary64
call on a non-empty queue do not depend on the callback time. -/
theorem generate_f64_time_independent (s s1 : AudioState) (t1 t2 len : Int)
    (stream out : Nat → Nat) (hp : 0 ≤ s.audio_prev_time) (hq : s.speaker_entry_pos ≠ 0)
    (h : audio_stream_generate_u8_f64 s t1 stream len = some (s1, out)) :
    ∃ s2, audio_stream_generate_u8_f64 s t2 stream len = some (s2, out) ∧
      s2.speaker_entry_pos = s1.speaker_entry_pos ∧
      s2.speaker_freq_ctr = s1.speaker_freq_ctr := by
  obtain ⟨hr0, hl0, hres, r, a, hr, hi1, hi2, ha, hs1, hout⟩ :=
    (generate_f64_nonempty_iff s s1 t1 len stream out hp hq).mp h
  refine ⟨_, (generate_f64_nonempty_iff s _ t2 len stream out hp hq).mpr
    ⟨hr0, hl0, hres, r, a, hr, hi1, hi2, ha, rfl, hout⟩, ?_, ?_⟩
  · rw [hs1]
  · rw [hs1]

/-- The binary64 entry loop on a queue of one entry: the samples outside the clipped span
of the entry keep the caller's bytes, and an enabled entry with a non-empty span advances
the phase counter by the length of the span. -/
theorem span_loop_f64_one (s : AudioState) (len : Int) (ar rts : ℚ) (ctr : Int)
    (stream : Nat → Nat) (r : Nat × Int × (Nat → Nat)) (hq : s.speaker_entry_pos = 1)
    (h : span_loop_f64 s len ar rts 1 0 ctr stream = some r) (hr1 : 1 ≤ r.1) :
    ∃ F T, cast_long (fl64 (fl64 ((s.speaker_entries 0).ms - s.audio_prev_time) * rts))
        = some F ∧
      cast_long (fl64 (ar * rts)) = some T ∧
      (∀ n : Nat, ((n : Int) < clip_from F ∨ clip_to T len ≤ (n : Int)) →
        r.2.2 n = stream n) ∧
      ((s.speaker_entries 0).enabled = true → clip_from F < clip_to T len →
        r.2.1 = ctr + (clip_to T len - clip_from F)) := by
  simp only [span_loop_f64, Option.bind_eq_some] at h
  obtain ⟨e, he, dto, hdto, F, hF, T, hT, h⟩ := h
  have hei := entry_read_some _ _ _ he
  rw [hei] at hF h
  have hd : dto = ar := by
    simp only [audio_dto_f64, hq, zero_add, if_true, Option.some.injEq] at hdto
    exact hdto.symm
  rw [hd] at hT
  refine ⟨F, T, hF, hT, ?_⟩
  by_cases hb : ¬ F < 0 ∧ F ≥ len
  · rw [if_pos hb] at h
    simp only [Option.some.injEq] at h
    rw [← h] at hr1
    omega
  rw [if_neg hb] at h
  by_cases hsp : clip_to T len > clip_from F
  · rw [if_pos hsp] at h
    by_cases hen : (s.speaker_entries 0).enabled = true
    · rw [if_pos hen] at h
      simp only [Option.bind_eq_some, Option.some.injEq] at h
      obtain ⟨st1, hst1, h⟩ := h
      obtain ⟨H, p, hloop⟩ := emit_note_c_some _ _ _ _ _ _ _ _ hst1
      rw [← h]
      refine ⟨fun n hn => ?_, fun _ _ => rfl⟩
      simp only
      rw [hloop]
      apply note_loop_outside _ _ _ _ _ _ _ (clip_from_nonneg F)
      rcases hn with hn | hn
      · exact Or.inl hn
      · right
        rw [Int.toNat_of_nonneg (by omega)]
        omega
    · rw [if_neg hen] at h
      simp only [Option.some.injEq] at h
      rw [← h]
      refine ⟨fun n hn => ?_, fun h1 _ => absurd h1 hen⟩
      simp only
      apply memset_off_outside
      rcases hn with hn | hn
      · exact Or.inl hn
      · right
        omega
  · rw [if_neg hsp] at h
    simp only [Option.some.injEq] at h
    rw [← h]
    exact ⟨fun n _ => rfl, fun _ h2 => absurd h2 hsp⟩

/-- C25 (amended). In a non-priming binary64 call on a non-empty queue that returns:
the buffer, the resulting queue length and the phase counter are the same for every
callback time, so the drift clamp does not enter the mapping; the entry loop processes
exactly the entries before the first one whose start sample
`(long)((timestamp - audio_prev_time) * res_to_samples)` is `>= len`, where
`res_to_samples = len / audio_res` comes from the nominal end
`audio_prev_time + len*1000/rate` taken before the drift clamp, and a sample is changed
only inside the clipped span `[clip(start), clip(end))` of a processed entry; the end of
the last queued entry's span is the sample `(long)(audio_res * res_to_samples)` mapped
from the nominal end; and for a queue of one entry the samples outside that span keep the
caller's bytes and an enabled entry advances the phase counter by the length of the
span. -/
theorem time_mapping_nominal_end (s s1 : AudioState) (t1 len : Int) (stream out : Nat → Nat)
    (hprimed : 0 ≤ s.audio_prev_time) (hq : s.speaker_entry_pos ≠ 0)
    (hgen : audio_stream_generate_u8_f64 s t1 stream len = some (s1, out)) :
    (∀ t2 : Int, ∃ s2, audio_stream_generate_u8_f64 s t2 stream len = some (s2, out) ∧
      s2.speaker_entry_pos = s1.speaker_entry_pos ∧
      s2.speaker_freq_ctr = s1.speaker_freq_ctr) ∧
    (∃ i : Nat, 1 ≤ i ∧ i ≤ s.speaker_entry_pos ∧
      (∀ j : Nat, j < i → ∃ F, audio_from_f64 s len j = some F ∧ (F < 0 ∨ F < len)) ∧
      (i < s.speaker_entry_pos → ∃ F, audio_from_f64 s len i = some F ∧ 0 ≤ F ∧ len ≤ F) ∧
      s1.speaker_entry_pos = s.speaker_entry_pos - (i - 1) ∧
      (∀ k : Nat,
        (∀ j : Nat, j < i → ∀ F T : Int, audio_from_f64 s len j = some F →
          audio_to_f64 s len j = some T →
          ¬ (clip_from F ≤ (k : Int) ∧ (k : Int) < clip_to T len)) →
        out k = stream k)) ∧
    audio_to_f64 s len (s.speaker_entry_pos - 1) = audio_to_last_f64 s len ∧
    (s.speaker_entry_pos = 1 →
      ∃ F T, audio_from_f64 s len 0 = some F ∧ audio_to_last_f64 s len = some T ∧
        (∀ n : Nat, ((n : Int) < clip_from F ∨ clip_to T len ≤ (n : Int)) →
          out n = stream n) ∧
        ((s.speaker_entries 0).enabled = true → clip_from F < clip_to T len →
          s1.speaker_freq_ctr = s.speaker_freq_ctr + (clip_to T len - clip_from F))) := by
  obtain ⟨hr0, hl0, hres, r, a, hr, hi1, hi2, ha, hs1, hout⟩ :=
    (generate_f64_nonempty_iff s s1 t1 len stream out hprimed hq).mp hgen
  obtain ⟨hstop1, hstop2⟩ := span_loop_f64_stop _ _ _ _ _ _ _ _ _ hr
  refine ⟨fun t2 => generate_f64_time_independent s s1 t1 t2 len stream out hprimed hq hgen,
    ⟨r.1, hi1, hi2, fun j hj => hstop1 j (Nat.zero_le _) hj, fun hlt => hstop2 (by omega),
      by rw [hs1], fun k hk => ?_⟩,
    audio_to_f64_last s len _ (by omega), ?_⟩
  · rw [hout]
    exact span_loop_f64_written s len _ _ _ _ r hr k (fun j _ hj => hk j hj)
  intro hone
  rw [hone] at hr
  obtain ⟨F, T, hF, hT, hout1, hctr⟩ := span_loop_f64_one s len _ _ _ _ r hone hr hi1
  refine ⟨F, T, hF, hT, fun n hn => ?_, fun hen hsp => ?_⟩
  · rw [hout]
    exact hout1 n hn
  · rw [hs1]
    exact hctr hen hsp

theorem time_mapping_nominal_end_witness :
    ∃ s1 out, audio_stream_generate_u8_f64 tone_state_44100 10093 (fun _ => 0) 4096
        = some (s1, out) ∧
      (∀ t2 : Int, ∃ s2, audio_stream_generate_u8_f64 tone_state_44100 t2 (fun _ => 0) 4096
          = some (s2, out) ∧
        s2.speaker_entry_pos = s1.speaker_entry_pos ∧
        s2.speaker_freq_ctr = s1.speaker_freq_ctr) ∧
      audio_from_f64 tone_state_44100 4096 0 = some 0 ∧
      audio_to_last_f64 tone_state_44100 4096 = some 4095 :=
  ⟨_, _, tone_state_44100_generate_4096 _,
    (time_mapping_nominal_end tone_state_44100 _ 10093 4096 (fun _ => 0) _
      (by rw [tone_state_44100_prev]; norm_num) (by decide)
      (tone_state_44100_generate_4096 _)).1,
    tone_state_44100_from_4096, tone_state_44100_to_4096⟩

/-- C24 (amended). An `audio_stream_generate_u8` call that returns clears the overrun flag
when it is a non-priming call on a non-empty queue, and leaves the flag unchanged when it
is a non-priming call on an empty queue or the priming call. -/
theorem overrun_flag_after_generate (s s1 : AudioState) (time len : Int)
    (stream out : Nat → Nat)
    (hgen : audio_stream_generate_u8 s time stream len = some (s1, out)) :
    (0 ≤ s.audio_prev_time → s.speaker_entry_pos ≠ 0 → s1.speaker_overrun_flagged = false) ∧
    (0 ≤ s.audio_prev_time → s.speaker_entry_pos = 0 →
      s1.speaker_overrun_flagged = s.speaker_overrun_flagged) ∧
    (s.audio_prev_time < 0 → s1.speaker_overrun_flagged = s.speaker_overrun_flagged) := by
  refine ⟨?_, ?_, ?_⟩
  · intro hprimed hq
    obtain ⟨i, -, -, -, -, -, -, hflag, -⟩ :=
      generate_nonempty_post s s1 time len stream out hgen hprimed hq
    exact hflag
  · intro hprimed hq
    rw [generate_empty_post s s1 time len stream out hgen hprimed hq]
  · intro hneg
    rw [generate_priming_post s s1 time len stream out hgen hneg]

theorem overrun_flag_after_generate_witness :
    ∃ s1 out, audio_stream_generate_u8 tone_state 3 (fun _ => 0) 10 = some (s1, out) ∧
      s1.speaker_overrun_flagged = false := by
  obtain ⟨s1, out, h, -⟩ := generate_continuing_tone tone_state 3 (fun _ => 0) 10
    (by rw [tone_state_prev]) rfl (by decide) (by decide) (by rw [tone_state_entry])
    (by rw [tone_state_entry]; norm_num) (by rw [tone_state_fsf]; decide)
    (by rw [tone_state_entry, tone_state_prev]) (le_refl _)
  exact ⟨s1, out, h,
    (overrun_flag_after_generate tone_state s1 3 10 (fun _ => 0) out h).1
      (by rw [tone_state_prev]) (by decide)⟩

theorem zero_freq_state_prev : zero_freq_state.audio_prev_time = 0 := by
  simp [zero_freq_state, audio_stream_append_on, SPEAKER_ENTRY_LEN, primed_state]

theorem zero_freq_state_entry :
    zero_freq_state.speaker_entries 0
      = { enabled := true, cycles := 0, freq := 0, ms := 0 } := by
  simp [zero_freq_state, audio_stream_append_on, SPEAKER_ENTRY_LEN, primed_state]

theorem zero_freq_state_generate :
    audio_stream_generate_u8 zero_freq_state 10 (fun _ => 0) 10 = none := by
  have hrate : zero_freq_state.audio_freq = 1000 := rfl
  have hpos : zero_freq_state.speaker_entry_pos = 1 := rfl
  have hspan : span_loop zero_freq_state 10
      (((10 : Int) : ℚ) / (zero_freq_state.audio_freq : ℚ) * 1000)
      ((zero_freq_state.audio_freq : ℚ) / 1000) zero_freq_state.speaker_entry_pos 0
      zero_freq_state.speaker_freq_ctr (fun _ => 0) = none := by
    have hread : entry_read zero_freq_state.speaker_entries ((0 : Nat) : Int)
        = some (zero_freq_state.speaker_entries 0) := by
      simp [entry_read, SPEAKER_ENTRY_LEN]
    have hdto : audio_dto zero_freq_state
        (((10 : Int) : ℚ) / (zero_freq_state.audio_freq : ℚ) * 1000) 0
        = some (((10 : Int) : ℚ) / (zero_freq_state.audio_freq : ℚ) * 1000) := by
      simp [audio_dto, hpos]
    have hF : trunc (((zero_freq_state.speaker_entries 0).ms - zero_freq_state.audio_prev_time)
        * ((zero_freq_state.audio_freq : ℚ) / 1000)) = 0 := by
      rw [zero_freq_state_entry, zero_freq_state_prev]
      simp only [sub_self, zero_mul]
      exact trunc_intCast 0
    have hbrk : ¬ (¬ (0 : Int) < 0 ∧ (0 : Int) ≥ 10) := by decide
    have hct : clip_to 10 10 > clip_from 0 := by decide
    have hen : (zero_freq_state.speaker_entries 0).enabled = true := by
      rw [zero_freq_state_entry]
    have hf : (zero_freq_state.speaker_entries 0).freq * 2 = 0 := by
      rw [zero_freq_state_entry]
      norm_num
    rw [hpos]
    simp only [span_loop, hread, hdto, Option.some_bind, hF,
      audio_to_last 10 _ (show zero_freq_state.audio_freq ≠ 0 by decide), hbrk, if_false, hct,
      if_true, hen, emit_note, hf, Option.none_bind]
  cases hg : audio_stream_generate_u8 zero_freq_state 10 (fun _ => 0) 10 with
  | none => rfl
  | some p =>
    obtain ⟨-, -, r, a, hr, -⟩ := (generate_nonempty_iff zero_freq_state p.1 10 10
      (fun _ => 0) p.2 (by rw [zero_freq_state_prev]) (by decide)).mp hg
    rw [hspan] at hr
    exact Option.noConfusion hr

theorem fsf_c_zero (r : Int) : freq_samples_fixed_c r 0 = none := by
  unfold freq_samples_fixed_c
  by_cases h : r < 0 ∨ 2147483648 ≤ r * 256
  · rw [if_pos h]
  · rw [if_neg h, if_pos (by rw [zero_mul, fl64_zero])]

theorem zero_freq_state_generate_f64 :
    audio_stream_generate_u8_f64 zero_freq_state 10 (fun _ => 0) 10 = none := by
  have hrate : zero_freq_state.audio_freq = 1000 := rfl
  have hpos : zero_freq_state.speaker_entry_pos = 1 := rfl
  have h10 : fl64 (10 : ℚ) = 10 := by
    have := fl64_intCast 10 (by decide)
    norm_num at this ⊢
    exact this
  have h1 : fl64 (1 : ℚ) = 1 := by
    have := fl64_intCast 1 (by decide)
    norm_num at this ⊢
    exact this
  have ha1 : fl64 (((10 : Int) : ℚ) / ((1000 : Int) : ℚ))
      = 5764607523034235 / 576460752303423488 := by
    rw [fl64_eq _ (-7) 5764607523034235 (by norm_num) (by norm_num) (by norm_num)
      (by norm_num)]
    norm_num
  have ha2 : fl64 ((5764607523034235 : ℚ) / 576460752303423488 * 1000) = 10 := by
    rw [fl64_eq _ 3 5629499534213120 (by norm_num) (by norm_num) (by norm_num)
      (by norm_num)]
    norm_num
  have hres : audio_res_f64 zero_freq_state 10 = 10 := by
    unfold audio_res_f64
    rw [zero_freq_state_prev, hrate, ha1, ha2, zero_add, h10, sub_zero, h10]
  have hrts : res_to_samples_f64 zero_freq_state 10 = 1 := by
    unfold res_to_samples_f64
    rw [hres]
    have : ((10 : Int) : ℚ) / 10 = 1 := by norm_num
    rw [this, h1]
  have hspan : span_loop_f64 zero_freq_state 10 (audio_res_f64 zero_freq_state 10)
      (res_to_samples_f64 zero_freq_state 10) zero_freq_state.speaker_entry_pos 0
      zero_freq_state.speaker_freq_ctr (fun _ => 0) = none := by
    have hread : entry_read zero_freq_state.speaker_entries ((0 : Nat) : Int)
        = some (zero_freq_state.speaker_entries 0) := by
      simp [entry_read, SPEAKER_ENTRY_LEN]
    have hdto : audio_dto_f64 zero_freq_state (audio_res_f64 zero_freq_state 10) 0
        = some (audio_res_f64 zero_freq_state 10) := by
      simp [audio_dto_f64, hpos]
    have hF : cast_long (fl64 (fl64 ((zero_freq_state.speaker_entries 0).ms -
        zero_freq_state.audio_prev_time) * res_to_samples_f64 zero_freq_state 10))
        = some 0 := by
      rw [zero_freq_state_entry, zero_freq_state_prev]
      simp only [sub_self, fl64_zero, zero_mul]
      unfold cast_long
      rw [if_neg (by norm_num)]
      exact congrArg some (trunc_intCast 0)
    have hT : cast_long (fl64 (audio_res_f64 zero_freq_state 10 *
        res_to_samples_f64 zero_freq_state 10)) = some 10 := by
      rw [hres, hrts, mul_one, h10]
      unfold cast_long
      rw [if_neg (by norm_num)]
      exact congrArg some (trunc_intCast 10)
    have hbrk : ¬ (¬ (0 : Int) < 0 ∧ (0 : Int) ≥ 10) := by decide
    have hct : clip_to 10 10 > clip_from 0 := by decide
    have hen : (zero_freq_state.speaker_entries 0).enabled = true := by
      rw [zero_freq_state_entry]
    have hem : ∀ (ctr a b : Int) (st : Nat → Nat),
        emit_note_c zero_freq_state.audio_freq zero_freq_state.audio_volume
          (zero_freq_state.speaker_entries 0).freq ctr a b st = none := by
      intro ctr a b st
      unfold emit_note_c
      rw [zero_freq_state_entry, fsf_c_zero]
      rfl
    rw [hpos]
    simp only [span_loop_f64, hread, hdto, Option.some_bind, hF, hT, hbrk, if_false, hct,
      if_true, hen, hem, Option.none_bind]
  cases hg : audio_stream_generate_u8_f64 zero_freq_state 10 (fun _ => 0) 10 with
  | none => rfl
  | some p =>
    obtain ⟨-, -, -, r, a, hr, -⟩ := (generate_f64_nonempty_iff zero_freq_state p.1 10 10
      (fun _ => 0) p.2 (by rw [zero_freq_state_prev]) (by decide)).mp hg
    rw [hspan] at hr
    exact Option.noConfusion hr

/-- C17 (failing input). `audio_stream_append_on(0, 0, 0.0)` on the primed, empty queue is
accepted: it stores the frequency 0 in an enabled entry (the state is reachable).  The
next `audio_stream_generate_u8(10, stream, 10)` reaches line 182 with `freq * 2 = 0`: the
quotient is not a finite number, its cast and the remainder of line 183 are undefined, and
the call has no defined result, in exact arithmetic and in binary64 alike. -/
theorem zero_frequency_reaches_division :
    Reachable zero_freq_state ∧ primed_state.speaker_entry_pos = 0 ∧
    zero_freq_state = audio_stream_append_on primed_state 0 0 0 ∧
    zero_freq_state.speaker_entry_pos = 1 ∧
    (zero_freq_state.speaker_entries 0).enabled = true ∧
    (zero_freq_state.speaker_entries 0).freq = 0 ∧
    freq_samples_fixed_c zero_freq_state.audio_freq (zero_freq_state.speaker_entries 0).freq
      = none ∧
    audio_stream_generate_u8 zero_freq_state 10 (fun _ => 0) 10 = none ∧
    audio_stream_generate_u8_f64 zero_freq_state 10 (fun _ => 0) 10 = none := by
  refine ⟨Reachable.append_on _ 0 0 0 primed_state_reachable, rfl, rfl, rfl,
    by rw [zero_freq_state_entry], by rw [zero_freq_state_entry], ?_,
    zero_freq_state_generate, zero_freq_state_generate_f64⟩
  rw [zero_freq_state_entry]
  exact fsf_c_zero _

/-- A positive binary64 value above a positive integer `r < 2^53` exceeds it by at least
one unit in its own last place: `r <= d * (1 - 2^-53)`. -/
theorem fl64_gap_above_int (d : ℚ) (r : Int) (hr : 0 < r) (hd : fl64 d = d)
    (hlt : (r : ℚ) < d) (hub : d < 9007199254740992) :
    (r : ℚ) ≤ d * (1 - 1 / 9007199254740992) := by
  have hrq : (1 : ℚ) ≤ (r : ℚ) := by exact_mod_cast hr
  have hdpos : 0 < d := by linarith
  have hlo : (2 : ℚ) ^ Int.log 2 d ≤ d := Int.zpow_log_le_self (by norm_num) hdpos
  have hhi : d < (2 : ℚ) ^ (Int.log 2 d + 1) := Int.lt_zpow_succ_log_self (by norm_num) d
  have he0 : (0 : Int) ≤ Int.log 2 d :=
    (Int.zpow_le_iff_le_log (by norm_num) hdpos).mp (by simpa using le_trans hrq (le_of_lt hlt))
  have he1 : Int.log 2 d < 53 := by
    apply (Int.lt_zpow_iff_log_lt (by norm_num) hdpos).mp
    norm_num
    exact hub
  have hrep : d = (round_half_even (d * (2 : ℚ) ^ (52 - Int.log 2 d)) : ℚ) /
      (2 : ℚ) ^ (52 - Int.log 2 d) := by
    have h := hd
    unfold fl64 at h
    rw [if_neg (ne_of_gt hdpos), abs_of_pos hdpos] at h
    exact h.symm
  generalize Int.log 2 d = e at hlo hhi he0 he1 hrep
  obtain ⟨k, hk⟩ : ∃ k : Nat, 52 - e = (k : Int) := ⟨(52 - e).toNat, by omega⟩
  rw [hk, zpow_natCast] at hrep
  generalize round_half_even (d * (2 : ℚ) ^ k) = M at hrep
  have hp : (0 : ℚ) < (2 : ℚ) ^ k := by positivity
  have hM : d * (2 : ℚ) ^ k = (M : ℚ) := by
    rw [hrep]
    field_simp
  have hRM : r * 2 ^ k < M := by
    have : ((r * 2 ^ k : Int) : ℚ) < (M : ℚ) := by
      push_cast
      rw [← hM]
      exact mul_lt_mul_of_pos_right hlt hp
    exact_mod_cast this
  have hRM1 : ((r * 2 ^ k + 1 : Int) : ℚ) ≤ (M : ℚ) := by
    have : r * 2 ^ k + 1 ≤ M := by omega
    exact_mod_cast this
  push_cast at hRM1
  rw [← hM] at hRM1
  have hee : e + 1 = 53 - (k : Int) := by omega
  rw [hee, zpow_sub₀ (by norm_num : (2 : ℚ) ≠ 0), zpow_natCast] at hhi
  have h53 : (2 : ℚ) ^ (53 : Int) = 9007199254740992 := by norm_num
  rw [h53, lt_div_iff₀ hp] at hhi
  have hfin : (r : ℚ) * (2 : ℚ) ^ k ≤ d * (1 - 1 / 9007199254740992) * (2 : ℚ) ^ k := by
    have : d * (1 - 1 / 9007199254740992) * (2 : ℚ) ^ k
        = d * (2 : ℚ) ^ k - d * (2 : ℚ) ^ k / 9007199254740992 := by ring
    rw [this]
    have h2 : d * (2 : ℚ) ^ k / 9007199254740992 < 1 := by
      rw [div_lt_iff₀ (by norm_num)]
      linarith
    linarith
  exact le_of_mul_le_mul_right hfin hp

/-- The binary64 rounding of a positive number that is at most `256 * (1 - 2^-53)` is below
256. -/
theorem fl64_lt_256 (q : ℚ) (hq : 0 < q) (h : q ≤ 256 * (1 - 1 / 9007199254740992)) :
    fl64 q < 256 := by
  rcases le_or_lt q 255 with h255 | h255
  · have := fl64_le_int q 255 hq (by decide) (by exact_mod_cast h255)
    have h2 : ((255 : Int) : ℚ) < 256 := by norm_num
    linarith
  · have h1 : (2 : ℚ) ^ (7 : Int) ≤ q := by
      norm_num
      linarith
    have h2 : q < (2 : ℚ) ^ ((7 : Int) + 1) := by
      norm_num
      have : (256 : ℚ) * (1 - 1 / 9007199254740992) < 256 := by norm_num
      linarith
    unfold fl64
    rw [if_neg (ne_of_gt hq), abs_of_pos hq, log2_eq q 7 h1 h2]
    have hx : q * (2 : ℚ) ^ ((52 : Int) - 7) ≤ ((9007199254740991 : Int) : ℚ) := by
      have h45 : (2 : ℚ) ^ ((52 : Int) - 7) = 35184372088832 := by norm_num
      rw [h45]
      have : (256 : ℚ) * (1 - 1 / 9007199254740992) * 35184372088832
          = ((9007199254740991 : Int) : ℚ) := by norm_num
      rw [← this]
      exact mul_le_mul_of_nonneg_right h (by norm_num)
    have hr := round_half_even_le _ _ hx
    have hr2 : (round_half_even (q * (2 : ℚ) ^ ((52 : Int) - 7)) : ℚ)
        ≤ ((9007199254740991 : Int) : ℚ) := by exact_mod_cast hr
    have h45 : (2 : ℚ) ^ ((52 : Int) - 7) = 35184372088832 := by norm_num
    rw [h45] at hr2 ⊢
    rw [div_lt_iff₀ (by norm_num)]
    have : ((9007199254740991 : Int) : ℚ) < 256 * 35184372088832 := by norm_num
    linarith

theorem tiny_freq_state_prev : tiny_freq_state.audio_prev_time = 10000 := by
  simp [tiny_freq_state, audio_stream_append_on, SPEAKER_ENTRY_LEN, primed_state_44100]

theorem tiny_freq_state_entry :
    tiny_freq_state.speaker_entries 0
      = { enabled := true, cycles := 0, freq := 1 / 1024, ms := 10000 } := by
  simp [tiny_freq_state, audio_stream_append_on, SPEAKER_ENTRY_LEN, primed_state_44100]

theorem fsf_c_44100_tiny :
    fl64 (((44100 * 256 : Int) : ℚ) / fl64 ((1 / 1024 : ℚ) * 2)) = 5780275200 ∧
    freq_samples_fixed_c 44100 (1 / 1024) = none := by
  have h1 : fl64 ((1 / 1024 : ℚ) * 2) = 1 / 512 := by
    rw [fl64_eq _ (-9) 4503599627370496 (by norm_num) (by norm_num) (by norm_num)
      (by norm_num)]
    norm_num
  have h2 : fl64 (((44100 * 256 : Int) : ℚ) / (1 / 512)) = 5780275200 := by
    have h := fl64_intCast 5780275200 (by decide)
    have he : (((44100 * 256 : Int) : ℚ)) / (1 / 512) = ((5780275200 : Int) : ℚ) := by
      norm_num
    rw [he, h]
    norm_num
  refine ⟨by rw [h1, h2], ?_⟩
  unfold freq_samples_fixed_c
  rw [if_neg (by decide), h1, if_neg (by norm_num), h2, if_pos (Or.inr (by norm_num))]

/-- The binary64 call on a primed stream whose queue holds one enabled entry with a
non-empty span for which line 182 has no defined value: the call has no defined result. -/
theorem generate_f64_single_undefined (s : AudioState) (time : Int) (stream : Nat → Nat)
    (len : Int) (F T : Int) (hp : 0 ≤ s.audio_prev_time) (hq : s.speaker_entry_pos = 1)
    (hen : (s.speaker_entries 0).enabled = true)
    (hF : cast_long (fl64 (fl64 ((s.speaker_entries 0).ms - s.audio_prev_time) *
      res_to_samples_f64 s len)) = some F)
    (hT : cast_long (fl64 (audio_res_f64 s len * res_to_samples_f64 s len)) = some T)
    (hFl : F < len) (hspan : clip_from F < clip_to T len)
    (hH : freq_samples_fixed_c s.audio_freq (s.speaker_entries 0).freq = none) :
    audio_stream_generate_u8_f64 s time stream len = none := by
  have hbrk : ¬ (¬ F < 0 ∧ F ≥ len) := by omega
  have hread : entry_read s.speaker_entries ((0 : Nat) : Int) = some (s.speaker_entries 0) := by
    simp [entry_read, SPEAKER_ENTRY_LEN]
  have hdto : audio_dto_f64 s (audio_res_f64 s len) 0 = some (audio_res_f64 s len) := by
    simp [audio_dto_f64, hq]
  have hem : ∀ (ctr a b : Int) (st : Nat → Nat),
      emit_note_c s.audio_freq s.audio_volume (s.speaker_entries 0).freq ctr a b st
        = none := by
    intro ctr a b st
    unfold emit_note_c
    rw [hH]
    rfl
  have hspan1 : span_loop_f64 s len (audio_res_f64 s len) (res_to_samples_f64 s len)
      s.speaker_entry_pos 0 s.speaker_freq_ctr stream = none := by
    rw [hq]
    simp only [span_loop_f64, hread, hdto, Option.some_bind, hF, hT, hbrk, if_false,
      gt_iff_lt, hspan, if_true, hen, hem, Option.none_bind]
  cases hg : audio_stream_generate_u8_f64 s time stream len with
  | none => rfl
  | some p =>
    obtain ⟨-, -, -, r, a, hr, -⟩ := (generate_f64_nonempty_iff s p.1 time len stream p.2 hp
      (by omega)).mp hg
    rw [hspan1] at hr
    exact Option.noConfusion hr

/-- C30 (failing input). `audio_stream_append_on(10000, 0, 0.0009765625)` on the primed
stream at 44100 Hz stores the frequency `2^-10`, which lies in `(0, 128*r]`.  In the next
`audio_stream_generate_u8(10093, stream, 4096)` the quotient of line 182 is
`11289600 / 2^-9 = 5780275200`, outside the range of `int`: the cast is undefined, no half
period `>= 1` is produced and the call has no defined result. -/
theorem tiny_frequency_overflows_int :
    tiny_freq_state = audio_stream_append_on primed_state_44100 10000 0 (1 / 1024) ∧
    tiny_freq_state.speaker_entry_pos = 1 ∧ tiny_freq_state.audio_freq = 44100 ∧
    (tiny_freq_state.speaker_entries 0).enabled = true ∧
    (tiny_freq_state.speaker_entries 0).freq = 1 / 1024 ∧
    0 < (tiny_freq_state.speaker_entries 0).freq ∧
    (tiny_freq_state.speaker_entries 0).freq ≤ 128 * (tiny_freq_state.audio_freq : ℚ) ∧
    fl64 (((44100 * 256 : Int) : ℚ) / fl64 ((1 / 1024 : ℚ) * 2)) = 5780275200 ∧
    (2147483648 : ℚ) ≤ 5780275200 ∧
    freq_samples_fixed_c tiny_freq_state.audio_freq (tiny_freq_state.speaker_entries 0).freq
      = none ∧
    ∀ stream : Nat → Nat,
      audio_stream_generate_u8_f64 tiny_freq_state 10093 stream 4096 = none := by
  have hrate : tiny_freq_state.audio_freq = 44100 := rfl
  have hH : freq_samples_fixed_c tiny_freq_state.audio_freq
      (tiny_freq_state.speaker_entries 0).freq = none := by
    rw [tiny_freq_state_entry, hrate]
    exact fsf_c_44100_tiny.2
  have hF : cast_long (fl64 (fl64 ((tiny_freq_state.speaker_entries 0).ms -
      tiny_freq_state.audio_prev_time) * res_to_samples_f64 tiny_freq_state 4096))
      = some 0 := by
    rw [tiny_freq_state_entry, tiny_freq_state_prev]
    simp only [sub_self, fl64_zero, zero_mul]
    unfold cast_long
    rw [if_neg (by norm_num)]
    exact congrArg some (trunc_intCast 0)
  refine ⟨rfl, rfl, rfl, by rw [tiny_freq_state_entry], by rw [tiny_freq_state_entry],
    by rw [tiny_freq_state_entry]; norm_num, ?_, fsf_c_44100_tiny.1, by norm_num, hH, ?_⟩
  · rw [tiny_freq_state_entry, hrate]
    norm_num
  · intro stream
    exact generate_f64_single_undefined tiny_freq_state 10093 stream 4096 0 4095
      (by rw [tiny_freq_state_prev]; norm_num) rfl (by rw [tiny_freq_state_entry]) hF
      (audio_to_last_f64_44100_4096 _ tiny_freq_state_prev rfl) (by decide) (by decide) hH

/-- Inside the range of `int`: for a rate `0 < r < 2^23` and a binary64 frequency `f` with
`0 < f <= 128*r` and `256*r/(2f) <= 2^30 - 128`, and a phase counter in `[0, 2^55)`, line
182 yields a half period `H >= 1` with `2H + 256` in the range of `int`, so the modulus
`2H` is positive and the span renderer returns; for `r/2 < f` the half period is below
256 and every sample of the rendered span is `128 - volume`. -/
theorem half_period_in_int_range (r : Int) (f : ℚ) (v : Nat) (ctr audio_from audio_to : Int)
    (stream : Nat → Nat) (hr : 0 < r) (hr2 : r * 256 < 2147483648) (hf : 0 < f)
    (hfd : fl64 (f * 2) = f * 2) (hfr : f ≤ 128 * (r : ℚ))
    (hlow : 256 * (r : ℚ) / (2 * f) ≤ 1073741696) (hv : v ≤ 127) (hfrom : 0 ≤ audio_from)
    (hc0 : 0 ≤ ctr) (hc1 : ctr * 256 < 9223372036854775808) :
    ∃ H, freq_samples_fixed_c r f = some H ∧ 1 ≤ H ∧ 0 < H * 2 ∧
      H * 2 + 256 ≤ 2147483648 ∧
      ∃ out, emit_note_c r v f ctr audio_from audio_to stream = some out ∧
        ((r : ℚ) / 2 < f →
          H < 256 ∧
          ∀ n : Nat, (n : Int) < audio_to - audio_from →
            out (audio_from.toNat + n) = 128 - v) := by
  have hrq : (0 : ℚ) < (r : ℚ) := by exact_mod_cast hr
  have hd : (0 : ℚ) < f * 2 := by positivity
  have hqe : ((r * 256 : Int) : ℚ) / (f * 2) = 256 * (r : ℚ) / (2 * f) := by
    push_cast
    ring
  have hq1 : ((1 : Int) : ℚ) ≤ ((r * 256 : Int) : ℚ) / (f * 2) := by
    rw [le_div_iff₀ hd]
    push_cast
    linarith
  have hq2 : ((r * 256 : Int) : ℚ) / (f * 2) ≤ ((1073741696 : Int) : ℚ) := by
    rw [hqe]
    exact_mod_cast hlow
  have hqpos : (0 : ℚ) < ((r * 256 : Int) : ℚ) / (f * 2) := by
    have : (0 : ℚ) < ((1 : Int) : ℚ) := by norm_num
    linarith
  have hQ1 := fl64_ge_int _ 1 (by decide) (by decide) hq1
  have hQ2 := fl64_le_int _ 1073741696 hqpos (by decide) hq2
  generalize hQdef : fl64 (((r * 256 : Int) : ℚ) / (f * 2)) = Q at hQ1 hQ2
  have hQ0 : (0 : ℚ) ≤ Q := by
    have : (0 : ℚ) < ((1 : Int) : ℚ) := by norm_num
    linarith
  have hH : freq_samples_fixed_c r f = some (trunc Q) := by
    unfold freq_samples_fixed_c
    rw [if_neg (by omega), hfd, if_neg (ne_of_gt hd), hQdef]
    rw [if_neg]
    rintro (h | h)
    · linarith
    · have : ((1073741696 : Int) : ℚ) < 2147483648 := by norm_num
      linarith
  have hT1 : 1 ≤ trunc Q := by
    rw [trunc_of_nonneg Q hQ0, Int.le_floor]
    exact hQ1
  have hT2 : trunc Q ≤ 1073741696 := by
    rw [trunc_of_nonneg Q hQ0]
    have := Int.floor_le_floor hQ2
    rwa [Int.floor_intCast] at this
  refine ⟨trunc Q, hH, hT1, by omega, by omega, ?_⟩
  have hem := emit_note_c_eq r v f (trunc Q) ctr audio_from audio_to stream hH (by omega)
    (by omega) hc0 hc1
  refine ⟨_, hem, ?_⟩
  intro hhalf
  have hgap := fl64_gap_above_int (f * 2) r hr hfd (by linarith) (by
    have h3 : (r : ℚ) * 256 < 2147483648 := by exact_mod_cast hr2
    linarith)
  have hq3 : ((r * 256 : Int) : ℚ) / (f * 2) ≤ 256 * (1 - 1 / 9007199254740992) := by
    rw [div_le_iff₀ hd]
    push_cast
    have : (256 : ℚ) * (1 - 1 / 9007199254740992) * (f * 2)
        = 256 * (f * 2 * (1 - 1 / 9007199254740992)) := by ring
    rw [this]
    linarith
  have hQ3 := fl64_lt_256 _ hqpos hq3
  rw [hQdef] at hQ3
  have hlt : trunc Q < 256 := by
    rw [trunc_of_nonneg Q hQ0, Int.floor_lt]
    exact_mod_cast hQ3
  refine ⟨hlt, fun n hn => ?_⟩
  rw [note_loop_low v _ (by omega) hlt _ audio_from _ stream hfrom
    (lt_tmod_of_pos_aux _ _ (by omega)) (Int.tmod_lt_of_pos _ (by omega)) n (by omega),
    sample_lo v hv]

end Zeta
